import Mathlib

/-! # Container lifecycle orchestration: lock table, dispatcher and idle-container reaper

A shallow embedding of `core/container/controller.go`, `core/container/gc/gc.go`,
`core/chaincode/chaincode_support.go`, `core/scc/importsysccs.go` and
`core/container/mockcontroller/mockcontroller.go`.

* Go maps are association lists with at most one entry per key (`GoMap`).
* A `sync.RWMutex` is a heap object: it is named by its address, and the controller
  state records which addresses are currently write-locked.
* Goroutines are interleaved one atomic step at a time; the code run under
  `vmc.Lock()` ... `vmc.Unlock()` is one atomic step.
* A Go `error` is its message; `time.Time` and `time.Duration` are integers
  (nanoseconds), so `Before` is `<` and `Add` is `+`. A `time.Duration` is an `int64`:
  the negation of one wraps (`gc.int64`).
-/

/-! ## Go maps -/

namespace GoMap

/-- The map read `m[x]` with its `ok` flag: `none` when the key is absent. -/
def get {α : Type} : List (String × α) → String → Option α
  | [], _ => none
  | (k, v) :: m, x => if k = x then some v else get m x

/-- The map write `m[x] = a`: replaces the entry of `x` or adds one. -/
def set {α : Type} : List (String × α) → String → α → List (String × α)
  | [], x, a => [(x, a)]
  | (k, v) :: m, x, a => if k = x then (k, a) :: m else (k, v) :: set m x a

/-- The builtin `delete(m, x)`. -/
def delete {α : Type} : List (String × α) → String → List (String × α)
  | [], _ => []
  | (k, v) :: m, x => if k = x then delete m x else (k, v) :: delete m x

/-- The keys of the map, in iteration order. -/
def keys {α : Type} (m : List (String × α)) : List String :=
  m.map Prod.fst

end GoMap

/-! ## `core/container/controller.go` -/

namespace container

/-- A Go `error`, identified with its message. -/
abbrev error := String

/-- The type `ccintf.CCID`: the chaincode name (`ChaincodeSpec.ChaincodeId.Name`), network id,
peer id and version, as the tests construct it. -/
structure CCID where
  Name : String
  NetworkID : String
  PeerID : String
  Version : String
deriving DecidableEq, Repr

/-- A `context.Context` as the dispatcher sees it: `Err = none` while the context is live,
`Err = some e` once `Done()` is closed, `e` being what `ctxt.Err()` returns. -/
structure Context where
  Err : Option error
deriving DecidableEq, Repr

/-- The context `context.Background()`: never cancelled. -/
def Context.Background : Context :=
  { Err := none }

/-- The response type `VMCResp`; `Resp` holds any response, `Err` is tested first. -/
structure VMCResp where
  Err : Option error
  Resp : Option String
deriving DecidableEq, Repr

/-- The zero value `VMCResp{}`. -/
def VMCResp.empty : VMCResp :=
  { Err := none, Resp := none }

/-- The driver interface `api.VM`, restricted to the methods the dispatcher reaches.
Each method is given by the error it returns (`none` is `nil`). -/
structure VM where
  Start : Context → CCID → List String → List String → List (String × List Nat) → Nat → Nat →
    Option error
  Stop : Context → CCID → Nat → Bool → Bool → Option error
  GetVMName : CCID → Except error String

/-- The interface `VMProvider`; `NewVM` may return the nil interface (`none`). -/
structure VMProvider where
  NewVM : Option VM

/-- The struct `refCountedLock`: `lock` is the address of the entry's `sync.RWMutex`. -/
structure refCountedLock where
  refCount : Int
  lock : Nat
deriving DecidableEq, Repr

/-- The struct `VMController`, together with the heap of per-container mutexes its entries
point to: `locked` lists the addresses of the mutexes that are write-locked, and `nextMutex`
is the address the next `&sync.RWMutex{}` gets. -/
structure VMController where
  containerLocks : List (String × refCountedLock)
  vmProviders : List (String × VMProvider)
  locked : List Nat
  nextMutex : Nat

def DOCKER : String := "Docker"

def SYSTEM : String := "System"

def MOCKVM : String := "MockVM"

/-- The constructor `NewVMController`; the three providers are created by packages outside
this development and are parameters. -/
def NewVMController (docker inproc mock : VMProvider) : VMController :=
  { containerLocks := []
    vmProviders := [(DOCKER, docker), (SYSTEM, inproc), (MOCKVM, mock)]
    locked := []
    nextMutex := 0 }

/-- The method `newVM`: `Except.error` is the `vmLogger.Panicf` of an unsupported type;
`Except.ok none` is a provider returning the nil interface. -/
def newVM (vmc : VMController) (typ : String) : Except String (Option VM) :=
  match GoMap.get vmc.vmProviders typ with
  | none => Except.error ("Programming error: unsupported VM type: " ++ typ)
  | some v => Except.ok v.NewVM

/-- The first half of `lockContainer` (the section under `vmc.Lock()`): creates the entry with
`refCount = 1` and a fresh mutex, or increments `refCount`. Returns the new controller and the
address of `refLck.lock`. -/
def lockContainerEnter (vmc : VMController) (id : String) : VMController × Nat :=
  match GoMap.get vmc.containerLocks id with
  | none =>
    ({ vmc with
        containerLocks := GoMap.set vmc.containerLocks id { refCount := 1, lock := vmc.nextMutex }
        nextMutex := vmc.nextMutex + 1 },
      vmc.nextMutex)
  | some refLck =>
    ({ vmc with
        containerLocks :=
          GoMap.set vmc.containerLocks id { refCount := refLck.refCount + 1, lock := refLck.lock } },
      refLck.lock)

/-- The second half of `lockContainer`: `refLck.lock.Lock()` on the mutex at address `a`.
`none` while the mutex is held: the caller stays blocked. -/
def lockContainerAcquire (vmc : VMController) (a : Nat) : Option VMController :=
  if a ∈ vmc.locked then none else some { vmc with locked := a :: vmc.locked }

/-- The method `lockContainer` run without interruption: `none` when it blocks. -/
def lockContainer (vmc : VMController) (id : String) : Option VMController :=
  lockContainerAcquire (lockContainerEnter vmc id).1 (lockContainerEnter vmc id).2

/-- The method `unlockContainer`. `Except.error` is a crash: the `refcnt <= 0` panic, or the
runtime's fatal error on unlocking a mutex that is not locked. -/
def unlockContainer (vmc : VMController) (id : String) : Except String VMController :=
  match GoMap.get vmc.containerLocks id with
  | some refLck =>
    if refLck.refCount ≤ 0 then Except.error "refcnt <= 0"
    else if refLck.lock ∉ vmc.locked then Except.error "sync: Unlock of unlocked RWMutex"
    else if refLck.refCount - 1 = 0 then
      Except.ok { vmc with
        containerLocks := GoMap.delete vmc.containerLocks id
        locked := vmc.locked.filter (fun b => !(b == refLck.lock)) }
    else
      Except.ok { vmc with
        containerLocks :=
          GoMap.set vmc.containerLocks id { refCount := refLck.refCount - 1, lock := refLck.lock }
        locked := vmc.locked.filter (fun b => !(b == refLck.lock)) }
  | none => Except.ok vmc

/-- The interface `VMCReqIntf`: any request type with a `do` and a `getCCID` method. -/
structure VMCReqIntf where
  do_ : Context → VM → VMCResp
  getCCID : CCID

/-- The struct `StartContainerReq`; `Builder` and `PrelaunchFunc` are function values, kept as
handles that are passed on to the driver unchanged. -/
structure StartContainerReq where
  CCID : CCID
  Builder : Nat
  Args : List String
  Env : List String
  FilesToUpload : List (String × List Nat)
  PrelaunchFunc : Nat

/-- The method `StartContainerReq.do`. -/
def StartContainerReq.do_ (si : StartContainerReq) (ctxt : Context) (v : VM) : VMCResp :=
  match v.Start ctxt si.CCID si.Args si.Env si.FilesToUpload si.Builder si.PrelaunchFunc with
  | some err => { Err := some err, Resp := none }
  | none => VMCResp.empty

def StartContainerReq.getCCID (si : StartContainerReq) : container.CCID :=
  si.CCID

/-- The struct `StopContainerReq`. -/
structure StopContainerReq where
  CCID : CCID
  Timeout : Nat
  Dontkill : Bool
  Dontremove : Bool
deriving DecidableEq, Repr

/-- The method `StopContainerReq.do`. -/
def StopContainerReq.do_ (si : StopContainerReq) (ctxt : Context) (v : VM) : VMCResp :=
  match v.Stop ctxt si.CCID si.Timeout si.Dontkill si.Dontremove with
  | some err => { Err := some err, Resp := none }
  | none => VMCResp.empty

def StopContainerReq.getCCID (si : StopContainerReq) : container.CCID :=
  si.CCID

/-- A `StartContainerReq` seen through the interface `VMCReqIntf`. -/
def StartContainerReq.toReq (si : StartContainerReq) : VMCReqIntf :=
  { do_ := si.do_, getCCID := si.getCCID }

/-- A `StopContainerReq` seen through the interface `VMCReqIntf`. -/
def StopContainerReq.toReq (si : StopContainerReq) : VMCReqIntf :=
  { do_ := si.do_, getCCID := si.getCCID }

/-! ### The lock table under concurrent clients

A client is one `lockContainer(id)` ... `unlockContainer(id)` pair in the making: it enters
`lockContainer` (the bookkeeping under the table lock), later gets the mutex, later calls
`unlockContainer`. Any number of clients are interleaved. -/

/-- Where a client of the lock table stands. -/
inductive Client where
  | idle
  | waiting (id : String) (a : Nat)
  | holding (id : String)
deriving DecidableEq, Repr

/-- The client has called `lockContainer(id)` and not yet completed `unlockContainer(id)`. -/
def Client.uses (id : String) : Client → Bool
  | Client.idle => false
  | Client.waiting k _ => decide (k = id)
  | Client.holding k => decide (k = id)

/-- The client has returned from `lockContainer(id)` and not yet called `unlockContainer(id)`. -/
def Client.holds (id : String) : Client → Bool
  | Client.holding k => decide (k = id)
  | _ => false

/-- The lock table with its clients; `crashed` is set by a panic in `unlockContainer`. -/
structure LockSys where
  vmc : VMController
  clients : List Client
  crashed : Option String

/-- One atomic step of one client. -/
inductive LockAct where
  | enter (i : Nat) (id : String)
  | acquire (i : Nat)
  | unlock (i : Nat) (id : String)
deriving DecidableEq, Repr

/-- Number of `lockContainer(id)` calls not yet matched by an `unlockContainer(id)`. -/
def outstanding (cs : List Client) (id : String) : Nat :=
  cs.countP (Client.uses id)

/-- Number of clients that hold the lock of `id`. -/
def holders (cs : List Client) (id : String) : Nat :=
  cs.countP (Client.holds id)

/-- One step of the lock table: `none` when the step cannot be taken (the client is blocked on
the mutex, is not at that point of its pair, or the process has crashed). An `unlock i id` is
taken only by a client whose `lockContainer(id)` has returned. -/
def LockSys.step (g : LockSys) : LockAct → Option LockSys
  | LockAct.enter i id =>
    if g.crashed.isSome then none
    else
      match g.clients[i]? with
      | some Client.idle =>
        some { g with
          vmc := (lockContainerEnter g.vmc id).1
          clients := g.clients.set i (Client.waiting id (lockContainerEnter g.vmc id).2) }
      | _ => none
  | LockAct.acquire i =>
    if g.crashed.isSome then none
    else
      match g.clients[i]? with
      | some (Client.waiting id a) =>
        match lockContainerAcquire g.vmc a with
        | some vmc1 => some { g with vmc := vmc1, clients := g.clients.set i (Client.holding id) }
        | none => none
      | _ => none
  | LockAct.unlock i id =>
    if g.crashed.isSome then none
    else
      match g.clients[i]? with
      | some (Client.holding k) =>
        if k = id then
          match unlockContainer g.vmc id with
          | Except.ok vmc1 =>
            some { g with vmc := vmc1, clients := g.clients.set i Client.idle }
          | Except.error msg => some { g with crashed := some msg }
        else none
      | _ => none

/-- A run: the steps of a schedule, one after the other; `none` if one cannot be taken. -/
def LockSys.run (g : LockSys) : List LockAct → Option LockSys
  | [] => some g
  | a :: as =>
    match g.step a with
    | some g1 => LockSys.run g1 as
    | none => none

/-- The start: an empty lock table and `n` clients that have not called anything yet. -/
def LockSys.init (docker inproc mock : VMProvider) (n : Nat) : LockSys :=
  { vmc := NewVMController docker inproc mock
    clients := List.replicate n Client.idle
    crashed := none }

/-- Number of `lockContainer(id)` calls entered in a schedule. -/
def LockAct.enters (id : String) (as : List LockAct) : Nat :=
  as.countP (fun a => match a with
    | LockAct.enter _ k => decide (k = id)
    | _ => false)

/-- Number of `unlockContainer(id)` calls in a schedule. -/
def LockAct.unlocks (id : String) (as : List LockAct) : Nat :=
  as.countP (fun a => match a with
    | LockAct.unlock _ k => decide (k = id)
    | _ => false)

/-! ### `Process` as interleaved goroutines

Every call of `Process` is a caller (lines 186–189 and the `select`) and a worker goroutine
(lines 193–204). `req.do` takes time: it starts in one step and returns in a later one. -/

/-- Where the worker goroutine of a `Process` call stands. -/
inductive Worker where
  | notStarted
  | resolve
  | locking (id : String)
  | waiting (id : String) (a : Nat)
  | holding (id : String)
  | running (id : String)
  | unlocking (id : String) (resp : VMCResp)
  | closed (resp : VMCResp) (ranDo : Bool)
deriving DecidableEq, Repr

/-- Where the caller side of a `Process` call stands; `draining` is the `<-c` of the
cancellation branch. -/
inductive Caller where
  | entry
  | selecting
  | draining
  | returned (resp : VMCResp) (err : Option error)
  | panicked (msg : String)
deriving DecidableEq, Repr

/-- One call `Process(ctxt, vmtype, req)`; `v` is the driver `newVM` returned. -/
structure Call where
  ctxt : Context
  vmtype : String
  req : VMCReqIntf
  v : Option VM
  worker : Worker
  caller : Caller

/-- The controller with the `Process` calls made on it. -/
structure System where
  vmc : VMController
  calls : List Call
  crashed : Option String

/-- One atomic step: of the caller side of call `i` (`pickDone` is the branch the `select`
takes), of its worker goroutine, or the cancellation of its context with error `e`. -/
inductive Act where
  | caller (i : Nat) (pickDone : Bool)
  | worker (i : Nat)
  | cancel (i : Nat) (e : error)
deriving DecidableEq, Repr

/-- The lock-table client a worker is. -/
def Worker.client : Worker → Client
  | Worker.waiting id a => Client.waiting id a
  | Worker.holding id => Client.holding id
  | Worker.running id => Client.holding id
  | Worker.unlocking id _ => Client.holding id
  | _ => Client.idle

/-- The caller side of `Process`: `newVM` and the nil check, then the `select`. A `select`
branch can be taken only when its channel is ready. -/
def Call.callerStep (vmc : VMController) (c : Call) (pickDone : Bool) : Option Call :=
  match c.caller with
  | Caller.entry =>
    match newVM vmc c.vmtype with
    | Except.error msg => some { c with caller := Caller.panicked msg }
    | Except.ok none =>
      some { c with
        caller := Caller.returned VMCResp.empty (some ("Unknown VM type " ++ c.vmtype)) }
    | Except.ok (some v) =>
      some { c with v := some v, worker := Worker.resolve, caller := Caller.selecting }
  | Caller.selecting =>
    if pickDone then
      if c.ctxt.Err.isSome then some { c with caller := Caller.draining } else none
    else
      match c.worker with
      | Worker.closed resp _ => some { c with caller := Caller.returned resp none }
      | _ => none
  | Caller.draining =>
    match c.worker with
    | Worker.closed _ _ => some { c with caller := Caller.returned VMCResp.empty c.ctxt.Err }
    | _ => none
  | _ => none

/-- The worker goroutine of call `i`, one step. -/
def System.workerStep (s : System) (i : Nat) (c : Call) : Option System :=
  match c.worker, c.v with
  | Worker.resolve, some v =>
    match v.GetVMName c.req.getCCID with
    | Except.error err =>
      some { s with
        calls := s.calls.set i
          { c with worker := Worker.closed { Err := some err, Resp := none } false } }
    | Except.ok id => some { s with calls := s.calls.set i { c with worker := Worker.locking id } }
  | Worker.locking id, _ =>
    some { s with
      vmc := (lockContainerEnter s.vmc id).1
      calls := s.calls.set i
        { c with worker := Worker.waiting id (lockContainerEnter s.vmc id).2 } }
  | Worker.waiting id a, _ =>
    match lockContainerAcquire s.vmc a with
    | some vmc1 =>
      some { s with vmc := vmc1, calls := s.calls.set i { c with worker := Worker.holding id } }
    | none => none
  | Worker.holding id, _ =>
    some { s with calls := s.calls.set i { c with worker := Worker.running id } }
  | Worker.running id, some v =>
    some { s with
      calls := s.calls.set i { c with worker := Worker.unlocking id (c.req.do_ c.ctxt v) } }
  | Worker.unlocking id resp, _ =>
    match unlockContainer s.vmc id with
    | Except.ok vmc1 =>
      some { s with
        vmc := vmc1
        calls := s.calls.set i { c with worker := Worker.closed resp true } }
    | Except.error msg => some { s with crashed := some msg }
  | _, _ => none

/-- One step of the system: `none` when the step cannot be taken. -/
def System.step (s : System) : Act → Option System
  | Act.caller i pickDone =>
    if s.crashed.isSome then none
    else
      match s.calls[i]? with
      | some c =>
        match c.callerStep s.vmc pickDone with
        | some c1 => some { s with calls := s.calls.set i c1 }
        | none => none
      | none => none
  | Act.worker i =>
    if s.crashed.isSome then none
    else
      match s.calls[i]? with
      | some c => s.workerStep i c
      | none => none
  | Act.cancel i e =>
    if s.crashed.isSome then none
    else
      match s.calls[i]? with
      | some c =>
        if c.ctxt.Err.isSome then none
        else some { s with calls := s.calls.set i { c with ctxt := { Err := some e } } }
      | none => none

/-- A run of the system under a schedule. -/
def System.run (s : System) : List Act → Option System
  | [] => some s
  | a :: as =>
    match s.step a with
    | some s1 => System.run s1 as
    | none => none

/-- A call that has not begun. -/
def Call.new (ctxt : Context) (vmtype : String) (req : VMCReqIntf) : Call :=
  { ctxt := ctxt, vmtype := vmtype, req := req, v := none
    worker := Worker.notStarted, caller := Caller.entry }

/-- The start: a new controller and the calls that are going to be made on it. -/
def System.init (docker inproc mock : VMProvider)
    (reqs : List (Context × String × VMCReqIntf)) : System :=
  { vmc := NewVMController docker inproc mock
    calls := reqs.map (fun r => Call.new r.1 r.2.1 r.2.2)
    crashed := none }

/-- The lock table and its clients, forgetting the rest of the calls. -/
def System.lockSys (s : System) : LockSys :=
  { vmc := s.vmc, clients := s.calls.map (fun c => c.worker.client), crashed := s.crashed }

/-- What a `Process` call that runs alone comes to. -/
inductive ProcessResult where
  | returned (resp : VMCResp) (err : Option error) (vmc : VMController)
  | panicked (msg : String)
  | blocked

/-- The method `Process`, run from start to end with no other goroutine in between.
`pickDone` is the branch the `select` takes when the context is done; `blocked` is a worker
that waits for a mutex someone else holds. -/
def Process (vmc : VMController) (ctxt : Context) (vmtype : String) (req : VMCReqIntf)
    (pickDone : Bool) : ProcessResult :=
  match newVM vmc vmtype with
  | Except.error msg => ProcessResult.panicked msg
  | Except.ok none =>
    ProcessResult.returned VMCResp.empty (some ("Unknown VM type " ++ vmtype)) vmc
  | Except.ok (some v) =>
    match v.GetVMName req.getCCID with
    | Except.error err =>
      if pickDone && ctxt.Err.isSome then ProcessResult.returned VMCResp.empty ctxt.Err vmc
      else ProcessResult.returned { Err := some err, Resp := none } none vmc
    | Except.ok id =>
      match lockContainer vmc id with
      | none => ProcessResult.blocked
      | some vmc1 =>
        match unlockContainer vmc1 id with
        | Except.error msg => ProcessResult.panicked msg
        | Except.ok vmc2 =>
          if pickDone && ctxt.Err.isSome then ProcessResult.returned VMCResp.empty ctxt.Err vmc2
          else ProcessResult.returned (req.do_ ctxt v) none vmc2

/-- A sample state: client 0 holds the lock of `"a"`, client 1 waits for it. -/
def LockSys.sample : LockSys :=
  { vmc :=
      { containerLocks := [("a", { refCount := 2, lock := 0 })]
        vmProviders := [(DOCKER, ⟨none⟩), (SYSTEM, ⟨none⟩), (MOCKVM, ⟨none⟩)]
        locked := [0]
        nextMutex := 1 }
    clients := [Client.holding "a", Client.waiting "a" 0]
    crashed := none }

/-- The lock-table invariant: each entry counts the clients between their `lockContainer` and
their `unlockContainer`, names without such a client have no entry, a waiting client waits on
the mutex of the current entry, and a mutex is locked exactly when its one holder exists. -/
structure LockSys.Inv (g : LockSys) : Prop where
  alive : g.crashed = none
  absent : ∀ id, GoMap.get g.vmc.containerLocks id = none → outstanding g.clients id = 0
  present : ∀ id e, GoMap.get g.vmc.containerLocks id = some e →
    e.refCount = (outstanding g.clients id : Int) ∧ 0 < outstanding g.clients id ∧
    e.lock < g.vmc.nextMutex ∧ (e.lock ∈ g.vmc.locked ↔ 0 < holders g.clients id)
  waiters : ∀ (i : Nat) (id : String) (a : Nat), g.clients[i]? = some (Client.waiting id a) →
    ∃ e, GoMap.get g.vmc.containerLocks id = some e ∧ e.lock = a
  single : ∀ id, holders g.clients id ≤ 1
  distinct : ∀ id k e f, GoMap.get g.vmc.containerLocks id = some e →
    GoMap.get g.vmc.containerLocks k = some f → e.lock = f.lock → id = k
  bounded : ∀ a, a ∈ g.vmc.locked → a < g.vmc.nextMutex

/-- What the worker of a started call knows: the name it works on is the one `GetVMName`
resolved, and a closed worker either failed to resolve the name (and never ran `req.do`) or
ran `req.do` to its end and holds what it returned. -/
def Call.workerOk (c : Call) (v : VM) : Prop :=
  match c.worker with
  | Worker.notStarted => False
  | Worker.resolve => True
  | Worker.locking id => v.GetVMName c.req.getCCID = Except.ok id
  | Worker.waiting id _ => v.GetVMName c.req.getCCID = Except.ok id
  | Worker.holding id => v.GetVMName c.req.getCCID = Except.ok id
  | Worker.running id => v.GetVMName c.req.getCCID = Except.ok id
  | Worker.unlocking id resp =>
    v.GetVMName c.req.getCCID = Except.ok id ∧ ∃ ctx0, resp = c.req.do_ ctx0 v
  | Worker.closed resp ranDo =>
    match v.GetVMName c.req.getCCID with
    | Except.error err => ranDo = false ∧ resp = { Err := some err, Resp := none }
    | Except.ok _ => ranDo = true ∧ ∃ ctx0, resp = c.req.do_ ctx0 v

/-- What the caller side of a started call knows: the cancellation branch is taken only on a
done context, and `Process` has returned only after the worker closed `c`, with the
result of the branch taken. -/
def Call.callerOk (c : Call) : Prop :=
  match c.caller with
  | Caller.selecting => True
  | Caller.draining => c.ctxt.Err.isSome = true
  | Caller.returned resp err =>
    ∃ r b, c.worker = Worker.closed r b ∧
      ((err = none ∧ resp = r) ∨
        (err = c.ctxt.Err ∧ c.ctxt.Err.isSome = true ∧ resp = VMCResp.empty))
  | _ => False

/-- Coherence of one call with the provider table `ps`: either no goroutine was started
(the call has not begun, `newVM` panicked on a type without provider, or the provider returned
nil), or `newVM` returned the driver `v` and worker and caller are as described above. -/
def Call.Ok (ps : List (String × VMProvider)) (c : Call) : Prop :=
  (c.worker = Worker.notStarted ∧ c.v = none ∧
    (c.caller = Caller.entry ∨
      (c.caller = Caller.panicked ("Programming error: unsupported VM type: " ++ c.vmtype) ∧
        GoMap.get ps c.vmtype = none) ∨
      (c.caller = Caller.returned VMCResp.empty (some ("Unknown VM type " ++ c.vmtype)) ∧
        ∃ p, GoMap.get ps c.vmtype = some p ∧ p.NewVM = none))) ∨
  (∃ p v, GoMap.get ps c.vmtype = some p ∧ p.NewVM = some v ∧ c.v = some v ∧
    c.workerOk v ∧ c.callerOk)

/-- The invariant of the system: the provider table is the one it was created with, the
lock-table invariant holds for the workers as clients, and every call is coherent. -/
structure System.Inv (ps : List (String × VMProvider)) (s : System) : Prop where
  providers : s.vmc.vmProviders = ps
  locks : s.lockSys.Inv
  calls : ∀ (i : Nat) (c : Call), s.calls[i]? = some c → c.Ok ps

/-- A sample driver: every action succeeds and the container is named after the chaincode. -/
def VM.sample : VM :=
  { Start := fun _ _ _ _ _ _ _ => none
    Stop := fun _ _ _ _ _ => none
    GetVMName := fun ccid => Except.ok ccid.Name }

/-- A sample request: stop the container of chaincode `cc1`. -/
def StopContainerReq.sample : StopContainerReq :=
  { CCID := { Name := "cc1", NetworkID := "dev", PeerID := "testPeer", Version := "1.0" }
    Timeout := 0, Dontkill := false, Dontremove := true }

/-- The schedule that brings one call into `req.do`. -/
def Act.sampleSchedule : List Act :=
  [Act.caller 0 false, Act.worker 0, Act.worker 0, Act.worker 0, Act.worker 0]

/-- A sample state: the one call of the system is inside `req.do`. -/
def System.sample : System :=
  { vmc :=
      { containerLocks := [("cc1", { refCount := 1, lock := 0 })]
        vmProviders := [(DOCKER, ⟨none⟩), (SYSTEM, ⟨none⟩), (MOCKVM, ⟨some VM.sample⟩)]
        locked := [0]
        nextMutex := 1 }
    calls :=
      [{ ctxt := Context.Background, vmtype := MOCKVM, req := StopContainerReq.sample.toReq
         v := some VM.sample, worker := Worker.running "cc1", caller := Caller.selecting }]
    crashed := none }

/-- A sample state: the context of the one call was cancelled while its worker was about to
resolve the name, and the `select` took the cancellation branch. -/
def System.sampleDraining : System :=
  { vmc := NewVMController ⟨none⟩ ⟨none⟩ ⟨some VM.sample⟩
    calls :=
      [{ ctxt := { Err := some "context canceled" }, vmtype := MOCKVM
         req := StopContainerReq.sample.toReq
         v := some VM.sample, worker := Worker.resolve, caller := Caller.draining }]
    crashed := none }

/-- A sample state: the one call asked for a VM type without provider. -/
def System.samplePanicked : System :=
  { vmc := NewVMController ⟨none⟩ ⟨none⟩ ⟨some VM.sample⟩
    calls :=
      [{ ctxt := Context.Background, vmtype := "Kubernetes"
         req := StopContainerReq.sample.toReq
         v := none, worker := Worker.notStarted
         caller := Caller.panicked "Programming error: unsupported VM type: Kubernetes" }]
    crashed := none }

/-- A sample driver whose name resolution fails. -/
def VM.unresolvable : VM :=
  { Start := fun _ _ _ _ _ _ _ => none
    Stop := fun _ _ _ _ _ => none
    GetVMName := fun _ => Except.error "bad name" }

/-- A sample state: the one call of the system has returned after its name resolution
failed. -/
def System.sampleUnresolved : System :=
  { vmc := NewVMController ⟨none⟩ ⟨none⟩ ⟨some VM.unresolvable⟩
    calls :=
      [{ ctxt := Context.Background, vmtype := MOCKVM, req := StopContainerReq.sample.toReq
         v := some VM.unresolvable
         worker := Worker.closed { Err := some "bad name", Resp := none } false
         caller := Caller.returned { Err := some "bad name", Resp := none } none }]
    crashed := none }

end container

/-! ## `core/container/gc/gc.go` -/

namespace gc

open container

/-- The struct `vmInfo`: `activeTime` is a `time.Time` in nanoseconds. `infoLock` only guards
`activeTime` inside `UpdateVM` and the scan and is free between steps. -/
structure vmInfo where
  ccid : CCID
  activeTime : Int
deriving DecidableEq, Repr

def newVmInfo (ccid : CCID) (activeTime : Int) : vmInfo :=
  { ccid := ccid, activeTime := activeTime }

/-- The struct `GCManager`. The maps hold `vmInfo` values: the two maps never share a
`*vmInfo`, since the scan puts a fresh copy into `expiredVMs`. `exitCh` is the number of
signals buffered in the channel of capacity 1. -/
structure GCManager where
  runningVMs : List (String × vmInfo)
  expiredVMs : List (String × vmInfo)
  vmLiveTime : Int
  gcInterval : Int
  vmType : String
  exitCh : Nat
deriving DecidableEq, Repr

/-- The constructor `NewGCManager` (the goroutine `startGC` it starts is `Reaper.looping`). -/
def NewGCManager (vmType : String) (vmLiveTime gcInterval : Int) : GCManager :=
  { runningVMs := [], expiredVMs := [], vmLiveTime := vmLiveTime, gcInterval := gcInterval
    vmType := vmType, exitCh := 0 }

/-- The method `AddVM`. -/
def GCManager.AddVM (gc : GCManager) (canName : String) (ccid : CCID) (activeTime : Int) :
    GCManager :=
  { gc with runningVMs := GoMap.set gc.runningVMs canName (newVmInfo ccid activeTime) }

/-- The method `UpdateVM`: writes `activeTime` through the pointer found in `runningVMs`. -/
def GCManager.UpdateVM (gc : GCManager) (canName : String) (activeTime : Int) : GCManager :=
  match GoMap.get gc.runningVMs canName with
  | some info =>
    { gc with
      runningVMs :=
        GoMap.set gc.runningVMs canName { ccid := info.ccid, activeTime := activeTime } }
  | none => gc

/-- The result of an arithmetic operation of type `int64`, which `time.Duration` is: the
mathematical result wrapped into `-2^63 ≤ x < 2^63`. -/
def int64 (x : Int) : Int :=
  (x + 9223372036854775808) % 18446744073709551616 - 9223372036854775808

/-- The scan of one tick of `startGC` (lines 94–103): `expiredTime := now.Add(-gc.vmLiveTime)`,
then the loop over `runningVMs` that copies into `expiredVMs`. The negation is one of
`int64`: it wraps for the least duration. -/
def GCManager.markExpired (gc : GCManager) (now : Int) : GCManager :=
  { gc with
    expiredVMs :=
      gc.runningVMs.foldl
        (fun ex p =>
          if p.2.activeTime < now + int64 (-gc.vmLiveTime) then
            GoMap.set ex p.1 (newVmInfo p.2.ccid p.2.activeTime)
          else ex)
        gc.expiredVMs }

/-- The request `container.StopImageReq` that `stopVM` builds, with the fields it sets. -/
structure StopImageReq where
  CCID : CCID
  Timeout : Nat
  Dontkill : Bool
  Dontremove : Bool
deriving DecidableEq, Repr

/-- A dispatcher as `stopVM` sees one, with the state `σ` it works on: from the context, the VM
type and the request to the response, the error and the new state. The dispatcher that
`gc.go` calls is `VMCProcess` below; this type also takes any other, for the properties that
hold whatever the dispatcher answers. A call that does not return (a panic, a goroutine that
stays blocked) is a state of `σ`. -/
abbrev Dispatcher (σ : Type) : Type :=
  σ → Context → String → StopImageReq → (VMCResp × Option error) × σ

/-- The method `stopVM`: the response is dropped, the error is returned. -/
def GCManager.stopVM {σ : Type} (VMCProcess : Dispatcher σ) (gc : GCManager) (d : σ)
    (ccid : CCID) : Option error × σ :=
  ((VMCProcess d Context.Background gc.vmType
      { CCID := ccid, Timeout := 0, Dontkill := false, Dontremove := true }).1.2,
    (VMCProcess d Context.Background gc.vmType
      { CCID := ccid, Timeout := 0, Dontkill := false, Dontremove := true }).2)

/-- The loop of `stopExpiredVMs` over the entries still to visit. The third component is what
the loop logs: for each entry visited its name and the error of its Stop (`none` when it
succeeded). -/
def GCManager.stopLoop {σ : Type} (VMCProcess : Dispatcher σ) :
    List (String × vmInfo) → GCManager → σ → GCManager × σ × List (String × Option error)
  | [], gc, d => (gc, d, [])
  | (vmName, info) :: rest, gc, d =>
    match (gc.stopVM VMCProcess d info.ccid).1 with
    | some err =>
      ((GCManager.stopLoop VMCProcess rest gc (gc.stopVM VMCProcess d info.ccid).2).1,
        (GCManager.stopLoop VMCProcess rest gc (gc.stopVM VMCProcess d info.ccid).2).2.1,
        (vmName, some err) ::
          (GCManager.stopLoop VMCProcess rest gc (gc.stopVM VMCProcess d info.ccid).2).2.2)
    | none =>
      ((GCManager.stopLoop VMCProcess rest
          { gc with
            runningVMs := GoMap.delete gc.runningVMs vmName
            expiredVMs := GoMap.delete gc.expiredVMs vmName }
          (gc.stopVM VMCProcess d info.ccid).2).1,
        (GCManager.stopLoop VMCProcess rest
          { gc with
            runningVMs := GoMap.delete gc.runningVMs vmName
            expiredVMs := GoMap.delete gc.expiredVMs vmName }
          (gc.stopVM VMCProcess d info.ccid).2).2.1,
        (vmName, none) ::
          (GCManager.stopLoop VMCProcess rest
            { gc with
              runningVMs := GoMap.delete gc.runningVMs vmName
              expiredVMs := GoMap.delete gc.expiredVMs vmName }
            (gc.stopVM VMCProcess d info.ccid).2).2.2)

/-- The method `stopExpiredVMs`: the loop over the entries of `expiredVMs`. -/
def GCManager.stopExpiredVMs {σ : Type} (VMCProcess : Dispatcher σ) (gc : GCManager) (d : σ) :
    GCManager × σ × List (String × Option error) :=
  GCManager.stopLoop VMCProcess gc.expiredVMs gc d

/-- The method `Close`: a send on `exitCh` that is dropped when the buffer is full. -/
def GCManager.Close (gc : GCManager) : GCManager :=
  if gc.exitCh < 1 then { gc with exitCh := gc.exitCh + 1 } else gc

/-- The reaper at run time: the manager, the state of the dispatcher, whether the goroutine
`startGC` is still in its loop, and what `stopExpiredVMs` logged in the last sweep. -/
structure Reaper (σ : Type) where
  gc : GCManager
  disp : σ
  looping : Bool
  log : List (String × Option error)

/-- What happens to a reaper: the calls of its methods, a tick of the ticker taken by the
`select` of `startGC` (a sweep at time `now`), and the `select` taking `exitCh`. -/
inductive Event where
  | AddVM (canName : String) (ccid : CCID) (activeTime : Int)
  | UpdateVM (canName : String) (activeTime : Int)
  | tick (now : Int)
  | exit
  | Close
deriving DecidableEq, Repr

/-- The reaper right after `NewGCManager`. The goroutine `startGC` begins with
`time.NewTicker(gc.gcInterval)`, which panics for an interval that is not positive: the loop
runs only for a positive interval. -/
def Reaper.init {σ : Type} (vmType : String) (vmLiveTime gcInterval : Int) (d : σ) : Reaper σ :=
  { gc := NewGCManager vmType vmLiveTime gcInterval, disp := d
    looping := decide (0 < gcInterval), log := [] }

/-- One sweep: the scan, then `stopExpiredVMs`. -/
def Reaper.sweep {σ : Type} (VMCProcess : Dispatcher σ) (r : Reaper σ) (now : Int) : Reaper σ :=
  { gc := ((r.gc.markExpired now).stopExpiredVMs VMCProcess r.disp).1
    disp := ((r.gc.markExpired now).stopExpiredVMs VMCProcess r.disp).2.1
    looping := r.looping
    log := ((r.gc.markExpired now).stopExpiredVMs VMCProcess r.disp).2.2 }

/-- One step of the reaper: `none` when the event cannot happen (a tick or an exit of a loop
that has returned, an exit without a signal in `exitCh`). -/
def Reaper.step {σ : Type} (VMCProcess : Dispatcher σ) (r : Reaper σ) : Event → Option (Reaper σ)
  | Event.AddVM canName ccid activeTime =>
    some { r with gc := r.gc.AddVM canName ccid activeTime }
  | Event.UpdateVM canName activeTime => some { r with gc := r.gc.UpdateVM canName activeTime }
  | Event.tick now => if r.looping then some (r.sweep VMCProcess now) else none
  | Event.exit =>
    if r.looping && decide (0 < r.gc.exitCh) then
      some { r with gc := { r.gc with exitCh := r.gc.exitCh - 1 }, looping := false }
    else none
  | Event.Close => some { r with gc := r.gc.Close }

/-- A run of the reaper through a list of events. -/
def Reaper.run {σ : Type} (VMCProcess : Dispatcher σ) (r : Reaper σ) :
    List Event → Option (Reaper σ)
  | [] => some r
  | e :: es =>
    match r.step VMCProcess e with
    | some r1 => Reaper.run VMCProcess r1 es
    | none => none

/-- A sample dispatcher, its state counting the calls: the first Stop fails, the later ones
succeed. -/
def Dispatcher.failFirst : Dispatcher Nat :=
  fun n _ _ _ =>
    if n = 0 then ((VMCResp.empty, some "stop failed"), n + 1)
    else ((VMCResp.empty, none), n + 1)

/-- A sample dispatcher without state: every Stop succeeds. -/
def Dispatcher.alwaysOk : Dispatcher Unit :=
  fun _ _ _ _ => ((VMCResp.empty, none), ())

/-- The ticks of a ticker with interval 1 from time 1 to time `n`. -/
def Event.ticks (n : Nat) : List Event :=
  (List.range n).map (fun k => Event.tick (k + 1))

/-- The container id `ccid1` of the tests. -/
def CCID.cc1 : CCID :=
  { Name := "cc1", NetworkID := "dev", PeerID := "testPeer", Version := "1.0" }

/-- The container id `ccid2` of the tests. -/
def CCID.cc2 : CCID :=
  { Name := "cc2", NetworkID := "dev", PeerID := "testPeer", Version := "1.0" }

/-- A sample manager: `cc1` last active at 0, `cc2` at 10, idle threshold 10. -/
def GCManager.sample : GCManager :=
  { runningVMs :=
      [("cc1:1.0", { ccid := CCID.cc1, activeTime := 0 }),
        ("cc2:1.0", { ccid := CCID.cc2, activeTime := 10 })]
    expiredVMs := [("cc1:1.0", { ccid := CCID.cc1, activeTime := 0 })]
    vmLiveTime := 10, gcInterval := 1, vmType := "MockVM", exitCh := 0 }

/-- Both maps of the manager are maps: no name has two entries. -/
def GCManager.WF (gc : GCManager) : Prop :=
  (GoMap.keys gc.runningVMs).Nodup ∧ (GoMap.keys gc.expiredVMs).Nodup

/-- The dispatcher `P` with a record of the calls made on it: every call is passed on to `P`
and its context, VM type and request are appended to the record. -/
def Dispatcher.recording {σ : Type} (P : Dispatcher σ) :
    Dispatcher (σ × List (Context × String × StopImageReq)) :=
  fun d ctxt vmType req =>
    ((P d.1 ctxt vmType req).1, ((P d.1 ctxt vmType req).2, d.2 ++ [(ctxt, vmType, req)]))

/-- The request `container.StopImageReq` of `gc.go` as `controller.go` has it: the struct
`StopContainerReq`, with the same four fields, seen through `VMCReqIntf`. -/
def StopImageReq.toReq (sir : StopImageReq) : VMCReqIntf :=
  StopContainerReq.toReq
    { CCID := sir.CCID, Timeout := sir.Timeout, Dontkill := sir.Dontkill
      Dontremove := sir.Dontremove }

/-- The process as a call of the dispatcher of `controller.go` leaves it: alive with its
controller, dead of a panic, or with the calling goroutine waiting for a container mutex that
is held. -/
inductive Proc where
  | live (vmc : VMController)
  | panicked (msg : String)
  | blocked (vmc : VMController)

/-- The dispatcher `container.VMCProcess` that `gc.go` calls, as `controller.go` has it: the
method `Process` (which its own comment calls `VMCProcess`) on the controller of the process.
`pickDone` is the branch its `select` takes on a done context. A call that panics or blocks
does not return: the process is then `panicked` or `blocked` for good, no later call is made,
and what such a call is given as result here, an error, makes the caller write nothing. -/
def VMCProcess (pickDone : Bool) : Dispatcher Proc :=
  fun p ctxt vmType req =>
    match p with
    | Proc.live vmc =>
      match Process vmc ctxt vmType req.toReq pickDone with
      | ProcessResult.returned resp err vmc1 => ((resp, err), Proc.live vmc1)
      | ProcessResult.panicked msg => ((VMCResp.empty, some msg), Proc.panicked msg)
      | ProcessResult.blocked => ((VMCResp.empty, some "blocked"), Proc.blocked vmc)
    | Proc.panicked msg => ((VMCResp.empty, some msg), Proc.panicked msg)
    | Proc.blocked vmc => ((VMCResp.empty, some "blocked"), Proc.blocked vmc)

/-- No Stop of type `vmType` returns from this process without an error any more: it has
panicked or is blocked, or the provider of the type returns no driver. -/
def Proc.Dead (p : Proc) (vmType : String) : Prop :=
  match p with
  | Proc.live vmc => ∃ q, GoMap.get vmc.vmProviders vmType = some q ∧ q.NewVM = none
  | _ => True

/-- A sample driver whose Stop fails and whose containers are named after the chaincode. -/
def failingStop : VM :=
  { Start := fun _ _ _ _ _ _ _ => none
    Stop := fun _ _ _ _ _ => some "boom"
    GetVMName := fun ccid => Except.ok ccid.Name }

/-- Every name of the expired set is a name of the tracked set. -/
def GCManager.ExpiredTracked (gc : GCManager) : Prop :=
  ∀ name, name ∈ GoMap.keys gc.expiredVMs → name ∈ GoMap.keys gc.runningVMs

end gc

/-! ## `core/chaincode/chaincode_support.go`

Byte slices are strings. A panic of the Go code is `Except.error`. The calls made on the
collaborators and on the reaper are recorded, in order, in the `trace` of the `World`. -/

namespace chaincode

open container gc

/-- The type `ccprovider.CCContext`, with the fields the facade reads. -/
structure CCContext where
  ChainID : String
  Name : String
  Version : String
  TxID : String
  Syscc : Bool
  ProposalDecorations : List (String × String)
deriving DecidableEq, Repr

/-- The method `GetCanonicalName`: name and version, as the launcher tests show it
(`"context-name:context-version"`). -/
def CCContext.GetCanonicalName (cccid : CCContext) : String :=
  cccid.Name ++ ":" ++ cccid.Version

/-- The message `pb.ChaincodeID`. -/
structure ChaincodeID where
  Name : String
  Version : String
deriving DecidableEq, Repr

/-- The message `pb.ChaincodeInput`. -/
structure ChaincodeInput where
  Args : List String
  Decorations : List (String × String)
deriving DecidableEq, Repr

/-- The message `pb.ChaincodeSpec`; a nil pointer field is `none`. -/
structure ChaincodeSpec where
  Type_ : Nat
  ChaincodeId : Option ChaincodeID
  Input : Option ChaincodeInput
deriving DecidableEq, Repr

/-- The message `pb.ChaincodeDeploymentSpec`. -/
structure ChaincodeDeploymentSpec where
  ChaincodeSpec : Option chaincode.ChaincodeSpec
  CodePackage : Option String
deriving DecidableEq, Repr

/-- The message `pb.ChaincodeInvocationSpec`. -/
structure ChaincodeInvocationSpec where
  ChaincodeSpec : Option chaincode.ChaincodeSpec
deriving DecidableEq, Repr

/-- The interface `ccprovider.ChaincodeSpecGetter` with the dynamic type of its value: a
deployment spec, an invocation spec, or a value of any other type. -/
inductive ChaincodeSpecGetter where
  | deployment (cds : ChaincodeDeploymentSpec)
  | invocation (cis : ChaincodeInvocationSpec)
  | other (spec : Option chaincode.ChaincodeSpec)
deriving DecidableEq, Repr

/-- The method `GetChaincodeSpec` of the interface. -/
def ChaincodeSpecGetter.GetChaincodeSpec : ChaincodeSpecGetter → Option chaincode.ChaincodeSpec
  | ChaincodeSpecGetter.deployment cds => cds.ChaincodeSpec
  | ChaincodeSpecGetter.invocation cis => cis.ChaincodeSpec
  | ChaincodeSpecGetter.other spec => spec

/-- The message `pb.ChaincodeEvent`. -/
structure ChaincodeEvent where
  ChaincodeId : String
  TxId : String
  EventName : String
  Payload : String
deriving DecidableEq, Repr

/-- The message `pb.ChaincodeMessage`; `Type_` is the field `Type`, the number of the enum value. -/
structure ChaincodeMessage where
  Type_ : Nat
  Payload : String
  Txid : String
  ChannelId : String
  ChaincodeEvent : Option chaincode.ChaincodeEvent
deriving DecidableEq, Repr

/-- The message `pb.Response`. -/
structure Response where
  Status : Int
  Message : String
  Payload : String
deriving DecidableEq, Repr

/-- The values of `pb.ChaincodeMessage_Type` and `pb.ChaincodeSpec_Type` that the facade
names, with their numbers in the generated code. -/
def ChaincodeMessage_INIT : Nat := 3

def ChaincodeMessage_TRANSACTION : Nat := 5

def ChaincodeMessage_COMPLETED : Nat := 6

def ChaincodeMessage_ERROR : Nat := 7

def ChaincodeSpec_GOLANG : Nat := 1

/-- The functions `proto.Marshal` (on a chaincode input) and `proto.Unmarshal` (into a
`pb.Response`), which are outside this development. -/
structure Proto where
  Marshal : ChaincodeInput → Except error String
  Unmarshal : String → Except error Response

/-- A handler of the registry, by what its method `Execute` returns: the message (nil is
`none`) and the error. -/
structure Handler where
  Execute : Context → CCContext → ChaincodeMessage → Int → Option ChaincodeMessage × Option error

/-- The calls that are recorded. -/
inductive Effect where
  | LauncherLaunch (cccid : CCContext) (spec : ChaincodeSpecGetter)
  | Execute (cname : String) (msg : ChaincodeMessage)
  | UpdateVM (canName : String) (activeTime : Int)
  | AddVM (canName : String) (ccid : CCID) (activeTime : Int)
  | Launching (cname : String)
  | Deregister (cname : String)
  | Start (ctx : Context) (cccid : CCContext) (cds : ChaincodeDeploymentSpec)
  | Stop (ctx : Context) (cccid : CCContext) (cds : ChaincodeDeploymentSpec)
  | GetChaincodeDeploymentSpec (cccid : CCContext) (name : String)
  | GetChaincode (name : String) (version : String)
deriving DecidableEq, Repr

/-- What the facade works on: the handler registry (the ready handlers by canonical name and
the names that are launching), the reaper `gcManager`, and the record of calls. -/
structure World where
  handlers : List (String × Handler)
  launching : List String
  gcManager : GCManager
  trace : List Effect

/-- The struct `ChaincodeSupport`: `Launcher` is the method `Launch` of its launcher; the
registry and the reaper are in the `World`. The identifiers `chaincodeSupport.userRunsCC`
and `chaincodeSupport.gcManager` of the file are the fields `UserRunsCC` and the reaper of
this one facade. -/
structure ChaincodeSupport where
  Keepalive : Int
  ExecuteTimeout : Int
  UserRunsCC : Bool
  Launcher : World → Context → CCContext → ChaincodeSpecGetter → Option error × World

/-- The method `Launch` of the facade: nil at once when the registry holds a handler for the
canonical name, the launcher otherwise. -/
def ChaincodeSupport.Launch (cs : ChaincodeSupport) (w : World) (ctx : Context)
    (cccid : CCContext) (spec : ChaincodeSpecGetter) : Option error × World :=
  match GoMap.get w.handlers cccid.GetCanonicalName with
  | some _ => (none, w)
  | none =>
    cs.Launcher { w with trace := w.trace ++ [Effect.LauncherLaunch cccid spec] } ctx cccid spec

/-- The function `createCCMessage`. -/
def createCCMessage (pb : Proto) (messageType : Nat) (cid txid : String)
    (cMsg : ChaincodeInput) : Except error ChaincodeMessage :=
  match pb.Marshal cMsg with
  | Except.error err => Except.error err
  | Except.ok payload =>
    Except.ok
      { Type_ := messageType, Payload := payload, Txid := txid, ChannelId := cid
        ChaincodeEvent := none }

/-- The method `execute`. The identifier `canName` is not declared in the file and is a
parameter; `now` is what `time.Now()` returns. -/
def ChaincodeSupport.execute (cs : ChaincodeSupport) (w : World) (ctxt : Context)
    (cccid : CCContext) (msg : ChaincodeMessage) (canName : String) (now : Int) :
    (Option ChaincodeMessage × Option error) × World :=
  match GoMap.get w.handlers cccid.GetCanonicalName with
  | none => ((none, some ("unable to invoke chaincode " ++ cccid.GetCanonicalName)), w)
  | some handler =>
    match (handler.Execute ctxt cccid msg cs.ExecuteTimeout).2 with
    | some err =>
      ((none, some ("error sending: " ++ err)),
        { w with
          gcManager :=
            if !(cccid.Syscc || cs.UserRunsCC) then w.gcManager.UpdateVM canName now
            else w.gcManager
          trace :=
            (if !(cccid.Syscc || cs.UserRunsCC) then w.trace ++ [Effect.UpdateVM canName now]
              else w.trace) ++ [Effect.Execute cccid.GetCanonicalName msg] })
    | none =>
      (((handler.Execute ctxt cccid msg cs.ExecuteTimeout).1, none),
        { w with
          gcManager :=
            if !(cccid.Syscc || cs.UserRunsCC) then w.gcManager.UpdateVM canName now
            else w.gcManager
          trace :=
            (if !(cccid.Syscc || cs.UserRunsCC) then w.trace ++ [Effect.UpdateVM canName now]
              else w.trace) ++ [Effect.Execute cccid.GetCanonicalName msg] })

/-- The end of `ExecuteSpec` (lines 225–248): from the message `execute` returned to the
response, the event and the error. -/
def normalise (pb : Proto) (cccid : CCContext) :
    Option ChaincodeMessage → Option Response × Option ChaincodeEvent × Option error
  | none => (none, none, some ("nil response from transaction " ++ cccid.TxID))
  | some resp =>
    if resp.Type_ = ChaincodeMessage_COMPLETED then
      match pb.Unmarshal resp.Payload with
      | Except.error err =>
        (none, none,
          some ("failed to unmarshal response for transaction " ++ cccid.TxID ++ ": " ++ err))
      | Except.ok res =>
        (some res,
          resp.ChaincodeEvent.map (fun ev => { ev with ChaincodeId := cccid.Name, TxId := cccid.TxID }),
          none)
    else if resp.Type_ = ChaincodeMessage_ERROR then
      (none,
        resp.ChaincodeEvent.map (fun ev => { ev with ChaincodeId := cccid.Name, TxId := cccid.TxID }),
        some ("transaction returned with failure: " ++ resp.Payload))
    else
      (none, none,
        some ("unexpected response type " ++ toString resp.Type_ ++ " for transaction " ++
          cccid.TxID))

/-- The method `ExecuteSpec`. `Except.error` is the nil pointer dereference of
`spec.GetChaincodeSpec().Input` on a nil chaincode spec, or of `cMsg.Decorations = ...` on a
nil input. -/
def ChaincodeSupport.ExecuteSpec (cs : ChaincodeSupport) (pb : Proto) (w : World)
    (ctxt : Context) (cccid : CCContext) (spec : ChaincodeSpecGetter) (canName : String)
    (now : Int) :
    Except String ((Option Response × Option ChaincodeEvent × Option error) × World) :=
  match (match spec with
    | ChaincodeSpecGetter.deployment _ => some ChaincodeMessage_INIT
    | ChaincodeSpecGetter.invocation _ => some ChaincodeMessage_TRANSACTION
    | ChaincodeSpecGetter.other _ => none) with
  | none => Except.ok ((none, none, some "a deployment or invocation spec is required"), w)
  | some cctyp =>
    match (cs.Launch w ctxt cccid spec).1 with
    | some err => Except.ok ((none, none, some err), (cs.Launch w ctxt cccid spec).2)
    | none =>
      match spec.GetChaincodeSpec with
      | none => Except.error "invalid memory address or nil pointer dereference"
      | some cspec =>
        match cspec.Input with
        | none => Except.error "invalid memory address or nil pointer dereference"
        | some cMsg =>
          match createCCMessage pb cctyp cccid.ChainID cccid.TxID
              { Args := cMsg.Args, Decorations := cccid.ProposalDecorations } with
          | Except.error err =>
            Except.ok
              ((none, none, some ("failed to create chaincode message: " ++ err)),
                (cs.Launch w ctxt cccid spec).2)
          | Except.ok ccMsg =>
            match (cs.execute (cs.Launch w ctxt cccid spec).2 ctxt cccid ccMsg canName now).1.2 with
            | some err =>
              Except.ok
                ((none, none,
                    some ("failed to execute transaction " ++ cccid.TxID ++ ": " ++ err)),
                  (cs.execute (cs.Launch w ctxt cccid spec).2 ctxt cccid ccMsg canName now).2)
            | none =>
              Except.ok
                (normalise pb cccid
                    (cs.execute (cs.Launch w ctxt cccid spec).2 ctxt cccid ccMsg canName
                      now).1.1,
                  (cs.execute (cs.Launch w ctxt cccid spec).2 ctxt cccid ccMsg canName now).2)

/-- The local `invocationSpec` of `ExecuteChaincode`. -/
def invocationSpec (cccid : CCContext) (args : List String) : ChaincodeSpecGetter :=
  ChaincodeSpecGetter.invocation
    { ChaincodeSpec :=
        some { Type_ := ChaincodeSpec_GOLANG
               ChaincodeId := some { Name := cccid.Name, Version := "" }
               Input := some { Args := args, Decorations := [] } } }

/-- The method `ExecuteChaincode`. The identifiers `canName` and `ccid` are not declared in
the file and are parameters; `tUpdate` and `tAdd` are what the two calls of `time.Now()`
return. -/
def ChaincodeSupport.ExecuteChaincode (cs : ChaincodeSupport) (pb : Proto) (w : World)
    (ctxt : Context) (cccid : CCContext) (args : List String) (canName : String) (ccid : CCID)
    (tUpdate tAdd : Int) :
    Except String ((Option Response × Option ChaincodeEvent × Option error) × World) :=
  match cs.ExecuteSpec pb w ctxt cccid (invocationSpec cccid args) canName tUpdate with
  | Except.error p => Except.error p
  | Except.ok ((_, _, some err), w1) =>
    Except.ok ((none, none, some ("error invoking chaincode: " ++ err)), w1)
  | Except.ok ((res, ccevent, none), w1) =>
    if !(cccid.Syscc || cs.UserRunsCC) then
      Except.ok
        ((res, ccevent, none),
          { w1 with
            gcManager := w1.gcManager.AddVM canName ccid tAdd
            trace := w1.trace ++ [Effect.AddVM canName ccid tAdd] })
    else Except.ok ((res, ccevent, none), w1)

/-! ### The launch coordinator

The file `launcher.go` is not among the sources; its tests are. -/

/-- The interface `Runtime` of `chaincode_support.go`, each method by the error it returns. -/
structure Runtime where
  Start : Context → CCContext → ChaincodeDeploymentSpec → Option error
  Stop : Context → CCContext → ChaincodeDeploymentSpec → Option error

/-- Modelled from the spec: the registry operation `Launching(name)`, which is not among the
sources. A name is absent, launching or ready, exactly one at a time; registering a name that
is launching or ready is a registration conflict, otherwise the name becomes launching. The
call is recorded. -/
def World.Launching (w : World) (cname : String) : Except error World :=
  if cname ∈ w.launching ∨ (GoMap.get w.handlers cname).isSome = true then
    Except.error ("chaincode " ++ cname ++ " is already launching or ready")
  else
    Except.ok { w with
      launching := w.launching ++ [cname]
      trace := w.trace ++ [Effect.Launching cname] }

/-- Modelled from the spec: the registry operation `Ready(name, handle)`, which is not among
the sources: a launching name becomes ready with its handler. -/
def World.Ready (w : World) (cname : String) (h : Handler) : World :=
  { w with
    handlers := GoMap.set w.handlers cname h
    launching := w.launching.filter (fun n => !(n == cname)) }

/-- Modelled from the spec: the registry operation `Deregister(name)`, which is not among the
sources: the name becomes absent. The call is recorded. -/
def World.Deregister (w : World) (cname : String) : World :=
  { w with
    handlers := GoMap.delete w.handlers cname
    launching := w.launching.filter (fun n => !(n == cname))
    trace := w.trace ++ [Effect.Deregister cname] }

/-- Modelled from the spec: the struct `Launcher` of `launcher.go`, which is not among the
sources, with the collaborators the tests give it: the runtime, the lifecycle call that
fetches the deployment spec, the package provider, and the startup timeout. -/
structure Launcher where
  Runtime : chaincode.Runtime
  GetChaincodeDeploymentSpec : Context → CCContext → String →
    Except error ChaincodeDeploymentSpec
  GetChaincode : String → String → Except error ChaincodeDeploymentSpec
  StartupTimeout : Int

/-- Modelled from the spec: the first part of `Launcher.Launch` (`launcher.go` is not among
the sources), which finds the deployment spec to start. A deployment spec is taken as it is.
Otherwise a system chaincode is not launched on demand, and for a user chaincode the
deployment spec is fetched from the lifecycle chaincode. A deployment spec without code
package is replaced by the one of the package provider. The error texts are those of the
tests. -/
def Launcher.deploymentSpec (l : Launcher) (w : World) (ctx : Context) (cccid : CCContext)
    (spec : ChaincodeSpecGetter) : Except error ChaincodeDeploymentSpec × World :=
  match (match spec with
    | ChaincodeSpecGetter.deployment cds => (Except.ok cds, w)
    | _ =>
      if cccid.Syscc then
        (Except.error
            ("a syscc should be running (it cannot be launched) " ++ cccid.GetCanonicalName),
          w)
      else
        (match l.GetChaincodeDeploymentSpec ctx cccid
            (((spec.GetChaincodeSpec.bind (fun c => c.ChaincodeId)).map
              (fun i => i.Name)).getD "") with
          | Except.error err =>
            Except.error
              ("failed to get deployment spec for " ++ cccid.GetCanonicalName ++ ": " ++ err)
          | Except.ok cds => Except.ok cds,
          { w with
            trace := w.trace ++
              [Effect.GetChaincodeDeploymentSpec cccid
                (((spec.GetChaincodeSpec.bind (fun c => c.ChaincodeId)).map
                  (fun i => i.Name)).getD "")] }) :
      Except error ChaincodeDeploymentSpec × World) with
  | (Except.error err, w1) => (Except.error err, w1)
  | (Except.ok cds, w1) =>
    match cds.CodePackage with
    | some _ => (Except.ok cds, w1)
    | none =>
      (match l.GetChaincode
          (((spec.GetChaincodeSpec.bind (fun c => c.ChaincodeId)).map (fun i => i.Name)).getD "")
          (((spec.GetChaincodeSpec.bind (fun c => c.ChaincodeId)).map
            (fun i => i.Version)).getD "") with
        | Except.error err => Except.error ("failed to get chaincode package: " ++ err)
        | Except.ok cds1 => Except.ok cds1,
        { w1 with
          trace := w1.trace ++
            [Effect.GetChaincode
              (((spec.GetChaincodeSpec.bind (fun c => c.ChaincodeId)).map
                (fun i => i.Name)).getD "")
              (((spec.GetChaincodeSpec.bind (fun c => c.ChaincodeId)).map
                (fun i => i.Version)).getD "")] })

/-- Modelled from the spec: the cleanup of a failed launch in `launcher.go`, which is not
among the sources: a Stop of the runtime whose error is only logged, then the deregistration
of the name. -/
def Launcher.cleanup (l : Launcher) (w : World) (ctx : Context) (cccid : CCContext)
    (cds : ChaincodeDeploymentSpec) : World :=
  match l.Runtime.Stop ctx cccid cds with
  | some _ =>
    World.Deregister { w with trace := w.trace ++ [Effect.Stop ctx cccid cds] }
      cccid.GetCanonicalName
  | none =>
    World.Deregister { w with trace := w.trace ++ [Effect.Stop ctx cccid cds] }
      cccid.GetCanonicalName

/-- Modelled from the spec: the second part of `Launcher.Launch` (`launcher.go` is not among
the sources). The name is registered as launching before Start is invoked, and a failed
registration ends the launch before any Start. A Start that fails is followed by the cleanup
and its error is returned, wrapped. Otherwise the launch waits for the readiness signal:
`ready` is the time after which the chaincode registers and the handler it registers with
(`none` if it never does); when the signal does not come within `StartupTimeout` the cleanup
is done and the timeout error is returned. The error texts are those of the tests. -/
def Launcher.start (l : Launcher) (ready : Option (Int × Handler)) (w : World) (ctx : Context)
    (cccid : CCContext) (cds : ChaincodeDeploymentSpec) : Option error × World :=
  match World.Launching w cccid.GetCanonicalName with
  | Except.error err =>
    (some ("failed to register " ++ cccid.GetCanonicalName ++ " as launching: " ++ err),
      { w with trace := w.trace ++ [Effect.Launching cccid.GetCanonicalName] })
  | Except.ok w1 =>
    match l.Runtime.Start ctx cccid cds with
    | some err =>
      (some ("error starting container: " ++ err),
        l.cleanup { w1 with trace := w1.trace ++ [Effect.Start ctx cccid cds] } ctx cccid cds)
    | none =>
      match ready with
      | some (delay, h) =>
        if delay ≤ l.StartupTimeout then
          (none,
            World.Ready { w1 with trace := w1.trace ++ [Effect.Start ctx cccid cds] }
              cccid.GetCanonicalName h)
        else
          (some ("timeout expired while starting chaincode " ++ cccid.GetCanonicalName ++
              " for transaction " ++ cccid.TxID),
            l.cleanup { w1 with trace := w1.trace ++ [Effect.Start ctx cccid cds] } ctx cccid
              cds)
      | none =>
        (some ("timeout expired while starting chaincode " ++ cccid.GetCanonicalName ++
            " for transaction " ++ cccid.TxID),
          l.cleanup { w1 with trace := w1.trace ++ [Effect.Start ctx cccid cds] } ctx cccid cds)

/-- Modelled from the spec: the method `Launcher.Launch` of `launcher.go`, which is not among
the sources: find the deployment spec, then register, start and wait. -/
def Launcher.Launch (l : Launcher) (ready : Option (Int × Handler)) (w : World) (ctx : Context)
    (cccid : CCContext) (spec : ChaincodeSpecGetter) : Option error × World :=
  match l.deploymentSpec w ctx cccid spec with
  | (Except.error err, w1) => (some err, w1)
  | (Except.ok cds, w1) => l.start ready w1 ctx cccid cds

/-! ### Sample values -/

/-- The chaincode context of the samples: user chaincode `cc1`, version `1.0`. -/
def CCContext.sample : CCContext :=
  { ChainID := "chain-id", Name := "cc1", Version := "1.0", TxID := "tx-id", Syscc := false
    ProposalDecorations := [] }

/-- A sample handler whose `Execute` fails. -/
def Handler.failing : Handler :=
  { Execute := fun _ _ _ _ => (none, some "stream closed") }

/-- A sample handler whose `Execute` returns a `COMPLETED` message with the payload it was
sent. -/
def Handler.completing : Handler :=
  { Execute := fun _ _ msg _ =>
      (some { Type_ := ChaincodeMessage_COMPLETED, Payload := msg.Payload, Txid := msg.Txid
              ChannelId := msg.ChannelId, ChaincodeEvent := none }, none) }

/-- A sample codec: the arguments joined by commas, and a response with status 200 around the
payload. -/
def Proto.sample : Proto :=
  { Marshal := fun cMsg => Except.ok (String.intercalate "," cMsg.Args)
    Unmarshal := fun payload => Except.ok { Status := 200, Message := "", Payload := payload } }

/-- A sample deployment spec with a code package. -/
def ChaincodeDeploymentSpec.sample : ChaincodeDeploymentSpec :=
  { ChaincodeSpec :=
      some { Type_ := ChaincodeSpec_GOLANG
             ChaincodeId := some { Name := "cc1", Version := "1.0" }
             Input := some { Args := ["init"], Decorations := [] } }
    CodePackage := some "code-package" }

/-- A sample launcher whose runtime returns the given errors from Start and Stop. -/
def Launcher.sample (startErr stopErr : Option error) : Launcher :=
  { Runtime := { Start := fun _ _ _ => startErr, Stop := fun _ _ _ => stopErr }
    GetChaincodeDeploymentSpec := fun _ _ _ => Except.ok ChaincodeDeploymentSpec.sample
    GetChaincode := fun _ _ => Except.ok ChaincodeDeploymentSpec.sample
    StartupTimeout := 5 }

/-- A sample facade in production mode whose launcher is the sample launcher with a runtime
that starts, the chaincode registering after 1 time unit. -/
def ChaincodeSupport.sample : ChaincodeSupport :=
  { Keepalive := 0, ExecuteTimeout := 30, UserRunsCC := false
    Launcher := (Launcher.sample none none).Launch (some (1, Handler.completing)) }

/-- A sample facade in production mode whose launcher returns nil without registering a
handler, as when a concurrent Stop deregisters the chaincode right after the launch. -/
def ChaincodeSupport.racing : ChaincodeSupport :=
  { Keepalive := 0, ExecuteTimeout := 30, UserRunsCC := false
    Launcher := fun w _ _ _ => (none, w) }

/-- The chaincode context of the launcher tests. -/
def CCContext.test : CCContext :=
  { ChainID := "chain-id", Name := "context-name", Version := "context-version"
    TxID := "tx-id", Syscc := false, ProposalDecorations := [] }

/-- The deployment spec of the launcher tests. -/
def ChaincodeDeploymentSpec.test : ChaincodeDeploymentSpec :=
  { ChaincodeSpec :=
      some { Type_ := 0
             ChaincodeId := some { Name := "chaincode-name", Version := "chaincode-version" }
             Input := none }
    CodePackage := some "code-package" }

/-- A sample world: nothing registered, nothing tracked. -/
def World.empty : World :=
  { handlers := [], launching := [], gcManager := NewGCManager "Docker" 600 20, trace := [] }

/-- A sample world: `cc1:1.0` is ready with the handler `h` and tracked since time 0. -/
def World.tracked (h : Handler) : World :=
  { handlers := [("cc1:1.0", h)], launching := []
    gcManager := (NewGCManager "Docker" 600 20).AddVM "cc1:1.0" CCID.cc1 0, trace := [] }

/-- The durations `time.Second` and `time.Minute`, in nanoseconds. -/
def Second : Int := 1000000000

def Minute : Int := 60 * Second

/-- The constructor `NewChaincodeSupport`, with the fields of the facade that this development
has. `Keepalive` and `ExecuteTimeout` are the fields of `config` it reads, `launcher` is the
method `Launch` of the launcher it builds, and `liveTime` and `interval` are what
`viper.GetDuration` returns for `"chaincode.livetime"` and `"chaincode.gcInterval"`. Returns
the facade and the world it starts in: an empty registry and the reaper of line 99. -/
def NewChaincodeSupport (Keepalive ExecuteTimeout : Int) (userRunsCC : Bool)
    (launcher : World → Context → CCContext → ChaincodeSpecGetter → Option error × World)
    (liveTime interval : Int) : ChaincodeSupport × World :=
  ({ Keepalive := Keepalive, ExecuteTimeout := ExecuteTimeout, UserRunsCC := userRunsCC
     Launcher := launcher },
    { handlers := [], launching := []
      gcManager :=
        NewGCManager "Docker"
          (if liveTime > 0 * Second then liveTime else 10 * Minute)
          (if interval > 0 * Second then interval else 20 * Second)
      trace := [] })

/-- A sample deployment spec whose chaincode spec has no input. -/
def ChaincodeDeploymentSpec.noInput : ChaincodeDeploymentSpec :=
  { ChaincodeSpec :=
      some { Type_ := ChaincodeSpec_GOLANG
             ChaincodeId := some { Name := "cc1", Version := "1.0" }
             Input := none }
    CodePackage := some "code-package" }

end chaincode

/-! ## `core/scc/importsysccs.go` -/

namespace scc

/-- The struct `SystemChaincode` of `sysccapi.go`. `Chaincode` is a function value, kept as the
name of the constructor it is. -/
structure SystemChaincode where
  Name : String
  Path : String
  InitArgs : List String
  Chaincode : String
  InvokableExternal : Bool
  InvokableCC2CC : Bool
  Enabled : Bool
deriving DecidableEq, Repr

/-- The package variable `systemChaincodes` as `importsysccs.go` initialises it; a field that
is left out there has its zero value. -/
def systemChaincodes : List SystemChaincode :=
  [{ Enabled := true, Name := "cscc", Path := "github.com/hyperledger/fabric/core/scc/cscc"
     InitArgs := [], Chaincode := "cscc.NewAsChaincode", InvokableExternal := true
     InvokableCC2CC := false },
   { Enabled := true, Name := "lscc", Path := "github.com/hyperledger/fabric/core/scc/lscc"
     InitArgs := [], Chaincode := "lscc.NewAsChaincode", InvokableExternal := true
     InvokableCC2CC := true },
   { Enabled := true, Name := "vscc", Path := "github.com/hyperledger/fabric/core/scc/vscc"
     InitArgs := [], Chaincode := "vscc.NewAsChaincode", InvokableExternal := false
     InvokableCC2CC := false },
   { Enabled := true, Name := "qscc"
     Path := "github.com/hyperledger/fabric/core/chaincode/qscc"
     InitArgs := [], Chaincode := "qscc.NewAsChaincode", InvokableExternal := true
     InvokableCC2CC := true }]

/-- The function `IsSysCC`. The package variable it reads can be replaced
(`MockRegisterSysCCs`, `MockResetSysCCs`), so its value `sccs` is an argument. -/
def IsSysCC : List SystemChaincode → String → Bool
  | [], _ => false
  | sysCC :: sccs, name => if sysCC.Name = name then true else IsSysCC sccs name

/-- The function `IsSysCCAndNotInvokableExternal`, on the value `sccs` of the package
variable. -/
def IsSysCCAndNotInvokableExternal : List SystemChaincode → String → Bool
  | [], _ => false
  | sysCC :: sccs, name =>
    if sysCC.Name = name then !sysCC.InvokableExternal
    else IsSysCCAndNotInvokableExternal sccs name

/-- The function `IsSysCCAndNotInvokableCC2CC`, on the value `sccs` of the package variable. -/
def IsSysCCAndNotInvokableCC2CC : List SystemChaincode → String → Bool
  | [], _ => false
  | sysCC :: sccs, name =>
    if sysCC.Name = name then !sysCC.InvokableCC2CC
    else IsSysCCAndNotInvokableCC2CC sccs name

/-- A sample registry in which the name `"a"` is given to two entries. -/
def SystemChaincode.repeated : List SystemChaincode :=
  [{ Enabled := true, Name := "a", Path := "a", InitArgs := [], Chaincode := "a"
     InvokableExternal := true, InvokableCC2CC := false },
   { Enabled := true, Name := "a", Path := "b", InitArgs := [], Chaincode := "b"
     InvokableExternal := false, InvokableCC2CC := false }]

end scc

/-! ## `core/container/mockcontroller/mockcontroller.go` -/

namespace mockcontroller

open container

/-- The struct `Provider`, which has no fields. -/
structure Provider where
deriving DecidableEq, Repr

/-- The struct `MockVM`. The map `runningVMs` is `none` when it is nil; the values are
`time.Time` in nanoseconds. `vmLock` is held only inside a method and is free between calls. -/
structure MockVM where
  runningVMs : Option (List (String × Int))
deriving DecidableEq, Repr

def NewProvider : Provider :=
  {}

/-- The method `NewVM`: the struct literal `&MockVM{}`, whose map is nil. -/
def Provider.NewVM (_p : Provider) : MockVM :=
  { runningVMs := none }

/-- The method `Deploy`. -/
def MockVM.Deploy (_mock : MockVM) (_ctxt : Context) (_ccid : CCID) (_args _env : List String)
    (_reader : Nat) : Option error :=
  none

/-- The method `Start`. `GetName` is the method `GetName` of `ccintf.CCID`, which is outside
this development; `now` is what `time.Now()` returns. `Except.error` is the panic of the Go
runtime on a write to a nil map. -/
def MockVM.Start (mock : MockVM) (GetName : CCID → String) (_ctxt : Context) (ccid : CCID)
    (_args _env : List String) (_filesToUpload : List (String × List Nat))
    (_builder _prelaunchFunc : Nat) (now : Int) : Except String (Option error × MockVM) :=
  match mock.runningVMs with
  | none => Except.error "assignment to entry in nil map"
  | some m => Except.ok (none, { runningVMs := some (GoMap.set m (GetName ccid) now) })

/-- The method `Stop`; `delete` on a nil map does nothing. -/
def MockVM.Stop (mock : MockVM) (GetName : CCID → String) (_ctxt : Context) (ccid : CCID)
    (_timeout : Nat) (_dontkill _dontremove : Bool) : Option error × MockVM :=
  (none, { runningVMs := mock.runningVMs.map (fun m => GoMap.delete m (GetName ccid)) })

/-- The method `Destroy`; `delete` on a nil map does nothing. -/
def MockVM.Destroy (mock : MockVM) (GetName : CCID → String) (_ctxt : Context) (ccid : CCID)
    (_force _noprune : Bool) : Option error × MockVM :=
  (none, { runningVMs := mock.runningVMs.map (fun m => GoMap.delete m (GetName ccid)) })

/-- The method `GetVMName`: the name and the error, which is always nil. -/
def MockVM.GetVMName (_mock : MockVM) (GetName : CCID → String) (ccid : CCID) :
    String × Option error :=
  (GetName ccid, none)

end mockcontroller

/-! # Properties -/

namespace GoMap

theorem get_set_self {α : Type} (m : List (String × α)) (x : String) (a : α) :
    get (set m x a) x = some a := by
  induction m with
  | nil => simp [set, get]
  | cons p m ih =>
    obtain ⟨k, v⟩ := p
    by_cases h : k = x
    · simp [set, get, h]
    · simp [set, get, h, ih]

theorem get_set_ne {α : Type} (m : List (String × α)) (x y : String) (a : α) (hxy : x ≠ y) :
    get (set m x a) y = get m y := by
  induction m with
  | nil => simp [set, get, hxy]
  | cons p m ih =>
    obtain ⟨k, v⟩ := p
    by_cases h : k = x
    · subst h; simp [set, get, hxy]
    · by_cases h2 : k = y
      · subst h2; simp [set, get, h]
      · simp [set, get, h, h2, ih]

theorem get_delete_self {α : Type} (m : List (String × α)) (x : String) :
    get (delete m x) x = none := by
  induction m with
  | nil => simp [delete, get]
  | cons p m ih =>
    obtain ⟨k, v⟩ := p
    by_cases h : k = x
    · simp [delete, h, ih]
    · simp [delete, get, h, ih]

theorem get_delete_ne {α : Type} (m : List (String × α)) (x y : String) (hxy : x ≠ y) :
    get (delete m x) y = get m y := by
  induction m with
  | nil => simp [delete, get]
  | cons p m ih =>
    obtain ⟨k, v⟩ := p
    by_cases h : k = x
    · subst h; simp [delete, get, hxy, ih]
    · by_cases h2 : k = y
      · subst h2; simp [delete, get, h]
      · simp [delete, get, h, h2, ih]

theorem delete_of_get_none {α : Type} (m : List (String × α)) (x : String)
    (h : get m x = none) : delete m x = m := by
  induction m with
  | nil => simp [delete]
  | cons p m ih =>
    obtain ⟨k, v⟩ := p
    by_cases hk : k = x
    · simp [get, hk] at h
    · simp [get, hk] at h
      simp [delete, hk, ih h]

theorem delete_set_of_get_none {α : Type} (m : List (String × α)) (x : String) (a : α)
    (h : get m x = none) : delete (set m x a) x = m := by
  induction m with
  | nil => simp [set, delete]
  | cons p m ih =>
    obtain ⟨k, v⟩ := p
    by_cases hk : k = x
    · simp [get, hk] at h
    · simp [get, hk] at h
      simp [set, delete, hk, ih h]

theorem set_set_of_get {α : Type} (m : List (String × α)) (x : String) (a e : α)
    (h : get m x = some e) : set (set m x a) x e = m := by
  induction m with
  | nil => simp [get] at h
  | cons p m ih =>
    obtain ⟨k, v⟩ := p
    by_cases hk : k = x
    · simp [get, hk] at h
      simp [set, hk, h]
    · simp [get, hk] at h
      simp [set, hk, ih h]

end GoMap

namespace container

theorem countP_set_add {α : Type} (p : α → Bool) :
    ∀ (l : List α) (i : Nat) (c d : α), l[i]? = some c →
      (l.set i d).countP p + (p c).toNat = l.countP p + (p d).toNat
  | [], i, c, d, h => by simp at h
  | x :: l, 0, c, d, h => by
    simp at h
    subst h
    simp only [List.set_cons_zero, List.countP_cons]
    cases p x <;> cases p d <;> simp
  | x :: l, i + 1, c, d, h => by
    simp at h
    have ih := countP_set_add p l i c d h
    simp only [List.set_cons_succ, List.countP_cons]
    omega

theorem outstanding_set (cs : List Client) (i : Nat) (c d : Client) (id : String)
    (h : cs[i]? = some c) :
    outstanding (cs.set i d) id + (c.uses id).toNat = outstanding cs id + (d.uses id).toNat :=
  countP_set_add (Client.uses id) cs i c d h

theorem holders_set (cs : List Client) (i : Nat) (c d : Client) (id : String)
    (h : cs[i]? = some c) :
    holders (cs.set i d) id + (c.holds id).toNat = holders cs id + (d.holds id).toNat :=
  countP_set_add (Client.holds id) cs i c d h

theorem holders_le_outstanding (cs : List Client) (id : String) :
    holders cs id ≤ outstanding cs id := by
  unfold holders outstanding
  apply List.countP_mono_left
  intro c _ hc
  cases c <;> simp_all [Client.holds, Client.uses]

theorem outstanding_pos_of_mem (cs : List Client) (i : Nat) (c : Client) (id : String)
    (h : cs[i]? = some c) (hu : c.uses id = true) : 0 < outstanding cs id := by
  unfold outstanding
  rw [List.countP_pos_iff]
  exact ⟨c, List.getElem?_mem h, hu⟩

theorem holders_pos_of_mem (cs : List Client) (i : Nat) (c : Client) (id : String)
    (h : cs[i]? = some c) (hu : c.holds id = true) : 0 < holders cs id := by
  unfold holders
  rw [List.countP_pos_iff]
  exact ⟨c, List.getElem?_mem h, hu⟩

end container

namespace container

theorem lockContainerEnter_none (vmc : VMController) (id : String)
    (h : GoMap.get vmc.containerLocks id = none) :
    lockContainerEnter vmc id =
      ({ vmc with
          containerLocks :=
            GoMap.set vmc.containerLocks id { refCount := 1, lock := vmc.nextMutex }
          nextMutex := vmc.nextMutex + 1 },
        vmc.nextMutex) := by
  simp [lockContainerEnter, h]

theorem lockContainerEnter_some (vmc : VMController) (id : String) (e : refCountedLock)
    (h : GoMap.get vmc.containerLocks id = some e) :
    lockContainerEnter vmc id =
      ({ vmc with
          containerLocks :=
            GoMap.set vmc.containerLocks id { refCount := e.refCount + 1, lock := e.lock } },
        e.lock) := by
  simp [lockContainerEnter, h]

theorem LockSys.Inv.enter {g : LockSys} (hI : g.Inv) (i : Nat) (id : String)
    (hc : g.clients[i]? = some Client.idle) :
    LockSys.Inv { g with
      vmc := (lockContainerEnter g.vmc id).1
      clients := g.clients.set i (Client.waiting id (lockContainerEnter g.vmc id).2) } := by
  have hlt : i < g.clients.length := by
    by_contra hn
    rw [List.getElem?_eq_none (by omega)] at hc
    cases hc
  have hout : ∀ (a : Nat) (k : String), outstanding (g.clients.set i (Client.waiting id a)) k =
      outstanding g.clients k + (decide (id = k)).toNat := by
    intro a k
    have := outstanding_set g.clients i _ (Client.waiting id a) k hc
    simpa [Client.uses] using this
  have hhold : ∀ (a : Nat) (k : String), holders (g.clients.set i (Client.waiting id a)) k =
      holders g.clients k := by
    intro a k
    have := holders_set g.clients i _ (Client.waiting id a) k hc
    simpa [Client.holds] using this
  cases hget : GoMap.get g.vmc.containerLocks id with
  | none =>
    rw [lockContainerEnter_none _ _ hget]
    have h0 : outstanding g.clients id = 0 := hI.absent id hget
    have hh0 : holders g.clients id = 0 := by
      have := holders_le_outstanding g.clients id
      omega
    refine ⟨hI.alive, ?_, ?_, ?_, ?_, ?_, ?_⟩
    · intro k hk
      by_cases hik : id = k
      · subst hik
        simp [GoMap.get_set_self] at hk
      · simp only [GoMap.get_set_ne _ _ _ _ hik] at hk
        simp [hout, hik, hI.absent k hk]
    · intro k e hk
      by_cases hik : id = k
      · subst hik
        simp only [GoMap.get_set_self, Option.some.injEq] at hk
        subst hk
        simp only [hout, hhold, h0, hh0]
        refine ⟨by simp, by simp, by simp, ?_⟩
        constructor
        · intro hm
          have := hI.bounded _ hm
          omega
        · intro hm
          omega
      · simp only [GoMap.get_set_ne _ _ _ _ hik] at hk
        obtain ⟨h1, h2, h3, h4⟩ := hI.present k e hk
        simp only [hout, hhold, hik, decide_False, Bool.toNat_false, add_zero]
        exact ⟨h1, h2, by omega, h4⟩
    · intro j k a hj
      simp only [List.getElem?_set] at hj
      by_cases hij : i = j
      · simp only [hij, if_true] at hj
        split at hj
        · simp only [Option.some.injEq, Client.waiting.injEq] at hj
          obtain ⟨rfl, rfl⟩ := hj
          exact ⟨_, GoMap.get_set_self _ _ _, rfl⟩
        · cases hj
      · simp only [hij, if_false] at hj
        obtain ⟨e, he, hea⟩ := hI.waiters j k a hj
        by_cases hik : id = k
        · subst hik
          rw [hget] at he
          cases he
        · exact ⟨e, by simp only [GoMap.get_set_ne _ _ _ _ hik]; exact he, hea⟩
    · intro k
      simp only [hhold]
      exact hI.single k
    · intro k l e f hk hl hef
      by_cases hik : id = k
      · by_cases hil : id = l
        · rw [← hik, ← hil]
        · subst hik
          simp only [GoMap.get_set_self, Option.some.injEq] at hk
          simp only [GoMap.get_set_ne _ _ _ _ hil] at hl
          subst hk
          have := (hI.present l f hl).2.2.1
          simp only at hef
          omega
      · by_cases hil : id = l
        · subst hil
          simp only [GoMap.get_set_self, Option.some.injEq] at hl
          simp only [GoMap.get_set_ne _ _ _ _ hik] at hk
          subst hl
          have := (hI.present k e hk).2.2.1
          simp only at hef
          omega
        · simp only [GoMap.get_set_ne _ _ _ _ hik] at hk
          simp only [GoMap.get_set_ne _ _ _ _ hil] at hl
          exact hI.distinct k l e f hk hl hef
    · intro a ha
      have := hI.bounded a ha
      simp only
      omega
  | some e0 =>
    rw [lockContainerEnter_some _ _ _ hget]
    obtain ⟨p1, p2, p3, p4⟩ := hI.present id e0 hget
    refine ⟨hI.alive, ?_, ?_, ?_, ?_, ?_, ?_⟩
    · intro k hk
      by_cases hik : id = k
      · subst hik
        simp [GoMap.get_set_self] at hk
      · simp only [GoMap.get_set_ne _ _ _ _ hik] at hk
        simp [hout, hik, hI.absent k hk]
    · intro k e hk
      by_cases hik : id = k
      · subst hik
        simp only [GoMap.get_set_self, Option.some.injEq] at hk
        subst hk
        simp only [hout, hhold]
        refine ⟨by simp [p1], by simp, p3, p4⟩
      · simp only [GoMap.get_set_ne _ _ _ _ hik] at hk
        obtain ⟨h1, h2, h3, h4⟩ := hI.present k e hk
        simp only [hout, hhold, hik, decide_False, Bool.toNat_false, add_zero]
        exact ⟨h1, h2, h3, h4⟩
    · intro j k a hj
      simp only [List.getElem?_set] at hj
      by_cases hij : i = j
      · simp only [hij, if_true] at hj
        split at hj
        · simp only [Option.some.injEq, Client.waiting.injEq] at hj
          obtain ⟨rfl, rfl⟩ := hj
          exact ⟨_, GoMap.get_set_self _ _ _, rfl⟩
        · cases hj
      · simp only [hij, if_false] at hj
        obtain ⟨e, he, hea⟩ := hI.waiters j k a hj
        by_cases hik : id = k
        · subst hik
          rw [hget] at he
          cases he
          exact ⟨_, GoMap.get_set_self _ _ _, hea⟩
        · exact ⟨e, by simp only [GoMap.get_set_ne _ _ _ _ hik]; exact he, hea⟩
    · intro k
      simp only [hhold]
      exact hI.single k
    · intro k l e f hk hl hef
      by_cases hik : id = k
      · by_cases hil : id = l
        · rw [← hik, ← hil]
        · subst hik
          simp only [GoMap.get_set_self, Option.some.injEq] at hk
          simp only [GoMap.get_set_ne _ _ _ _ hil] at hl
          subst hk
          exact hI.distinct id l e0 f hget hl hef
      · by_cases hil : id = l
        · subst hil
          simp only [GoMap.get_set_self, Option.some.injEq] at hl
          simp only [GoMap.get_set_ne _ _ _ _ hik] at hk
          subst hl
          exact hI.distinct k id e e0 hk hget hef
        · simp only [GoMap.get_set_ne _ _ _ _ hik] at hk
          simp only [GoMap.get_set_ne _ _ _ _ hil] at hl
          exact hI.distinct k l e f hk hl hef
    · intro a ha
      exact hI.bounded a ha

theorem LockSys.Inv.acquire {g : LockSys} (hI : g.Inv) (i : Nat) (id : String) (a : Nat)
    (hc : g.clients[i]? = some (Client.waiting id a)) (hfree : a ∉ g.vmc.locked) :
    LockSys.Inv { g with
      vmc := { g.vmc with locked := a :: g.vmc.locked }
      clients := g.clients.set i (Client.holding id) } := by
  have hlt : i < g.clients.length := by
    by_contra hn
    rw [List.getElem?_eq_none (by omega)] at hc
    cases hc
  have hout : ∀ (k : String), outstanding (g.clients.set i (Client.holding id)) k =
      outstanding g.clients k := by
    intro k
    have := outstanding_set g.clients i _ (Client.holding id) k hc
    simpa [Client.uses] using this
  have hhold : ∀ (k : String), holders (g.clients.set i (Client.holding id)) k =
      holders g.clients k + (decide (id = k)).toNat := by
    intro k
    have := holders_set g.clients i _ (Client.holding id) k hc
    simpa [Client.holds] using this
  obtain ⟨e0, he0, hea⟩ := hI.waiters i id a hc
  obtain ⟨p1, p2, p3, p4⟩ := hI.present id e0 he0
  have hh0 : holders g.clients id = 0 := by
    by_contra hn
    exact hfree (hea ▸ p4.2 (by omega))
  refine ⟨hI.alive, ?_, ?_, ?_, ?_, ?_, ?_⟩
  · intro k hk
    simp only [hout]
    exact hI.absent k hk
  · intro k e hk
    obtain ⟨h1, h2, h3, h4⟩ := hI.present k e hk
    simp only [hout, hhold]
    refine ⟨h1, h2, h3, ?_⟩
    by_cases hik : id = k
    · subst hik
      simp only at hk
      rw [he0] at hk
      cases hk
      simp [hea]
    · have hne : e.lock ≠ a := by
        intro heq
        exact hik (hI.distinct id k e0 e he0 hk (by rw [hea, heq]))
      simp only [List.mem_cons, hne, false_or, hik, decide_False, Bool.toNat_false, add_zero]
      exact h4
  · intro j k b hj
    simp only [List.getElem?_set] at hj
    by_cases hij : i = j
    · simp only [hij, if_true] at hj
      split at hj <;> cases hj
    · simp only [hij, if_false] at hj
      exact hI.waiters j k b hj
  · intro k
    simp only [hhold]
    by_cases hik : id = k
    · subst hik
      simp [hh0]
    · simp only [hik, decide_False, Bool.toNat_false, add_zero]
      exact hI.single k
  · exact hI.distinct
  · intro b hb
    simp only [List.mem_cons] at hb
    rcases hb with rfl | hb
    · rw [← hea]
      exact p3
    · exact hI.bounded b hb

theorem unlockContainer_of_held (vmc : VMController) (id : String) (e : refCountedLock)
    (hget : GoMap.get vmc.containerLocks id = some e) (hpos : 0 < e.refCount)
    (hheld : e.lock ∈ vmc.locked) :
    unlockContainer vmc id =
      Except.ok { vmc with
        containerLocks :=
          if e.refCount = 1 then GoMap.delete vmc.containerLocks id
          else GoMap.set vmc.containerLocks id { refCount := e.refCount - 1, lock := e.lock }
        locked := vmc.locked.filter (fun b => !(b == e.lock)) } := by
  have h1 : ¬ e.refCount ≤ 0 := by omega
  by_cases h2 : e.refCount = 1
  · simp [unlockContainer, hget, h1, hheld, h2]
  · have h3 : ¬ e.refCount - 1 = 0 := by omega
    simp [unlockContainer, hget, h1, hheld, h2, h3]

theorem LockSys.Inv.unlock {g : LockSys} (hI : g.Inv) (i : Nat) (id : String)
    (hc : g.clients[i]? = some (Client.holding id)) :
    ∃ vmc1, unlockContainer g.vmc id = Except.ok vmc1 ∧
      LockSys.Inv { g with vmc := vmc1, clients := g.clients.set i Client.idle } := by
  have hlt : i < g.clients.length := by
    by_contra hn
    rw [List.getElem?_eq_none (by omega)] at hc
    cases hc
  have hout : ∀ (k : String), outstanding (g.clients.set i Client.idle) k +
      (decide (id = k)).toNat = outstanding g.clients k := by
    intro k
    have := outstanding_set g.clients i _ Client.idle k hc
    simpa [Client.uses] using this
  have hhold : ∀ (k : String), holders (g.clients.set i Client.idle) k +
      (decide (id = k)).toNat = holders g.clients k := by
    intro k
    have := holders_set g.clients i _ Client.idle k hc
    simpa [Client.holds] using this
  have hopos : 0 < outstanding g.clients id :=
    outstanding_pos_of_mem g.clients i _ id hc (by simp [Client.uses])
  have hhpos : 0 < holders g.clients id :=
    holders_pos_of_mem g.clients i _ id hc (by simp [Client.holds])
  have hh1 : holders g.clients id = 1 := by
    have := hI.single id
    omega
  cases hget : GoMap.get g.vmc.containerLocks id with
  | none =>
    have := hI.absent id hget
    omega
  | some e0 =>
    obtain ⟨p1, p2, p3, p4⟩ := hI.present id e0 hget
    have hheld : e0.lock ∈ g.vmc.locked := p4.2 hhpos
    refine ⟨_, unlockContainer_of_held g.vmc id e0 hget (by omega) hheld, ?_⟩
    have houtid : outstanding (g.clients.set i Client.idle) id + 1 = outstanding g.clients id := by
      simpa using hout id
    have hholdid : holders (g.clients.set i Client.idle) id = 0 := by
      have := hhold id
      simp at this
      omega
    have houtne : ∀ k, id ≠ k → outstanding (g.clients.set i Client.idle) k =
        outstanding g.clients k := by
      intro k hk
      simpa [hk] using hout k
    have hholdne : ∀ k, id ≠ k → holders (g.clients.set i Client.idle) k =
        holders g.clients k := by
      intro k hk
      simpa [hk] using hhold k
    have hgetne : ∀ k, id ≠ k →
        GoMap.get (if e0.refCount = 1 then GoMap.delete g.vmc.containerLocks id
          else GoMap.set g.vmc.containerLocks id
            { refCount := e0.refCount - 1, lock := e0.lock }) k =
        GoMap.get g.vmc.containerLocks k := by
      intro k hk
      split
      · exact GoMap.get_delete_ne _ _ _ hk
      · exact GoMap.get_set_ne _ _ _ _ hk
    have hmemne : ∀ (b : Nat), b ≠ e0.lock →
        (b ∈ g.vmc.locked.filter (fun b => !(b == e0.lock)) ↔ b ∈ g.vmc.locked) := by
      intro b hb
      simp [List.mem_filter, hb]
    refine ⟨hI.alive, ?_, ?_, ?_, ?_, ?_, ?_⟩
    · intro k hk
      by_cases hik : id = k
      · subst hik
        simp only at hk
        dsimp only
        by_cases h1 : e0.refCount = 1
        · omega
        · simp [h1, GoMap.get_set_self] at hk
      · simp only [hgetne k hik] at hk
        rw [houtne k hik]
        exact hI.absent k hk
    · intro k e hk
      by_cases hik : id = k
      · subst hik
        simp only at hk
        by_cases h1 : e0.refCount = 1
        · simp [h1, GoMap.get_delete_self] at hk
        · simp only [h1, if_false, GoMap.get_set_self, Option.some.injEq] at hk
          subst hk
          simp only [hholdid]
          refine ⟨by omega, by omega, p3, ?_⟩
          simp [List.mem_filter]
      · simp only [hgetne k hik] at hk
        obtain ⟨h1, h2, h3, h4⟩ := hI.present k e hk
        have hne : e.lock ≠ e0.lock := by
          intro heq
          exact hik (hI.distinct id k e0 e hget hk heq.symm)
        simp only [houtne k hik, hholdne k hik, hmemne _ hne]
        exact ⟨h1, h2, h3, h4⟩
    · intro j k b hj
      have hj0 := hj
      simp only [List.getElem?_set] at hj
      by_cases hij : i = j
      · simp only [hij, if_true] at hj
        split at hj <;> cases hj
      · simp only [hij, if_false] at hj
        obtain ⟨e, he, heb⟩ := hI.waiters j k b hj
        by_cases hik : id = k
        · subst hik
          rw [hget] at he
          cases he
          have hpos := outstanding_pos_of_mem _ j _ id hj0 (by simp [Client.uses])
          dsimp only at hpos
          have h1 : ¬ e0.refCount = 1 := by omega
          exact ⟨{ refCount := e0.refCount - 1, lock := e0.lock },
            by simp only [h1, if_false]; exact GoMap.get_set_self _ _ _, heb⟩
        · exact ⟨e, by simp only [hgetne k hik]; exact he, heb⟩
    · intro k
      have := hhold k
      have := hI.single k
      dsimp only
      omega
    · intro k l e f hk hl hef
      have key : ∀ (m : String) (x : refCountedLock),
          GoMap.get (if e0.refCount = 1 then GoMap.delete g.vmc.containerLocks id
            else GoMap.set g.vmc.containerLocks id
              { refCount := e0.refCount - 1, lock := e0.lock }) m = some x →
          ∃ y, GoMap.get g.vmc.containerLocks m = some y ∧ y.lock = x.lock := by
        intro m x hm
        by_cases him : id = m
        · subst him
          by_cases h1 : e0.refCount = 1
          · simp [h1, GoMap.get_delete_self] at hm
          · simp only [h1, if_false, GoMap.get_set_self, Option.some.injEq] at hm
            subst hm
            exact ⟨e0, hget, rfl⟩
        · rw [hgetne m him] at hm
          exact ⟨x, hm, rfl⟩
      obtain ⟨y, hy, hyl⟩ := key k e hk
      obtain ⟨z, hz, hzl⟩ := key l f hl
      exact hI.distinct k l y z hy hz (by rw [hyl, hzl, hef])
    · intro b hb
      simp only [List.mem_filter] at hb
      exact hI.bounded b hb.1

theorem LockSys.Inv.lock_step {g g1 : LockSys} (hI : g.Inv) (a : LockAct)
    (h : g.step a = some g1) : g1.Inv := by
  cases a with
  | enter i id =>
    simp only [LockSys.step, hI.alive, Option.isSome_none, Bool.false_eq_true, if_false] at h
    split at h
    · rename_i hc
      cases h
      have hinv := hI.enter i id hc
      rw [hI.alive] at hinv
      exact hinv
    · cases h
  | acquire i =>
    simp only [LockSys.step, hI.alive, Option.isSome_none, Bool.false_eq_true, if_false] at h
    split at h
    · rename_i id a hc
      unfold lockContainerAcquire at h
      by_cases hm : a ∈ g.vmc.locked
      · simp [hm] at h
      · simp only [hm, if_false] at h
        cases h
        have hinv := hI.acquire i id a hc hm
        rw [hI.alive] at hinv
        exact hinv
    · cases h
  | unlock i id =>
    simp only [LockSys.step, hI.alive, Option.isSome_none, Bool.false_eq_true, if_false] at h
    split at h
    · rename_i k hc
      by_cases hk : k = id
      · subst hk
        obtain ⟨vmc1, hu, hinv⟩ := hI.unlock i k hc
        simp only [hu, if_true] at h
        cases h
        rw [hI.alive] at hinv
        exact hinv
      · simp [hk] at h
    · cases h

theorem LockSys.Inv.lock_run {g g1 : LockSys} (hI : g.Inv) (as : List LockAct)
    (h : g.run as = some g1) : g1.Inv := by
  induction as generalizing g with
  | nil =>
    simp only [LockSys.run, Option.some.injEq] at h
    exact h ▸ hI
  | cons a as ih =>
    simp only [LockSys.run] at h
    cases hs : g.step a with
    | none => simp [hs] at h
    | some g2 =>
      simp only [hs] at h
      exact ih (hI.lock_step a hs) h

theorem outstanding_replicate_idle (n : Nat) (id : String) :
    outstanding (List.replicate n Client.idle) id = 0 := by
  unfold outstanding
  rw [List.countP_eq_zero]
  intro c hc
  rw [List.eq_of_mem_replicate hc]
  simp [Client.uses]

theorem LockSys.Inv.lock_init (docker inproc mock : VMProvider) (n : Nat) :
    (LockSys.init docker inproc mock n).Inv := by
  refine ⟨rfl, ?_, ?_, ?_, ?_, ?_, ?_⟩
  · intro id _
    exact outstanding_replicate_idle n id
  · intro id e h
    simp [LockSys.init, NewVMController, GoMap.get] at h
  · intro i id a h
    have := List.getElem?_mem h
    simp [LockSys.init] at this
  · intro id
    have := holders_le_outstanding (List.replicate n Client.idle) id
    have := outstanding_replicate_idle n id
    simp only [LockSys.init]
    omega
  · intro id k e f h
    simp [LockSys.init, NewVMController, GoMap.get] at h
  · intro a h
    simp [LockSys.init, NewVMController] at h

theorem LockSys.step_delete_iff {g g1 : LockSys} (hI : g.Inv) (a : LockAct)
    (h : g.step a = some g1) (id : String) (e : refCountedLock)
    (hget : GoMap.get g.vmc.containerLocks id = some e) :
    GoMap.get g1.vmc.containerLocks id = none ↔ (∃ i, a = LockAct.unlock i id) ∧ e.refCount = 1 := by
  cases a with
  | enter i k =>
    simp only [LockSys.step, hI.alive, Option.isSome_none, Bool.false_eq_true, if_false] at h
    split at h
    · cases h
      have hne : GoMap.get (lockContainerEnter g.vmc k).1.containerLocks id ≠ none := by
        by_cases hk : k = id
        · subst hk
          rw [lockContainerEnter_some _ _ _ hget]
          simp [GoMap.get_set_self]
        · cases hk2 : GoMap.get g.vmc.containerLocks k with
          | none =>
            rw [lockContainerEnter_none _ _ hk2]
            simp [GoMap.get_set_ne _ _ _ _ hk, hget]
          | some f =>
            rw [lockContainerEnter_some _ _ _ hk2]
            simp [GoMap.get_set_ne _ _ _ _ hk, hget]
      simp [hne]
    · cases h
  | acquire i =>
    simp only [LockSys.step, hI.alive, Option.isSome_none, Bool.false_eq_true, if_false] at h
    split at h
    · rename_i k b hc
      unfold lockContainerAcquire at h
      by_cases hm : b ∈ g.vmc.locked
      · simp [hm] at h
      · simp only [hm, if_false] at h
        cases h
        simp [hget]
    · cases h
  | unlock i k =>
    simp only [LockSys.step, hI.alive, Option.isSome_none, Bool.false_eq_true, if_false] at h
    split at h
    · rename_i l hc
      by_cases hk : l = k
      · subst hk
        obtain ⟨vmc1, hu, _⟩ := hI.unlock i l hc
        simp only [hu, if_true] at h
        cases h
        by_cases hid : l = id
        · subst hid
          obtain ⟨p1, p2, p3, p4⟩ := hI.present l e hget
          have hhpos : 0 < holders g.clients l :=
            holders_pos_of_mem g.clients i _ l hc (by simp [Client.holds])
          rw [unlockContainer_of_held g.vmc l e hget (by omega) (p4.2 hhpos)] at hu
          cases hu
          by_cases h1 : e.refCount = 1
          · simp [h1, GoMap.get_delete_self]
          · simp [h1, GoMap.get_set_self]
        · have hsame : GoMap.get vmc1.containerLocks id = some e := by
            cases hl : GoMap.get g.vmc.containerLocks l with
            | none =>
              simp only [unlockContainer, hl] at hu
              cases hu
              exact hget
            | some f =>
              obtain ⟨p1, p2, p3, p4⟩ := hI.present l f hl
              have hhpos : 0 < holders g.clients l :=
                holders_pos_of_mem g.clients i _ l hc (by simp [Client.holds])
              rw [unlockContainer_of_held g.vmc l f hl (by omega) (p4.2 hhpos)] at hu
              cases hu
              dsimp only
              split
              · rw [GoMap.get_delete_ne _ _ _ hid]
                exact hget
              · rw [GoMap.get_set_ne _ _ _ _ hid]
                exact hget
          simp [hsame, hid]
      · simp [hk] at h
    · cases h

/-- C1. In every state reached from the empty lock table by any interleaving of `lockContainer`
and `unlockContainer` calls in which each `unlockContainer(id)` is made by a client whose
`lockContainer(id)` has returned: no panic has happened (the `refcnt <= 0` branch is never
taken), an entry for `id` exists if and only if some `lockContainer(id)` is not yet matched,
the `refCount` of an entry is positive and equals the number of unmatched `lockContainer(id)`
calls, and a step deletes the entry exactly when it is an `unlockContainer(id)` that finds
`refCount = 1`. -/
theorem lockTable_refCount_invariant (docker inproc mock : VMProvider) (n : Nat)
    (as : List LockAct) (g : LockSys)
    (h : (LockSys.init docker inproc mock n).run as = some g) (id : String) :
    g.crashed = none ∧
    ((GoMap.get g.vmc.containerLocks id).isSome = true ↔ 0 < outstanding g.clients id) ∧
    (∀ e, GoMap.get g.vmc.containerLocks id = some e →
      0 < e.refCount ∧ e.refCount = (outstanding g.clients id : Int)) ∧
    (∀ a g1 e, g.step a = some g1 → GoMap.get g.vmc.containerLocks id = some e →
      g1.crashed = none ∧
      (GoMap.get g1.vmc.containerLocks id = none ↔
        (∃ i, a = LockAct.unlock i id) ∧ e.refCount = 1) ∧
      (GoMap.get g1.vmc.containerLocks id = none ↔ outstanding g1.clients id = 0)) := by
  have hI : g.Inv := (LockSys.Inv.lock_init docker inproc mock n).lock_run as h
  refine ⟨hI.alive, ?_, ?_, ?_⟩
  · cases hget : GoMap.get g.vmc.containerLocks id with
    | none => simp [hI.absent id hget]
    | some e => simp [(hI.present id e hget).2.1]
  · intro e he
    obtain ⟨p1, p2, _, _⟩ := hI.present id e he
    exact ⟨by omega, p1⟩
  · intro a g1 e hs he
    have hI1 : g1.Inv := hI.lock_step a hs
    refine ⟨hI1.alive, LockSys.step_delete_iff hI a hs id e he, ?_⟩
    constructor
    · exact hI1.absent id
    · intro h0
      cases hget : GoMap.get g1.vmc.containerLocks id with
      | none => rfl
      | some f =>
        have := (hI1.present id f hget).2.1
        omega

theorem lockTable_refCount_invariant_witness :
    (LockSys.init ⟨none⟩ ⟨none⟩ ⟨none⟩ 2).run
        [LockAct.enter 0 "a", LockAct.enter 1 "a", LockAct.acquire 0] = some LockSys.sample ∧
    ((GoMap.get LockSys.sample.vmc.containerLocks "a").isSome = true ↔
      0 < outstanding LockSys.sample.clients "a") :=
  ⟨rfl, (lockTable_refCount_invariant ⟨none⟩ ⟨none⟩ ⟨none⟩ 2
    [LockAct.enter 0 "a", LockAct.enter 1 "a", LockAct.acquire 0] LockSys.sample rfl "a").2.1⟩

theorem LockSys.step_outstanding {g g1 : LockSys} (hI : g.Inv) (a : LockAct)
    (h : g.step a = some g1) (id : String) :
    outstanding g1.clients id + LockAct.unlocks id [a] =
      outstanding g.clients id + LockAct.enters id [a] := by
  cases a with
  | enter i k =>
    simp only [LockSys.step, hI.alive, Option.isSome_none, Bool.false_eq_true, if_false] at h
    split at h
    · rename_i hc
      cases h
      have := outstanding_set g.clients i _
        (Client.waiting k (lockContainerEnter g.vmc k).2) id hc
      simp only [Client.uses] at this
      simp only [LockAct.unlocks, LockAct.enters, List.countP_cons, List.countP_nil]
      by_cases hk : k = id <;> simp_all
    · cases h
  | acquire i =>
    simp only [LockSys.step, hI.alive, Option.isSome_none, Bool.false_eq_true, if_false] at h
    split at h
    · rename_i k b hc
      unfold lockContainerAcquire at h
      by_cases hm : b ∈ g.vmc.locked
      · simp [hm] at h
      · simp only [hm, if_false] at h
        cases h
        have := outstanding_set g.clients i _ (Client.holding k) id hc
        simp only [Client.uses] at this
        simp only [LockAct.unlocks, LockAct.enters, List.countP_cons, List.countP_nil]
        simpa using this
    · cases h
  | unlock i k =>
    simp only [LockSys.step, hI.alive, Option.isSome_none, Bool.false_eq_true, if_false] at h
    split at h
    · rename_i l hc
      by_cases hk : l = k
      · subst hk
        obtain ⟨vmc1, hu, _⟩ := hI.unlock i l hc
        simp only [hu, if_true] at h
        cases h
        have := outstanding_set g.clients i _ Client.idle id hc
        simp only [Client.uses] at this
        simp only [LockAct.unlocks, LockAct.enters, List.countP_cons, List.countP_nil]
        by_cases hk : l = id <;> simp_all
      · simp [hk] at h
    · cases h

theorem LockSys.run_outstanding {g g1 : LockSys} (hI : g.Inv) (as : List LockAct)
    (h : g.run as = some g1) (id : String) :
    outstanding g1.clients id + LockAct.unlocks id as =
      outstanding g.clients id + LockAct.enters id as := by
  induction as generalizing g with
  | nil =>
    simp only [LockSys.run, Option.some.injEq] at h
    subst h
    simp [LockAct.unlocks, LockAct.enters]
  | cons a as ih =>
    simp only [LockSys.run] at h
    cases hs : g.step a with
    | none => simp [hs] at h
    | some g2 =>
      simp only [hs] at h
      have h1 := ih (hI.lock_step a hs) h
      have h2 := LockSys.step_outstanding hI a hs id
      simp only [LockAct.unlocks, LockAct.enters, List.countP_cons, List.countP_nil] at h1 h2 ⊢
      omega

/-- C2. From any reachable state of the lock table, a run that contains `N` calls
`lockContainer(id)` and `N` calls `unlockContainer(id)` (each `unlockContainer` made by a client
whose `lockContainer` has returned, in any interleaving, also with calls on other names) leaves
no entry for `id` if there was none before, and leaves an entry that was there before with its
original `refCount`. -/
theorem balanced_pairs_restore_entry (docker inproc mock : VMProvider) (n : Nat)
    (pre acts : List LockAct) (g g1 : LockSys) (id : String) (N : Nat)
    (hg : (LockSys.init docker inproc mock n).run pre = some g)
    (hrun : g.run acts = some g1)
    (hE : LockAct.enters id acts = N) (hU : LockAct.unlocks id acts = N) :
    (GoMap.get g.vmc.containerLocks id = none → GoMap.get g1.vmc.containerLocks id = none) ∧
    (∀ e, GoMap.get g.vmc.containerLocks id = some e →
      ∃ e1, GoMap.get g1.vmc.containerLocks id = some e1 ∧ e1.refCount = e.refCount) := by
  have hI : g.Inv := (LockSys.Inv.lock_init docker inproc mock n).lock_run pre hg
  have hI1 : g1.Inv := hI.lock_run acts hrun
  have hcount := LockSys.run_outstanding hI acts hrun id
  rw [hE, hU] at hcount
  have heq : outstanding g1.clients id = outstanding g.clients id := by omega
  constructor
  · intro h0
    cases hget : GoMap.get g1.vmc.containerLocks id with
    | none => rfl
    | some f =>
      have := (hI1.present id f hget).2.1
      have := hI.absent id h0
      omega
  · intro e he
    obtain ⟨p1, p2, _, _⟩ := hI.present id e he
    cases hget : GoMap.get g1.vmc.containerLocks id with
    | none =>
      have := hI1.absent id hget
      omega
    | some f =>
      refine ⟨f, rfl, ?_⟩
      have := (hI1.present id f hget).1
      omega

theorem balanced_pairs_restore_entry_witness :
    (LockSys.init ⟨none⟩ ⟨none⟩ ⟨none⟩ 2).run [] = some (LockSys.init ⟨none⟩ ⟨none⟩ ⟨none⟩ 2) ∧
    (LockSys.init ⟨none⟩ ⟨none⟩ ⟨none⟩ 2).run
        [LockAct.enter 0 "a", LockAct.enter 1 "a", LockAct.acquire 1, LockAct.unlock 1 "a",
          LockAct.acquire 0, LockAct.unlock 0 "a"] =
      some { vmc := { containerLocks := []
                      vmProviders := [(DOCKER, ⟨none⟩), (SYSTEM, ⟨none⟩), (MOCKVM, ⟨none⟩)]
                      locked := []
                      nextMutex := 1 }
             clients := [Client.idle, Client.idle]
             crashed := none } ∧
    LockAct.enters "a"
        [LockAct.enter 0 "a", LockAct.enter 1 "a", LockAct.acquire 1, LockAct.unlock 1 "a",
          LockAct.acquire 0, LockAct.unlock 0 "a"] = 2 ∧
    LockAct.unlocks "a"
        [LockAct.enter 0 "a", LockAct.enter 1 "a", LockAct.acquire 1, LockAct.unlock 1 "a",
          LockAct.acquire 0, LockAct.unlock 0 "a"] = 2 ∧
    (GoMap.get (LockSys.init ⟨none⟩ ⟨none⟩ ⟨none⟩ 2).vmc.containerLocks "a" = none →
      GoMap.get ([] : List (String × refCountedLock)) "a" = none) :=
  ⟨rfl, rfl, by decide, by decide,
    (balanced_pairs_restore_entry ⟨none⟩ ⟨none⟩ ⟨none⟩ 2 []
      [LockAct.enter 0 "a", LockAct.enter 1 "a", LockAct.acquire 1, LockAct.unlock 1 "a",
        LockAct.acquire 0, LockAct.unlock 0 "a"] (LockSys.init ⟨none⟩ ⟨none⟩ ⟨none⟩ 2)
      { vmc := { containerLocks := []
                 vmProviders := [(DOCKER, ⟨none⟩), (SYSTEM, ⟨none⟩), (MOCKVM, ⟨none⟩)]
                 locked := []
                 nextMutex := 1 }
        clients := [Client.idle, Client.idle]
        crashed := none } "a" 2 rfl rfl (by decide) (by decide)).1⟩

theorem map_set_same {α β : Type} (f : α → β) :
    ∀ (l : List α) (i : Nat) (c d : α), l[i]? = some c → f d = f c →
      (l.set i d).map f = l.map f
  | [], _, _, _, h, _ => by simp at h
  | x :: l, 0, c, d, h, hf => by
    simp at h
    subst h
    simp [hf]
  | x :: l, i + 1, c, d, h, hf => by
    simp at h
    simp [map_set_same f l i c d h hf]

theorem System.lockSys_set_same (s : System) (i : Nat) (c d : Call)
    (h : s.calls[i]? = some c) (hf : d.worker.client = c.worker.client) :
    ({ s with calls := s.calls.set i d } : System).lockSys = s.lockSys := by
  simp only [System.lockSys]
  rw [map_set_same (fun c => c.worker.client) s.calls i c d h hf]

theorem System.lockSys_clients_get (s : System) (i : Nat) (c : Call)
    (h : s.calls[i]? = some c) : s.lockSys.clients[i]? = some c.worker.client := by
  simp [System.lockSys, List.getElem?_map, h]

theorem calls_ok_set (ps : List (String × VMProvider)) (l : List Call) (i : Nat) (d : Call)
    (h : ∀ (j : Nat) (c : Call), l[j]? = some c → c.Ok ps) (hd : d.Ok ps) :
    ∀ (j : Nat) (c : Call), (l.set i d)[j]? = some c → c.Ok ps := by
  intro j c hj
  rw [List.getElem?_set] at hj
  by_cases hij : i = j
  · simp only [hij, if_true] at hj
    split at hj
    · cases hj
      exact hd
    · cases hj
  · simp only [hij, if_false] at hj
    exact h j c hj

theorem Call.callerStep_ok (ps : List (String × VMProvider)) (vmc : VMController)
    (hp : vmc.vmProviders = ps) (c : Call) (hc : c.Ok ps) (pd : Bool) (d : Call)
    (h : c.callerStep vmc pd = some d) : d.Ok ps ∧ d.worker.client = c.worker.client := by
  obtain ⟨ctxt, vmtype, req, v, worker, caller⟩ := c
  cases caller with
  | entry =>
    rcases hc with ⟨hw, hv, _⟩ | ⟨p, v0, _, _, _, _, hco⟩
    · simp only at hw hv
      subst hw hv
      simp only [Call.callerStep, newVM, hp] at h
      cases hg : GoMap.get ps vmtype with
      | none =>
        simp only [hg, Option.some.injEq] at h
        subst h
        exact ⟨Or.inl ⟨rfl, rfl, Or.inr (Or.inl ⟨rfl, hg⟩)⟩, rfl⟩
      | some p =>
        simp only [hg] at h
        cases hn : p.NewVM with
        | none =>
          simp only [hn, Option.some.injEq] at h
          subst h
          exact ⟨Or.inl ⟨rfl, rfl, Or.inr (Or.inr ⟨rfl, p, hg, hn⟩)⟩, rfl⟩
        | some v1 =>
          simp only [hn, Option.some.injEq] at h
          subst h
          exact ⟨Or.inr ⟨p, v1, hg, hn, rfl, trivial, trivial⟩, rfl⟩
    · simp [Call.callerOk] at hco
  | selecting =>
    rcases hc with ⟨_, _, h1 | h1 | h1⟩ | ⟨p, v0, hg, hn, hv, hwo, hco⟩
    · simp at h1
    · simp at h1
    · simp at h1
    · cases pd with
      | true =>
        simp only [Call.callerStep, if_true] at h
        split at h
        · rename_i hdone
          cases h
          exact ⟨Or.inr ⟨p, v0, hg, hn, hv, hwo, hdone⟩, rfl⟩
        · cases h
      | false =>
        cases worker with
        | closed r b =>
          simp only [Call.callerStep, Bool.false_eq_true, if_false, Option.some.injEq] at h
          subst h
          exact ⟨Or.inr ⟨p, v0, hg, hn, hv, hwo, r, b, rfl, Or.inl ⟨rfl, rfl⟩⟩, rfl⟩
        | _ => simp [Call.callerStep] at h
  | draining =>
    rcases hc with ⟨_, _, h1 | h1 | h1⟩ | ⟨p, v0, hg, hn, hv, hwo, hco⟩
    · simp at h1
    · simp at h1
    · simp at h1
    · cases worker with
      | closed r b =>
        simp only [Call.callerStep, Option.some.injEq] at h
        subst h
        exact ⟨Or.inr ⟨p, v0, hg, hn, hv, hwo, r, b, rfl, Or.inr ⟨rfl, hco, rfl⟩⟩, rfl⟩
      | _ => simp [Call.callerStep] at h
  | returned resp err => simp [Call.callerStep] at h
  | panicked msg => simp [Call.callerStep] at h

theorem Call.cancel_ok (ps : List (String × VMProvider)) (c : Call) (hc : c.Ok ps) (e : error)
    (hlive : c.ctxt.Err.isSome = false) : Call.Ok ps { c with ctxt := { Err := some e } } := by
  rcases hc with hl | ⟨p, v0, hg, hn, hv, hwo, hco⟩
  · exact Or.inl hl
  · refine Or.inr ⟨p, v0, hg, hn, hv, hwo, ?_⟩
    obtain ⟨ctxt, vmtype, req, v, worker, caller⟩ := c
    cases caller with
    | entry => exact hco
    | selecting => exact hco
    | draining => simp [Call.callerOk]
    | returned resp err =>
      obtain ⟨r, b, hw, h1 | ⟨_, h2, _⟩⟩ := hco
      · exact ⟨r, b, hw, Or.inl h1⟩
      · simp only at hlive h2
        rw [hlive] at h2
        cases h2
    | panicked msg => exact hco

theorem Call.worker_ok (ps : List (String × VMProvider)) (c : Call) (hc : c.Ok ps)
    (w : Worker) (hns : c.worker ≠ Worker.notStarted)
    (hncl : ∀ r b, c.worker ≠ Worker.closed r b)
    (hw : ∀ v, c.v = some v → c.workerOk v → Call.workerOk { c with worker := w } v) :
    Call.Ok ps { c with worker := w } := by
  rcases hc with ⟨h0, _⟩ | ⟨p, v0, hg, hn, hv, hwo, hco⟩
  · exact absurd h0 hns
  · refine Or.inr ⟨p, v0, hg, hn, hv, hw v0 hv hwo, ?_⟩
    obtain ⟨ctxt, vmtype, req, v, worker, caller⟩ := c
    cases caller with
    | entry => exact hco
    | selecting => exact hco
    | draining => exact hco
    | returned resp err =>
      obtain ⟨r, b, hw1, _⟩ := hco
      exact absurd hw1 (hncl r b)
    | panicked msg => exact hco

theorem System.Inv.set_same {ps : List (String × VMProvider)} {s : System} (hI : s.Inv ps)
    (i : Nat) (c d : Call) (hc : s.calls[i]? = some c)
    (hf : d.worker.client = c.worker.client) (hd : d.Ok ps) :
    System.Inv ps { s with calls := s.calls.set i d } :=
  ⟨hI.providers, by rw [System.lockSys_set_same s i c d hc hf]; exact hI.locks,
    calls_ok_set ps s.calls i d hI.calls hd⟩

theorem lockContainerEnter_providers (vmc : VMController) (id : String) :
    (lockContainerEnter vmc id).1.vmProviders = vmc.vmProviders := by
  unfold lockContainerEnter
  split <;> rfl

theorem unlockContainer_providers (vmc vmc1 : VMController) (id : String)
    (h : unlockContainer vmc id = Except.ok vmc1) : vmc1.vmProviders = vmc.vmProviders := by
  unfold unlockContainer at h
  split at h
  · split at h
    · cases h
    · split at h
      · cases h
      · split at h <;> cases h <;> rfl
  · cases h
    rfl

theorem System.Inv.workerStep {ps : List (String × VMProvider)} {s s1 : System}
    (hI : s.Inv ps) (i : Nat) (c : Call) (hc : s.calls[i]? = some c)
    (h : s.workerStep i c = some s1) : s1.Inv ps := by
  have hOk := hI.calls i c hc
  have hcl := System.lockSys_clients_get s i c hc
  obtain ⟨ctxt, vmtype, req, v, worker, caller⟩ := c
  cases worker with
  | notStarted => simp [System.workerStep] at h
  | closed r b => simp [System.workerStep] at h
  | resolve =>
    cases v with
    | none => simp [System.workerStep] at h
    | some v1 =>
      simp only [System.workerStep] at h
      cases hn : v1.GetVMName req.getCCID with
      | error err =>
        simp only [hn, Option.some.injEq] at h
        subst h
        refine hI.set_same i _ _ hc rfl ?_
        refine Call.worker_ok ps _ hOk _ (by simp) (by simp) ?_
        intro v hv _
        simp only [Option.some.injEq] at hv
        subst hv
        simp [Call.workerOk, hn]
      | ok id =>
        simp only [hn, Option.some.injEq] at h
        subst h
        refine hI.set_same i _ _ hc rfl ?_
        refine Call.worker_ok ps _ hOk _ (by simp) (by simp) ?_
        intro v hv _
        simp only [Option.some.injEq] at hv
        subst hv
        simpa [Call.workerOk] using hn
  | locking id =>
    have h2 : s1 = { s with
        vmc := (lockContainerEnter s.vmc id).1
        calls := s.calls.set i
          { ctxt := ctxt, vmtype := vmtype, req := req, v := v,
            worker := Worker.waiting id (lockContainerEnter s.vmc id).2, caller := caller } } := by
      cases v <;> simp [System.workerStep] at h <;> exact h.symm
    subst h2
    refine ⟨?_, ?_, ?_⟩
    · rw [← hI.providers]
      exact lockContainerEnter_providers _ _
    · have := hI.locks.enter i id hcl
      simpa [System.lockSys, List.map_set, Worker.client] using this
    · refine calls_ok_set ps s.calls i _ hI.calls ?_
      refine Call.worker_ok ps _ hOk _ (by simp) (by simp) ?_
      intro v0 _ hwo
      exact hwo
  | waiting id a =>
    have h2 : ∃ vmc1, lockContainerAcquire s.vmc a = some vmc1 ∧ s1 = { s with
        vmc := vmc1
        calls := s.calls.set i
          { ctxt := ctxt, vmtype := vmtype, req := req, v := v,
            worker := Worker.holding id, caller := caller } } := by
      cases hl : lockContainerAcquire s.vmc a with
      | none => cases v <;> simp [System.workerStep, hl] at h
      | some vmc1 =>
        refine ⟨vmc1, rfl, ?_⟩
        cases v <;> simp [System.workerStep, hl] at h <;> exact h.symm
    obtain ⟨vmc1, hl, h3⟩ := h2
    subst h3
    unfold lockContainerAcquire at hl
    by_cases hm : a ∈ s.vmc.locked
    · simp [hm] at hl
    · simp only [hm, if_false, Option.some.injEq] at hl
      subst hl
      refine ⟨hI.providers, ?_, ?_⟩
      · have := hI.locks.acquire i id a hcl hm
        simpa [System.lockSys, List.map_set, Worker.client] using this
      · refine calls_ok_set ps s.calls i _ hI.calls ?_
        refine Call.worker_ok ps _ hOk _ (by simp) (by simp) ?_
        intro v0 _ hwo
        exact hwo
  | holding id =>
    have h2 : s1 = { s with
        calls := s.calls.set i
          { ctxt := ctxt, vmtype := vmtype, req := req, v := v,
            worker := Worker.running id, caller := caller } } := by
      cases v <;> simp [System.workerStep] at h <;> exact h.symm
    subst h2
    refine hI.set_same i _ _ hc rfl ?_
    refine Call.worker_ok ps _ hOk _ (by simp) (by simp) ?_
    intro v0 _ hwo
    exact hwo
  | running id =>
    cases v with
    | none => simp [System.workerStep] at h
    | some v1 =>
      simp only [System.workerStep, Option.some.injEq] at h
      subst h
      refine hI.set_same i _ _ hc rfl ?_
      refine Call.worker_ok ps _ hOk _ (by simp) (by simp) ?_
      intro v0 hv hwo
      simp only [Option.some.injEq] at hv
      subst hv
      exact ⟨hwo, ctxt, rfl⟩
  | unlocking id resp =>
    obtain ⟨vmc1, hu, hinv⟩ := hI.locks.unlock i id hcl
    have hu2 : unlockContainer s.vmc id = Except.ok vmc1 := hu
    have h2 : s1 = { s with
        vmc := vmc1
        calls := s.calls.set i
          { ctxt := ctxt, vmtype := vmtype, req := req, v := v,
            worker := Worker.closed resp true, caller := caller } } := by
      cases v <;> simp [System.workerStep, hu2] at h <;> exact h.symm
    subst h2
    refine ⟨?_, ?_, ?_⟩
    · rw [← hI.providers]
      exact unlockContainer_providers _ _ _ hu2
    · simpa [System.lockSys, List.map_set, Worker.client] using hinv
    · refine calls_ok_set ps s.calls i _ hI.calls ?_
      refine Call.worker_ok ps _ hOk _ (by simp) (by simp) ?_
      intro v0 _ hwo
      obtain ⟨hn, hdo⟩ := hwo
      simp only [Call.workerOk] at hn hdo ⊢
      rw [hn]
      exact ⟨trivial, hdo⟩

theorem System.Inv.sys_step {ps : List (String × VMProvider)} {s s1 : System}
    (hI : s.Inv ps) (a : Act) (h : s.step a = some s1) : s1.Inv ps := by
  have hal : s.crashed = none := hI.locks.alive
  cases a with
  | caller i pd =>
    simp only [System.step, hal, Option.isSome_none, Bool.false_eq_true, if_false] at h
    cases hc : s.calls[i]? with
    | none => simp [hc] at h
    | some c =>
      simp only [hc] at h
      cases hs : c.callerStep s.vmc pd with
      | none => simp [hs] at h
      | some d =>
        simp only [hs, Option.some.injEq] at h
        subst h
        obtain ⟨hd, hf⟩ := Call.callerStep_ok ps s.vmc hI.providers c (hI.calls i c hc) pd d hs
        have := hI.set_same i c d hc hf hd
        rw [hal] at this
        exact this
  | worker i =>
    simp only [System.step, hal, Option.isSome_none, Bool.false_eq_true, if_false] at h
    cases hc : s.calls[i]? with
    | none => simp [hc] at h
    | some c =>
      simp only [hc] at h
      exact hI.workerStep i c hc h
  | cancel i e =>
    simp only [System.step, hal, Option.isSome_none, Bool.false_eq_true, if_false] at h
    cases hc : s.calls[i]? with
    | none => simp [hc] at h
    | some c =>
      simp only [hc] at h
      split at h
      · cases h
      · rename_i hlive
        cases h
        have := hI.set_same i c { c with ctxt := { Err := some e } } hc rfl
          (Call.cancel_ok ps c (hI.calls i c hc) e (by simpa using hlive))
        rw [hal] at this
        exact this

theorem System.Inv.sys_run {ps : List (String × VMProvider)} {s s1 : System} (hI : s.Inv ps)
    (as : List Act) (h : s.run as = some s1) : s1.Inv ps := by
  induction as generalizing s with
  | nil =>
    simp only [System.run, Option.some.injEq] at h
    exact h ▸ hI
  | cons a as ih =>
    simp only [System.run] at h
    cases hs : s.step a with
    | none => simp [hs] at h
    | some s2 =>
      simp only [hs] at h
      exact ih (hI.sys_step a hs) h

theorem System.Inv.sys_init (docker inproc mock : VMProvider)
    (reqs : List (Context × String × VMCReqIntf)) :
    (System.init docker inproc mock reqs).Inv
      [(DOCKER, docker), (SYSTEM, inproc), (MOCKVM, mock)] := by
  refine ⟨rfl, ?_, ?_⟩
  · have h := LockSys.Inv.lock_init docker inproc mock reqs.length
    have e : (System.init docker inproc mock reqs).lockSys =
        LockSys.init docker inproc mock reqs.length := by
      simp only [System.lockSys, System.init, LockSys.init, List.map_map]
      congr 1
      apply List.ext_getElem
      · simp
      · intro j h1 h2
        simp [Call.new, Worker.client]
    rw [e]
    exact h
  · intro i c hc
    simp only [System.init, List.getElem?_map] at hc
    cases hr : reqs[i]? with
    | none => simp [hr] at hc
    | some r =>
      simp only [hr, Option.map_some', Option.some.injEq] at hc
      subst hc
      exact Or.inl ⟨rfl, rfl, Or.inl rfl⟩

theorem System.sample_reachable :
    (System.init ⟨none⟩ ⟨none⟩ ⟨some VM.sample⟩
      [(Context.Background, MOCKVM, StopContainerReq.sample.toReq)]).run Act.sampleSchedule =
      some System.sample := rfl

theorem System.inv_of_run (docker inproc mock : VMProvider)
    (reqs : List (Context × String × VMCReqIntf)) (sched : List Act) (s : System)
    (hs : (System.init docker inproc mock reqs).run sched = some s) :
    s.Inv [(DOCKER, docker), (SYSTEM, inproc), (MOCKVM, mock)] :=
  (System.Inv.sys_init docker inproc mock reqs).sys_run sched hs

theorem holders_two (cs : List Client) (i j : Nat) (a b : Client) (id : String)
    (hij : i ≠ j) (hi : cs[i]? = some a) (hj : cs[j]? = some b)
    (ha : a.holds id = true) (hb : b.holds id = true) : 2 ≤ holders cs id := by
  have h1 := holders_set cs i a Client.idle id hi
  have h2 : (cs.set i Client.idle)[j]? = some b := by
    rw [List.getElem?_set]
    simp [hij, hj]
  have h3 := holders_pos_of_mem _ j b id h2 hb
  have hidle : Client.idle.holds id = false := rfl
  rw [ha, hidle] at h1
  simp only [Bool.toNat_true, Bool.toNat_false] at h1
  omega

theorem Call.running_resolved {ps : List (String × VMProvider)} {c : Call} (hc : c.Ok ps)
    (id : String) (hr : c.worker = Worker.running id) :
    ∃ v, c.v = some v ∧ v.GetVMName c.req.getCCID = Except.ok id := by
  rcases hc with ⟨h0, _⟩ | ⟨p, v, _, _, hv, hwo, _⟩
  · rw [hr] at h0
    cases h0
  · refine ⟨v, hv, ?_⟩
    simp only [Call.workerOk, hr] at hwo
    exact hwo

/-- C7. In every state reached by any interleaving of any `Process` calls, two calls that are
both inside `req.do` and whose requests resolve (by `GetVMName`) to the same name are one and
the same call: executions of `req.do` on one resource never overlap. -/
theorem Process_do_never_overlaps (docker inproc mock : VMProvider)
    (reqs : List (Context × String × VMCReqIntf)) (sched : List Act) (s : System)
    (hs : (System.init docker inproc mock reqs).run sched = some s)
    (i j : Nat) (ci cj : Call) (idi idj : String) (vi vj : VM)
    (hi : s.calls[i]? = some ci) (hj : s.calls[j]? = some cj)
    (hri : ci.worker = Worker.running idi) (hrj : cj.worker = Worker.running idj)
    (hvi : ci.v = some vi) (hvj : cj.v = some vj)
    (hsame : vi.GetVMName ci.req.getCCID = vj.GetVMName cj.req.getCCID) : i = j := by
  have hI := System.inv_of_run docker inproc mock reqs sched s hs
  obtain ⟨wi, hwi, hni⟩ := Call.running_resolved (hI.calls i ci hi) idi hri
  obtain ⟨wj, hwj, hnj⟩ := Call.running_resolved (hI.calls j cj hj) idj hrj
  rw [hvi] at hwi
  rw [hvj] at hwj
  cases hwi
  cases hwj
  rw [hni, hnj] at hsame
  cases hsame
  by_contra hij
  have h2 := holders_two s.lockSys.clients i j _ _ idi hij
    (System.lockSys_clients_get s i ci hi) (System.lockSys_clients_get s j cj hj)
    (by simp [hri, Worker.client, Client.holds]) (by simp [hrj, Worker.client, Client.holds])
  have h1 := hI.locks.single idi
  omega

theorem Process_do_never_overlaps_witness :
    (System.init ⟨none⟩ ⟨none⟩ ⟨some VM.sample⟩
      [(Context.Background, MOCKVM, StopContainerReq.sample.toReq)]).run Act.sampleSchedule =
      some System.sample ∧ (0 : Nat) = 0 :=
  ⟨rfl, Process_do_never_overlaps ⟨none⟩ ⟨none⟩ ⟨some VM.sample⟩
    [(Context.Background, MOCKVM, StopContainerReq.sample.toReq)] Act.sampleSchedule
    System.sample rfl 0 0 _ _ "cc1" "cc1" VM.sample VM.sample rfl rfl rfl rfl rfl rfl rfl⟩

theorem filter_ne_of_not_mem (l : List Nat) (a : Nat) (h : a ∉ l) :
    l.filter (fun b => !(b == a)) = l := by
  rw [List.filter_eq_self]
  intro b hb
  have : b ≠ a := fun e => h (e ▸ hb)
  simp [this]

theorem lock_unlock_roundtrip (vmc vmc1 : VMController) (id : String)
    (hwf : ∀ e, GoMap.get vmc.containerLocks id = some e → 0 < e.refCount)
    (h : lockContainer vmc id = some vmc1) :
    ∃ vmc2, unlockContainer vmc1 id = Except.ok vmc2 ∧
      vmc2.containerLocks = vmc.containerLocks ∧ vmc2.locked = vmc.locked ∧
      vmc2.vmProviders = vmc.vmProviders := by
  unfold lockContainer lockContainerAcquire at h
  cases hget : GoMap.get vmc.containerLocks id with
  | none =>
    rw [lockContainerEnter_none _ _ hget] at h
    by_cases hm : vmc.nextMutex ∈ vmc.locked
    · simp [hm] at h
    · simp only [hm, if_false, Option.some.injEq] at h
      subst h
      refine ⟨_, unlockContainer_of_held _ id { refCount := 1, lock := vmc.nextMutex }
        (GoMap.get_set_self _ _ _) (by simp) (by simp), ?_, ?_, rfl⟩
      · simp [GoMap.delete_set_of_get_none _ _ _ hget]
      · simp only [List.filter_cons, beq_self_eq_true, Bool.not_true, Bool.false_eq_true,
          if_false]
        exact filter_ne_of_not_mem _ _ hm
  | some e =>
    rw [lockContainerEnter_some _ _ _ hget] at h
    by_cases hm : e.lock ∈ vmc.locked
    · simp [hm] at h
    · simp only [hm, if_false, Option.some.injEq] at h
      subst h
      have hpos := hwf e hget
      refine ⟨_, unlockContainer_of_held _ id { refCount := e.refCount + 1, lock := e.lock }
        (GoMap.get_set_self _ _ _) (by simp only; omega) (by simp), ?_, ?_, rfl⟩
      · have hne : ¬ e.refCount + 1 = 1 := by omega
        simp only [hne, if_false]
        have he : ({ refCount := e.refCount + 1 - 1, lock := e.lock } : refCountedLock) = e := by
          cases e
          simp
        rw [he]
        exact GoMap.set_set_of_get _ _ _ _ hget
      · simp only [List.filter_cons, beq_self_eq_true, Bool.not_true, Bool.false_eq_true,
          if_false]
        exact filter_ne_of_not_mem _ _ hm

theorem Process_frame (vmc vmc1 : VMController) (ctxt : Context) (vmtype : String)
    (req : VMCReqIntf) (pd : Bool) (resp : VMCResp) (err : Option error)
    (hwf : ∀ id e, GoMap.get vmc.containerLocks id = some e → 0 < e.refCount)
    (h : Process vmc ctxt vmtype req pd = ProcessResult.returned resp err vmc1) :
    vmc1.containerLocks = vmc.containerLocks ∧ vmc1.locked = vmc.locked := by
  unfold Process at h
  split at h
  · cases h
  · cases h
    exact ⟨rfl, rfl⟩
  · split at h
    · split at h <;> cases h <;> exact ⟨rfl, rfl⟩
    · rename_i id _
      split at h
      · cases h
      · rename_i vmcL hL
        obtain ⟨vmc2, hu, h1, h2, _⟩ := lock_unlock_roundtrip vmc vmcL id (hwf id) hL
        rw [hu] at h
        simp only at h
        split at h <;> cases h <;> exact ⟨h1, h2⟩

theorem Process_returns (vmc : VMController) (ctxt : Context) (vmtype : String)
    (req : VMCReqIntf) (pd : Bool) (p : VMProvider)
    (hwf : ∀ id e, GoMap.get vmc.containerLocks id = some e → 0 < e.refCount)
    (hfresh : vmc.nextMutex ∉ vmc.locked)
    (hp : GoMap.get vmc.vmProviders vmtype = some p)
    (hfree : ∀ v id e, p.NewVM = some v → v.GetVMName req.getCCID = Except.ok id →
      GoMap.get vmc.containerLocks id = some e → e.lock ∉ vmc.locked) :
    ∃ resp err vmc1, Process vmc ctxt vmtype req pd = ProcessResult.returned resp err vmc1 := by
  simp only [Process, newVM, hp]
  cases hn : p.NewVM with
  | none => exact ⟨_, _, _, rfl⟩
  | some v =>
    simp only
    cases hg : v.GetVMName req.getCCID with
    | error e =>
      simp only
      split <;> exact ⟨_, _, _, rfl⟩
    | ok id =>
      simp only
      have hl : ∃ vmcL, lockContainer vmc id = some vmcL := by
        unfold lockContainer lockContainerAcquire
        cases hget : GoMap.get vmc.containerLocks id with
        | none =>
          rw [lockContainerEnter_none _ _ hget]
          simp [hfresh]
        | some e =>
          rw [lockContainerEnter_some _ _ _ hget]
          simp [hfree v id e hn hg hget]
      obtain ⟨vmcL, hL⟩ := hl
      obtain ⟨vmc2, hu, _⟩ := lock_unlock_roundtrip vmc vmcL id (hwf id) hL
      rw [hL]
      simp only [hu]
      split <;> exact ⟨_, _, _, rfl⟩

theorem System.Inv.table_pos {ps : List (String × VMProvider)} {s : System} (hI : s.Inv ps) :
    ∀ id e, GoMap.get s.vmc.containerLocks id = some e → 0 < e.refCount := by
  intro id e he
  obtain ⟨p1, p2, _, _⟩ := hI.locks.present id e he
  have p3 : e.refCount = (outstanding s.lockSys.clients id : Int) := p1
  have p4 : 0 < outstanding s.lockSys.clients id := p2
  omega

theorem System.Inv.fresh {ps : List (String × VMProvider)} {s : System} (hI : s.Inv ps) :
    s.vmc.nextMutex ∉ s.vmc.locked := by
  intro hm
  have := hI.locks.bounded _ hm
  exact absurd this (Nat.lt_irrefl _)

theorem System.Inv.held {ps : List (String × VMProvider)} {s : System} (hI : s.Inv ps)
    (i : Nat) (c : Call) (id : String) (hc : s.calls[i]? = some c)
    (hh : c.worker.client = Client.holding id) :
    ∃ e, GoMap.get s.vmc.containerLocks id = some e ∧ e.lock ∈ s.vmc.locked ∧
      0 < e.refCount := by
  have hcl := System.lockSys_clients_get s i c hc
  rw [hh] at hcl
  have hpos : 0 < holders s.lockSys.clients id :=
    holders_pos_of_mem _ i _ id hcl (by simp [Client.holds])
  have hle := holders_le_outstanding s.lockSys.clients id
  cases hget : GoMap.get s.vmc.containerLocks id with
  | none =>
    have := hI.locks.absent id hget
    omega
  | some e =>
    obtain ⟨_, _, _, p4⟩ := hI.locks.present id e hget
    exact ⟨e, rfl, p4.2 hpos, hI.table_pos id e hget⟩

theorem Call.returned_idle {ps : List (String × VMProvider)} {c : Call} (hc : c.Ok ps)
    (resp : VMCResp) (err : Option error) (hr : c.caller = Caller.returned resp err) :
    c.worker.client = Client.idle := by
  rcases hc with ⟨h0, _⟩ | ⟨p, v, _, _, _, _, hco⟩
  · rw [h0]
    rfl
  · simp only [Call.callerOk, hr] at hco
    obtain ⟨r, b, hw, _⟩ := hco
    rw [hw]
    rfl

/-- C3. In every state reached by any interleaving of `Process` calls: a call that is inside
`req.do` works on the name its request resolved to, and the lock of that name exists and its
mutex is locked; a call that has returned holds no lock and waits for none. And a `Process`
call run on its own from such a state, whatever the request, the driver outcome and the
branch of the `select`: when it returns, the lock table and the set of locked mutexes are what
they were before the call; and it does return whenever the type has a provider and the mutex
of the resolved name is free. -/
theorem Process_lock_scope (docker inproc mock : VMProvider)
    (reqs : List (Context × String × VMCReqIntf)) (sched : List Act) (s : System)
    (hs : (System.init docker inproc mock reqs).run sched = some s) :
    (∀ (i : Nat) (c : Call) (id : String), s.calls[i]? = some c →
      c.worker = Worker.running id →
      (∃ v, c.v = some v ∧ v.GetVMName c.req.getCCID = Except.ok id) ∧
      ∃ e, GoMap.get s.vmc.containerLocks id = some e ∧ e.lock ∈ s.vmc.locked ∧
        0 < e.refCount) ∧
    (∀ (i : Nat) (c : Call) (resp : VMCResp) (err : Option error), s.calls[i]? = some c →
      c.caller = Caller.returned resp err → c.worker.client = Client.idle) ∧
    (∀ (ctxt : Context) (vmtype : String) (req : VMCReqIntf) (pd : Bool) (resp : VMCResp)
      (err : Option error) (vmc1 : VMController),
      Process s.vmc ctxt vmtype req pd = ProcessResult.returned resp err vmc1 →
      vmc1.containerLocks = s.vmc.containerLocks ∧ vmc1.locked = s.vmc.locked) ∧
    (∀ (ctxt : Context) (vmtype : String) (req : VMCReqIntf) (pd : Bool) (p : VMProvider),
      GoMap.get s.vmc.vmProviders vmtype = some p →
      (∀ v id e, p.NewVM = some v → v.GetVMName req.getCCID = Except.ok id →
        GoMap.get s.vmc.containerLocks id = some e → e.lock ∉ s.vmc.locked) →
      ∃ resp err vmc1,
        Process s.vmc ctxt vmtype req pd = ProcessResult.returned resp err vmc1) := by
  have hI := System.inv_of_run docker inproc mock reqs sched s hs
  refine ⟨?_, ?_, ?_, ?_⟩
  · intro i c id hc hr
    exact ⟨Call.running_resolved (hI.calls i c hc) id hr,
      hI.held i c id hc (by rw [hr]; rfl)⟩
  · intro i c resp err hc hr
    exact Call.returned_idle (hI.calls i c hc) resp err hr
  · intro ctxt vmtype req pd resp err vmc1 h
    exact Process_frame s.vmc vmc1 ctxt vmtype req pd resp err hI.table_pos h
  · intro ctxt vmtype req pd p hp hfree
    exact Process_returns s.vmc ctxt vmtype req pd p hI.table_pos hI.fresh hp hfree

theorem Process_lock_scope_witness :
    (System.init ⟨none⟩ ⟨none⟩ ⟨some VM.sample⟩
      [(Context.Background, MOCKVM, StopContainerReq.sample.toReq)]).run Act.sampleSchedule =
      some System.sample ∧
    ((∃ v, (some VM.sample) = some v ∧
        v.GetVMName StopContainerReq.sample.toReq.getCCID = Except.ok "cc1") ∧
      ∃ e, GoMap.get System.sample.vmc.containerLocks "cc1" = some e ∧
        e.lock ∈ System.sample.vmc.locked ∧ 0 < e.refCount) :=
  ⟨rfl, (Process_lock_scope ⟨none⟩ ⟨none⟩ ⟨some VM.sample⟩
    [(Context.Background, MOCKVM, StopContainerReq.sample.toReq)] Act.sampleSchedule
    System.sample rfl).1 0 _ "cc1" rfl rfl⟩

theorem Call.draining_ok {ps : List (String × VMProvider)} {c : Call} (hc : c.Ok ps)
    (hd : c.caller = Caller.draining) :
    c.ctxt.Err.isSome = true ∧ ∃ v, c.v = some v ∧ c.workerOk v := by
  rcases hc with ⟨_, _, h1 | h1 | h1⟩ | ⟨p, v, _, _, hv, hwo, hco⟩
  · rw [hd] at h1
    cases h1
  · rw [hd] at h1
    cases h1.1
  · rw [hd] at h1
    cases h1.1
  · simp only [Call.callerOk, hd] at hco
    exact ⟨hco, v, hv, hwo⟩

/-- C4. In every state reached by any interleaving of `Process` calls, for a call whose
`select` took the cancellation branch: its context is done; the call can return only once
its worker goroutine has closed `c`; and when it returns, it returns the empty response
together with `ctxt.Err()` (the response of the worker is dropped), the worker has ended and
holds no container lock, and it has run `req.do` to its end whenever `GetVMName` resolved the
name (when it failed, `req.do` was never started). Run on its own, a `Process` call with a
done context whose `select` takes the cancellation branch returns the empty response and
`ctxt.Err()`. -/
theorem Process_cancellation_waits (docker inproc mock : VMProvider)
    (reqs : List (Context × String × VMCReqIntf)) (sched : List Act) (s : System)
    (hs : (System.init docker inproc mock reqs).run sched = some s)
    (i : Nat) (c : Call) (hc : s.calls[i]? = some c) (hd : c.caller = Caller.draining) :
    c.ctxt.Err.isSome = true ∧
    (∀ pd, (s.step (Act.caller i pd)).isSome = true ↔ ∃ r b, c.worker = Worker.closed r b) ∧
    (∀ pd s1, s.step (Act.caller i pd) = some s1 →
      s1.calls[i]? = some { c with caller := Caller.returned VMCResp.empty c.ctxt.Err } ∧
      s1.vmc = s.vmc ∧
      ∃ r b v, c.worker = Worker.closed r b ∧ c.worker.client = Client.idle ∧ c.v = some v ∧
        (∀ id, v.GetVMName c.req.getCCID = Except.ok id →
          b = true ∧ ∃ ctx0, r = c.req.do_ ctx0 v)) ∧
    (∀ (ctxt : Context) (vmtype : String) (req : VMCReqIntf) (resp : VMCResp)
      (err : Option error) (vmc1 : VMController) (p : VMProvider) (v : VM),
      GoMap.get s.vmc.vmProviders vmtype = some p → p.NewVM = some v →
      ctxt.Err.isSome = true →
      Process s.vmc ctxt vmtype req true = ProcessResult.returned resp err vmc1 →
      resp = VMCResp.empty ∧ err = ctxt.Err) := by
  have hI := System.inv_of_run docker inproc mock reqs sched s hs
  have hal : s.crashed = none := hI.locks.alive
  obtain ⟨hdone, v, hv, hwo⟩ := Call.draining_ok (hI.calls i c hc) hd
  have hlt : i < s.calls.length := by
    by_contra hn
    rw [List.getElem?_eq_none (by omega)] at hc
    cases hc
  have hstep : ∀ pd, s.step (Act.caller i pd) =
      match c.worker with
      | Worker.closed _ _ =>
        some { s with
          calls := s.calls.set i { c with caller := Caller.returned VMCResp.empty c.ctxt.Err } }
      | _ => none := by
    intro pd
    simp only [System.step, hal, Option.isSome_none, Bool.false_eq_true, if_false, hc,
      Call.callerStep, hd]
    cases c.worker <;> rfl
  refine ⟨hdone, ?_, ?_, ?_⟩
  · intro pd
    rw [hstep pd]
    cases hw : c.worker <;> simp
  · intro pd s1 h1
    rw [hstep pd] at h1
    cases hw : c.worker with
    | closed r b =>
      simp only [hw, Option.some.injEq] at h1
      subst h1
      refine ⟨by simp [List.getElem?_set, hlt], rfl, r, b, v, rfl, rfl, hv, ?_⟩
      intro id hid
      simp only [Call.workerOk, hw, hid] at hwo
      exact hwo
    | _ => simp [hw] at h1
  · intro ctxt vmtype req resp err vmc1 p v0 hp hn hcd h
    simp only [Process, newVM, hp, hn, hcd, Bool.true_and, if_true] at h
    split at h
    · cases h
      exact ⟨rfl, rfl⟩
    · split at h
      · cases h
      · split at h
        · cases h
        · cases h
          exact ⟨rfl, rfl⟩

theorem Process_cancellation_waits_witness :
    (System.init ⟨none⟩ ⟨none⟩ ⟨some VM.sample⟩
        [(Context.Background, MOCKVM, StopContainerReq.sample.toReq)]).run
        [Act.caller 0 false, Act.cancel 0 "context canceled", Act.caller 0 true] =
      some System.sampleDraining ∧
    (∀ pd, (System.sampleDraining.step (Act.caller 0 pd)).isSome = true ↔
      ∃ r b, Worker.resolve = Worker.closed r b) :=
  ⟨rfl, (Process_cancellation_waits ⟨none⟩ ⟨none⟩ ⟨some VM.sample⟩
    [(Context.Background, MOCKVM, StopContainerReq.sample.toReq)]
    [Act.caller 0 false, Act.cancel 0 "context canceled", Act.caller 0 true]
    System.sampleDraining rfl 0 _ rfl rfl).2.1⟩

theorem NewVMController_get_none (docker inproc mock : VMProvider) (vmtype : String)
    (h1 : vmtype ≠ DOCKER) (h2 : vmtype ≠ SYSTEM) (h3 : vmtype ≠ MOCKVM) :
    GoMap.get [(DOCKER, docker), (SYSTEM, inproc), (MOCKVM, mock)] vmtype = none := by
  simp [GoMap.get, Ne.symm h1, Ne.symm h2, Ne.symm h3]

/-- C5. For a VM type that is none of `Docker`, `System`, `MockVM`, in every state reached by
any interleaving of `Process` calls: a call with that type has not started its worker
goroutine (so it resolves no name, is no client of the lock table and never executes the
request) and has either not begun or panicked in `newVM`: it has not returned; its first
step is the panic of `newVM`; and `Process` run on its own panics in `newVM`, whatever the
request. -/
theorem Process_unknown_type_panics (docker inproc mock : VMProvider)
    (reqs : List (Context × String × VMCReqIntf)) (sched : List Act) (s : System)
    (hs : (System.init docker inproc mock reqs).run sched = some s) (vmtype : String)
    (h1 : vmtype ≠ DOCKER) (h2 : vmtype ≠ SYSTEM) (h3 : vmtype ≠ MOCKVM) :
    (∀ (ctxt : Context) (req : VMCReqIntf) (pd : Bool),
      Process s.vmc ctxt vmtype req pd =
        ProcessResult.panicked ("Programming error: unsupported VM type: " ++ vmtype)) ∧
    (∀ (i : Nat) (c : Call), s.calls[i]? = some c → c.vmtype = vmtype →
      c.worker = Worker.notStarted ∧ c.v = none ∧ c.worker.client = Client.idle ∧
      (c.caller = Caller.entry ∨
        c.caller = Caller.panicked ("Programming error: unsupported VM type: " ++ vmtype))) ∧
    (∀ (i : Nat) (c : Call) (pd : Bool) (s1 : System), s.calls[i]? = some c →
      c.vmtype = vmtype → s.step (Act.caller i pd) = some s1 →
      s1.vmc = s.vmc ∧
      s1.calls[i]? = some { c with
        caller := Caller.panicked ("Programming error: unsupported VM type: " ++ vmtype) }) := by
  have hI := System.inv_of_run docker inproc mock reqs sched s hs
  have hal : s.crashed = none := hI.locks.alive
  have hg := NewVMController_get_none docker inproc mock vmtype h1 h2 h3
  have hgp : GoMap.get s.vmc.vmProviders vmtype = none := by
    rw [hI.providers]
    exact hg
  have key : ∀ (i : Nat) (c : Call), s.calls[i]? = some c → c.vmtype = vmtype →
      c.worker = Worker.notStarted ∧ c.v = none ∧ c.worker.client = Client.idle ∧
      (c.caller = Caller.entry ∨
        c.caller = Caller.panicked ("Programming error: unsupported VM type: " ++ vmtype)) := by
    intro i c hc hv
    rcases hI.calls i c hc with ⟨hw, hv0, h | h | h⟩ | ⟨p, v, hp, _⟩
    · exact ⟨hw, hv0, by rw [hw]; rfl, Or.inl h⟩
    · exact ⟨hw, hv0, by rw [hw]; rfl, Or.inr (hv ▸ h.1)⟩
    · obtain ⟨_, p, hp, _⟩ := h
      rw [hv, hg] at hp
      cases hp
    · rw [hv, hg] at hp
      cases hp
  refine ⟨?_, key, ?_⟩
  · intro ctxt req pd
    simp [Process, newVM, hgp]
  · intro i c pd s1 hc hv h
    have hlt : i < s.calls.length := by
      by_contra hn
      rw [List.getElem?_eq_none (by omega)] at hc
      cases hc
    obtain ⟨_, _, _, hcal⟩ := key i c hc hv
    simp only [System.step, hal, Option.isSome_none, Bool.false_eq_true, if_false, hc] at h
    subst hv
    rcases hcal with hcal | hcal
    · simp only [Call.callerStep, hcal, newVM, hgp, Option.some.injEq] at h
      subst h
      exact ⟨rfl, by simp [List.getElem?_set, hlt]⟩
    · simp [Call.callerStep, hcal] at h

theorem Process_unknown_type_panics_witness :
    (System.init ⟨none⟩ ⟨none⟩ ⟨some VM.sample⟩
        [(Context.Background, "Kubernetes", StopContainerReq.sample.toReq)]).run
        [Act.caller 0 false] = some System.samplePanicked ∧
    "Kubernetes" ≠ DOCKER ∧ "Kubernetes" ≠ SYSTEM ∧ "Kubernetes" ≠ MOCKVM ∧
    (∀ (ctxt : Context) (req : VMCReqIntf) (pd : Bool),
      Process System.samplePanicked.vmc ctxt "Kubernetes" req pd =
        ProcessResult.panicked ("Programming error: unsupported VM type: " ++ "Kubernetes")) :=
  ⟨rfl, by decide, by decide, by decide,
    (Process_unknown_type_panics ⟨none⟩ ⟨none⟩ ⟨some VM.sample⟩
      [(Context.Background, "Kubernetes", StopContainerReq.sample.toReq)]
      [Act.caller 0 false] System.samplePanicked rfl "Kubernetes"
      (by decide) (by decide) (by decide)).1⟩

theorem lockContainerEnter_get_ne (vmc : VMController) (a b : String) (hab : a ≠ b) :
    GoMap.get (lockContainerEnter vmc a).1.containerLocks b = GoMap.get vmc.containerLocks b ∧
    (lockContainerEnter vmc a).1.locked = vmc.locked := by
  cases hget : GoMap.get vmc.containerLocks a with
  | none =>
    rw [lockContainerEnter_none _ _ hget]
    exact ⟨GoMap.get_set_ne _ _ _ _ hab, rfl⟩
  | some e =>
    rw [lockContainerEnter_some _ _ _ hget]
    exact ⟨GoMap.get_set_ne _ _ _ _ hab, rfl⟩

theorem lockContainerEnter_blind (vmc : VMController) (a : String)
    (t : List (String × refCountedLock))
    (ht : GoMap.get t a = GoMap.get vmc.containerLocks a) :
    (lockContainerEnter { vmc with containerLocks := t } a).2 = (lockContainerEnter vmc a).2 ∧
    GoMap.get (lockContainerEnter { vmc with containerLocks := t } a).1.containerLocks a =
      GoMap.get (lockContainerEnter vmc a).1.containerLocks a := by
  cases hget : GoMap.get vmc.containerLocks a with
  | none =>
    rw [lockContainerEnter_none _ _ hget, lockContainerEnter_none _ _ (by rw [← hget]; exact ht)]
    simp [GoMap.get_set_self]
  | some e =>
    rw [lockContainerEnter_some _ _ _ hget,
      lockContainerEnter_some _ _ e (by rw [← hget]; exact ht)]
    simp [GoMap.get_set_self]

theorem unlockContainer_blind (vmc : VMController) (a : String)
    (t : List (String × refCountedLock))
    (ht : GoMap.get t a = GoMap.get vmc.containerLocks a) :
    (unlockContainer { vmc with containerLocks := t } a).map
        (fun v => (GoMap.get v.containerLocks a, v.locked)) =
      (unlockContainer vmc a).map (fun v => (GoMap.get v.containerLocks a, v.locked)) := by
  unfold unlockContainer
  simp only [ht]
  cases hget : GoMap.get vmc.containerLocks a with
  | none => simp [Except.map, ht, hget]
  | some e =>
    simp only
    by_cases h1 : e.refCount ≤ 0
    · simp [h1, Except.map]
    · by_cases h2 : e.lock ∈ vmc.locked
      · by_cases h3 : e.refCount - 1 = 0
        · simp [h1, h2, h3, Except.map, GoMap.get_delete_self]
        · simp [h1, h2, h3, Except.map, GoMap.get_set_self]
      · simp [h1, h2, Except.map]

/-- C6. For names `a ≠ b`, in every reachable state of the lock table: the bookkeeping of
`lockContainer(a)` leaves the entry of `b` and all mutexes as they are; every step a client
takes on `a` (entering `lockContainer(a)`, getting the mutex of `a`, `unlockContainer(a)`)
leaves the entry of `b` (its `refCount` and its mutex) unchanged and the mutex of `b` locked
or unlocked as it was; what `lockContainer(a)` and `unlockContainer(a)` do to the entry of `a`
is the same whatever the rest of the table holds (they do not read the entry of `b`); and a client
waiting for the mutex of `a` gets it as soon as no client holds `a`, whoever holds `b`. -/
theorem distinct_names_independent (docker inproc mock : VMProvider) (n : Nat)
    (as : List LockAct) (g : LockSys)
    (h : (LockSys.init docker inproc mock n).run as = some g) (a b : String) (hab : a ≠ b) :
    (GoMap.get (lockContainerEnter g.vmc a).1.containerLocks b =
        GoMap.get g.vmc.containerLocks b ∧
      (lockContainerEnter g.vmc a).1.locked = g.vmc.locked) ∧
    (∀ (i : Nat) (act : LockAct) (g1 : LockSys),
      (act = LockAct.enter i a ∨
        (act = LockAct.acquire i ∧ ∃ addr, g.clients[i]? = some (Client.waiting a addr)) ∨
        act = LockAct.unlock i a) →
      g.step act = some g1 →
      GoMap.get g1.vmc.containerLocks b = GoMap.get g.vmc.containerLocks b ∧
      ∀ e, GoMap.get g.vmc.containerLocks b = some e →
        (e.lock ∈ g1.vmc.locked ↔ e.lock ∈ g.vmc.locked)) ∧
    (∀ (t : List (String × refCountedLock)),
      GoMap.get t a = GoMap.get g.vmc.containerLocks a →
      ((lockContainerEnter { g.vmc with containerLocks := t } a).2 =
          (lockContainerEnter g.vmc a).2 ∧
        GoMap.get (lockContainerEnter { g.vmc with containerLocks := t } a).1.containerLocks a =
          GoMap.get (lockContainerEnter g.vmc a).1.containerLocks a) ∧
      (unlockContainer { g.vmc with containerLocks := t } a).map
          (fun v => (GoMap.get v.containerLocks a, v.locked)) =
        (unlockContainer g.vmc a).map (fun v => (GoMap.get v.containerLocks a, v.locked))) ∧
    (∀ (i : Nat) (addr : Nat), g.clients[i]? = some (Client.waiting a addr) →
      holders g.clients a = 0 → (g.step (LockAct.acquire i)).isSome = true) := by
  have hI : g.Inv := (LockSys.Inv.lock_init docker inproc mock n).lock_run as h
  refine ⟨lockContainerEnter_get_ne g.vmc a b hab, ?_, ?_, ?_⟩
  · intro i act g1 hact hs
    rcases hact with rfl | ⟨rfl, addr, hw⟩ | rfl
    · simp only [LockSys.step, hI.alive, Option.isSome_none, Bool.false_eq_true, if_false] at hs
      split at hs
      · cases hs
        obtain ⟨e1, e2⟩ := lockContainerEnter_get_ne g.vmc a b hab
        refine ⟨e1, ?_⟩
        intro e _
        simp only [e2]
      · cases hs
    · simp only [LockSys.step, hI.alive, Option.isSome_none, Bool.false_eq_true, if_false, hw,
        lockContainerAcquire] at hs
      by_cases hm : addr ∈ g.vmc.locked
      · simp [hm] at hs
      · simp only [hm, if_false, Option.some.injEq] at hs
        subst hs
        refine ⟨rfl, ?_⟩
        intro e he
        obtain ⟨ea, hea, hl⟩ := hI.waiters i a addr hw
        have hne : e.lock ≠ addr := by
          intro heq
          exact hab (hI.distinct a b ea e hea he (by rw [hl, heq]))
        simp [hne]
    · simp only [LockSys.step, hI.alive, Option.isSome_none, Bool.false_eq_true, if_false] at hs
      split at hs
      · rename_i k hc
        by_cases hk : k = a
        · subst hk
          obtain ⟨vmc1, hu, _⟩ := hI.unlock i k hc
          simp only [hu, if_true] at hs
          cases hs
          have hhpos : 0 < holders g.clients k :=
            holders_pos_of_mem g.clients i _ k hc (by simp [Client.holds])
          have hle := holders_le_outstanding g.clients k
          cases hget : GoMap.get g.vmc.containerLocks k with
          | none =>
            have := hI.absent k hget
            omega
          | some ea =>
            obtain ⟨p1, p2, p3, p4⟩ := hI.present k ea hget
            rw [unlockContainer_of_held g.vmc k ea hget (by omega) (p4.2 hhpos)] at hu
            cases hu
            constructor
            · dsimp only
              split
              · exact GoMap.get_delete_ne _ _ _ hab
              · exact GoMap.get_set_ne _ _ _ _ hab
            · intro e he
              have hne : e.lock ≠ ea.lock := by
                intro heq
                exact hab (hI.distinct k b ea e hget he heq.symm)
              simp [List.mem_filter, hne]
        · simp [hk] at hs
      · cases hs
  · intro t ht
    exact ⟨lockContainerEnter_blind g.vmc a t ht, unlockContainer_blind g.vmc a t ht⟩
  · intro i addr hw h0
    obtain ⟨ea, hea, hl⟩ := hI.waiters i a addr hw
    obtain ⟨_, _, _, p4⟩ := hI.present a ea hea
    have hm : addr ∉ g.vmc.locked := by
      intro hm
      have := p4.1 (hl ▸ hm)
      omega
    simp [LockSys.step, hI.alive, hw, lockContainerAcquire, hm]

theorem distinct_names_independent_witness :
    (LockSys.init ⟨none⟩ ⟨none⟩ ⟨none⟩ 2).run
        [LockAct.enter 0 "a", LockAct.enter 1 "a", LockAct.acquire 0] = some LockSys.sample ∧
    "b" ≠ "a" ∧
    (GoMap.get (lockContainerEnter LockSys.sample.vmc "b").1.containerLocks "a" =
        GoMap.get LockSys.sample.vmc.containerLocks "a" ∧
      (lockContainerEnter LockSys.sample.vmc "b").1.locked = LockSys.sample.vmc.locked) :=
  ⟨rfl, by decide, (distinct_names_independent ⟨none⟩ ⟨none⟩ ⟨none⟩ 2
    [LockAct.enter 0 "a", LockAct.enter 1 "a", LockAct.acquire 0] LockSys.sample rfl
    "b" "a" (by decide)).1⟩

end container

namespace GoMap

theorem get_eq_none_iff {α : Type} (m : List (String × α)) (x : String) :
    get m x = none ↔ x ∉ keys m := by
  induction m with
  | nil => simp [get, keys]
  | cons p m ih =>
    obtain ⟨k, v⟩ := p
    by_cases h : k = x
    · simp [get, keys, h]
    · simp only [get, h, if_false, ih, keys, List.map_cons, List.mem_cons, not_or]
      constructor
      · intro h1
        exact ⟨fun e => h e.symm, h1⟩
      · intro h1
        exact h1.2

theorem mem_keys_set {α : Type} (m : List (String × α)) (x y : String) (a : α) :
    y ∈ keys (set m x a) ↔ y = x ∨ y ∈ keys m := by
  induction m with
  | nil => simp [set, keys]
  | cons p m ih =>
    obtain ⟨k, v⟩ := p
    by_cases h : k = x
    · subst h
      simp [set, keys]
    · simp only [keys, List.map_cons, List.mem_cons] at ih ⊢
      simp only [set, h, if_false, List.map_cons, List.mem_cons, ih]
      tauto

theorem nodup_keys_set {α : Type} (m : List (String × α)) (x : String) (a : α)
    (h : (keys m).Nodup) : (keys (set m x a)).Nodup := by
  induction m with
  | nil => simp [set, keys]
  | cons p m ih =>
    obtain ⟨k, v⟩ := p
    simp only [keys, List.map_cons, List.nodup_cons] at h
    by_cases hk : k = x
    · simp only [set, hk, if_true, keys, List.map_cons, List.nodup_cons]
      exact ⟨hk ▸ h.1, h.2⟩
    · simp only [set, hk, if_false, keys, List.map_cons, List.nodup_cons]
      refine ⟨?_, ih h.2⟩
      intro hm
      rcases (mem_keys_set m x k a).1 hm with e | e
      · exact hk e
      · exact h.1 e

theorem mem_keys_delete {α : Type} (m : List (String × α)) (x y : String) :
    y ∈ keys (delete m x) ↔ y ≠ x ∧ y ∈ keys m := by
  induction m with
  | nil => simp [delete, keys]
  | cons p m ih =>
    obtain ⟨k, v⟩ := p
    simp only [keys, List.map_cons, List.mem_cons] at ih ⊢
    by_cases h : k = x
    · subst h
      simp only [delete, if_true, ih]
      constructor
      · intro h1
        exact ⟨h1.1, Or.inr h1.2⟩
      · intro h1
        rcases h1.2 with e | e
        · exact absurd e h1.1
        · exact ⟨h1.1, e⟩
    · simp only [delete, h, if_false, List.map_cons, List.mem_cons, ih]
      constructor
      · intro h1
        rcases h1 with e | e
        · exact ⟨fun e2 => h (e ▸ e2), Or.inl e⟩
        · exact ⟨e.1, Or.inr e.2⟩
      · intro h1
        rcases h1.2 with e | e
        · exact Or.inl e
        · exact Or.inr ⟨h1.1, e⟩

theorem nodup_keys_delete {α : Type} (m : List (String × α)) (x : String)
    (h : (keys m).Nodup) : (keys (delete m x)).Nodup := by
  induction m with
  | nil => simp [delete, keys]
  | cons p m ih =>
    obtain ⟨k, v⟩ := p
    simp only [keys, List.map_cons, List.nodup_cons] at h
    by_cases hk : k = x
    · simp only [delete, hk, if_true]
      exact ih h.2
    · simp only [delete, hk, if_false, keys, List.map_cons, List.nodup_cons]
      refine ⟨?_, ih h.2⟩
      intro hm
      exact h.1 ((mem_keys_delete m x k).1 hm).2

end GoMap

namespace gc

open container

theorem markExpired_fold (cutoff : Int) :
    ∀ (l : List (String × vmInfo)) (ex : List (String × vmInfo)) (name : String),
      (GoMap.keys l).Nodup →
      GoMap.get
          (l.foldl
            (fun ex p =>
              if p.2.activeTime < cutoff then
                GoMap.set ex p.1 (newVmInfo p.2.ccid p.2.activeTime)
              else ex)
            ex)
          name =
        match GoMap.get l name with
        | some info =>
          if info.activeTime < cutoff then some (newVmInfo info.ccid info.activeTime)
          else GoMap.get ex name
        | none => GoMap.get ex name
  | [], ex, name, _ => by simp [GoMap.get]
  | (k, v) :: rest, ex, name, hnd => by
    simp only [GoMap.keys, List.map_cons, List.nodup_cons] at hnd
    rw [List.foldl_cons, markExpired_fold cutoff rest _ name hnd.2]
    by_cases hk : k = name
    · subst hk
      have hnone : GoMap.get rest k = none := (GoMap.get_eq_none_iff rest k).2 hnd.1
      simp only [hnone, GoMap.get, if_true]
      by_cases hlt : v.activeTime < cutoff
      · simp [hlt, GoMap.get_set_self]
      · simp [hlt]
    · simp only [GoMap.get, hk, if_false]
      have hex : GoMap.get
          (if v.activeTime < cutoff then GoMap.set ex k (newVmInfo v.ccid v.activeTime) else ex)
          name = GoMap.get ex name := by
        split
        · exact GoMap.get_set_ne _ _ _ _ hk
        · rfl
      simp only [hex]

theorem int64_neg (v : Int) (h1 : -9223372036854775808 < v) (h2 : v < 9223372036854775808) :
    int64 (-v) = -v := by
  unfold int64
  omega

theorem int64_neg_le (v : Int) (h1 : -9223372036854775808 ≤ v)
    (h2 : v < 9223372036854775808) : int64 (-v) ≤ -v := by
  unfold int64
  omega

/-- For an idle threshold that is a `time.Duration` other than the least one: the scan of a
tick at time `now` leaves the tracked set as it is; a tracked container whose last-active time
is strictly before `now - vmLiveTime` gets a fresh copy of its entry in the expired set; for a
tracked container whose last-active time is not strictly before the cutoff, in particular one
whose last-active time equals the cutoff, and for a name that is not tracked, the scan writes
nothing: the expired set holds for that name what it held before. -/
theorem markExpired_strictly_before_cutoff (gc : GCManager) (now : Int)
    (hnd : (GoMap.keys gc.runningVMs).Nodup)
    (hmin : -9223372036854775808 < gc.vmLiveTime) (hmax : gc.vmLiveTime < 9223372036854775808) :
    (gc.markExpired now).runningVMs = gc.runningVMs ∧
    (∀ name info, GoMap.get gc.runningVMs name = some info →
      (info.activeTime < now - gc.vmLiveTime →
        GoMap.get (gc.markExpired now).expiredVMs name =
          some (newVmInfo info.ccid info.activeTime)) ∧
      (¬ info.activeTime < now - gc.vmLiveTime →
        GoMap.get (gc.markExpired now).expiredVMs name = GoMap.get gc.expiredVMs name) ∧
      (info.activeTime = now - gc.vmLiveTime →
        GoMap.get (gc.markExpired now).expiredVMs name = GoMap.get gc.expiredVMs name)) ∧
    (∀ name, GoMap.get gc.runningVMs name = none →
      GoMap.get (gc.markExpired now).expiredVMs name = GoMap.get gc.expiredVMs name) := by
  have hcut : now + int64 (-gc.vmLiveTime) = now - gc.vmLiveTime := by
    rw [int64_neg gc.vmLiveTime hmin hmax]
    omega
  refine ⟨rfl, ?_, ?_⟩
  · intro name info hget
    have h := markExpired_fold (now + int64 (-gc.vmLiveTime)) gc.runningVMs gc.expiredVMs name hnd
    rw [hget, hcut] at h
    simp only at h
    refine ⟨?_, ?_, ?_⟩
    · intro hlt
      simp only [GCManager.markExpired, hcut]
      rw [h]
      simp [hlt]
    · intro hlt
      simp only [GCManager.markExpired, hcut]
      rw [h]
      simp [hlt]
    · intro heq
      have hlt : ¬ info.activeTime < now - gc.vmLiveTime := by omega
      simp only [GCManager.markExpired, hcut]
      rw [h]
      simp [hlt]
  · intro name hget
    have h := markExpired_fold (now + int64 (-gc.vmLiveTime)) gc.runningVMs gc.expiredVMs name hnd
    rw [hget] at h
    simp only [GCManager.markExpired]
    exact h

theorem markExpired_strictly_before_cutoff_witness :
    (GoMap.keys GCManager.sample.runningVMs).Nodup ∧
    GoMap.get GCManager.sample.runningVMs "cc2:1.0" =
      some { ccid := CCID.cc2, activeTime := 10 } ∧
    (10 : Int) = 20 - GCManager.sample.vmLiveTime ∧
    GoMap.get (GCManager.sample.markExpired 20).expiredVMs "cc2:1.0" =
      GoMap.get GCManager.sample.expiredVMs "cc2:1.0" :=
  ⟨by decide, by decide, by decide,
    ((markExpired_strictly_before_cutoff GCManager.sample 20 (by decide) (by decide)
      (by decide)).2.1 "cc2:1.0"
      { ccid := CCID.cc2, activeTime := 10 } (by decide)).2.2 (by decide)⟩

theorem stopLoop_spec {σ : Type} (P : Dispatcher σ) :
    ∀ (l : List (String × vmInfo)) (gc : GCManager) (d : σ), (GoMap.keys l).Nodup →
      (GCManager.stopLoop P l gc d).2.2.map Prod.fst = GoMap.keys l ∧
      (∀ name, name ∉ GoMap.keys l →
        GoMap.get (GCManager.stopLoop P l gc d).1.runningVMs name =
            GoMap.get gc.runningVMs name ∧
          GoMap.get (GCManager.stopLoop P l gc d).1.expiredVMs name =
            GoMap.get gc.expiredVMs name) ∧
      (∀ name, (name, none) ∈ (GCManager.stopLoop P l gc d).2.2 →
        GoMap.get (GCManager.stopLoop P l gc d).1.runningVMs name = none ∧
          GoMap.get (GCManager.stopLoop P l gc d).1.expiredVMs name = none) ∧
      (∀ name err, (name, some err) ∈ (GCManager.stopLoop P l gc d).2.2 →
        GoMap.get (GCManager.stopLoop P l gc d).1.runningVMs name =
            GoMap.get gc.runningVMs name ∧
          GoMap.get (GCManager.stopLoop P l gc d).1.expiredVMs name =
            GoMap.get gc.expiredVMs name)
  | [], gc, d, _ => by simp [GCManager.stopLoop, GoMap.keys]
  | (k, info) :: rest, gc, d, hnd => by
    simp only [GoMap.keys, List.map_cons, List.nodup_cons] at hnd
    have hk : k ∉ GoMap.keys rest := hnd.1
    cases hstop : (gc.stopVM P d info.ccid).1 with
    | some err =>
      obtain ⟨i1, i2, i3, i4⟩ := stopLoop_spec P rest gc (gc.stopVM P d info.ccid).2 hnd.2
      simp only [GCManager.stopLoop, hstop]
      refine ⟨?_, ?_, ?_, ?_⟩
      · simp only [List.map_cons, GoMap.keys] at i1 ⊢
        rw [i1]
      · intro name hname
        simp only [GoMap.keys, List.map_cons, List.mem_cons, not_or] at hname
        exact i2 name hname.2
      · intro name hmem
        simp only [List.mem_cons, Prod.mk.injEq] at hmem
        rcases hmem with ⟨_, h2⟩ | hmem
        · cases h2
        · exact i3 name hmem
      · intro name e hmem
        simp only [List.mem_cons, Prod.mk.injEq] at hmem
        rcases hmem with ⟨h1, _⟩ | hmem
        · subst h1
          exact i2 name hk
        · exact i4 name e hmem
    | none =>
      obtain ⟨i1, i2, i3, i4⟩ := stopLoop_spec P rest
        { gc with
          runningVMs := GoMap.delete gc.runningVMs k
          expiredVMs := GoMap.delete gc.expiredVMs k }
        (gc.stopVM P d info.ccid).2 hnd.2
      simp only [GCManager.stopLoop, hstop]
      refine ⟨?_, ?_, ?_, ?_⟩
      · simp only [List.map_cons, GoMap.keys] at i1 ⊢
        rw [i1]
      · intro name hname
        simp only [GoMap.keys, List.map_cons, List.mem_cons, not_or] at hname
        obtain ⟨j1, j2⟩ := i2 name hname.2
        have hne : k ≠ name := fun e => hname.1 e.symm
        rw [j1, j2]
        exact ⟨GoMap.get_delete_ne _ _ _ hne, GoMap.get_delete_ne _ _ _ hne⟩
      · intro name hmem
        simp only [List.mem_cons, Prod.mk.injEq] at hmem
        rcases hmem with ⟨h1, _⟩ | hmem
        · subst h1
          obtain ⟨j1, j2⟩ := i2 name hk
          rw [j1, j2]
          exact ⟨GoMap.get_delete_self _ _, GoMap.get_delete_self _ _⟩
        · exact i3 name hmem
      · intro name e hmem
        simp only [List.mem_cons, Prod.mk.injEq] at hmem
        rcases hmem with ⟨_, h2⟩ | hmem
        · cases h2
        · have hin : name ∈ GoMap.keys rest := by
            rw [← i1]
            exact List.mem_map_of_mem Prod.fst hmem
          have hne : k ≠ name := fun e2 => hk (e2 ▸ hin)
          obtain ⟨j1, j2⟩ := i4 name e hmem
          rw [j1, j2]
          exact ⟨GoMap.get_delete_ne _ _ _ hne, GoMap.get_delete_ne _ _ _ hne⟩

/-- For any dispatcher, with the outcome of a Stop read as `stopVM` reads it (the second
result of the dispatcher): `stopExpiredVMs` visits every entry of the expired set once (its
log lists the names of the expired set in order, so an error does not end the loop); for an
entry whose call returned no error the name is afterwards in neither the tracked nor the
expired set; for an entry whose call returned an error both sets hold for that name what they
held before; and a sweep of a running loop leaves the loop running. -/
theorem stopExpiredVMs_outcomes {σ : Type} (P : Dispatcher σ) (gc : GCManager) (d : σ)
    (hnd : (GoMap.keys gc.expiredVMs).Nodup) :
    (gc.stopExpiredVMs P d).2.2.map Prod.fst = GoMap.keys gc.expiredVMs ∧
    (∀ name, (name, none) ∈ (gc.stopExpiredVMs P d).2.2 →
      GoMap.get (gc.stopExpiredVMs P d).1.runningVMs name = none ∧
        GoMap.get (gc.stopExpiredVMs P d).1.expiredVMs name = none) ∧
    (∀ name err, (name, some err) ∈ (gc.stopExpiredVMs P d).2.2 →
      GoMap.get (gc.stopExpiredVMs P d).1.runningVMs name = GoMap.get gc.runningVMs name ∧
        GoMap.get (gc.stopExpiredVMs P d).1.expiredVMs name =
          GoMap.get gc.expiredVMs name) ∧
    (∀ (r : Reaper σ) (now : Int), r.looping = true →
      ∃ r1, r.step P (Event.tick now) = some r1 ∧ r1.looping = true) := by
  obtain ⟨i1, _, i3, i4⟩ := stopLoop_spec P gc.expiredVMs gc d hnd
  refine ⟨i1, i3, i4, ?_⟩
  intro r now hl
  exact ⟨r.sweep P now, by simp [Reaper.step, hl], hl⟩

theorem stopExpiredVMs_outcomes_witness :
    (GoMap.keys GCManager.sample.expiredVMs).Nodup ∧
    (GCManager.sample.stopExpiredVMs Dispatcher.failFirst 0).2.2.map Prod.fst =
      GoMap.keys GCManager.sample.expiredVMs :=
  ⟨by decide, (stopExpiredVMs_outcomes Dispatcher.failFirst GCManager.sample 0 (by decide)).1⟩

/-- With a dispatcher that answers the Stop of a container with an error and a later Stop of
the same container with nil, which the dispatcher of `controller.go` never does, a copy left
in the expired set by the first sweep outlives a touch: a container tracked at time 0 with
idle threshold 10, whose Stop fails at the sweep at 11 and which is touched at 12, is stopped
and removed by the sweep at 13. -/
theorem touched_container_is_stopped :
    ((Reaper.init "MockVM" 10 1 (0 : Nat)).run Dispatcher.failFirst
        [Event.AddVM "cc1:1.0" CCID.cc1 0, Event.tick 11, Event.UpdateVM "cc1:1.0" 12]).map
        (fun r => (GoMap.get r.gc.runningVMs "cc1:1.0", r.log)) =
      some (some { ccid := CCID.cc1, activeTime := 12 }, [("cc1:1.0", some "stop failed")]) ∧
    ¬ ((12 : Int) < 13 - 10) ∧
    ((Reaper.init "MockVM" 10 1 (0 : Nat)).run Dispatcher.failFirst
        [Event.AddVM "cc1:1.0" CCID.cc1 0, Event.tick 11, Event.UpdateVM "cc1:1.0" 12,
          Event.tick 13]).map
        (fun r => (GoMap.get r.gc.runningVMs "cc1:1.0", r.log)) =
      some (none, [("cc1:1.0", none)]) := by
  refine ⟨by decide, by decide, by decide⟩

theorem markExpired_wf (gc : GCManager) (now : Int) (h : gc.WF) : (gc.markExpired now).WF := by
  refine ⟨h.1, ?_⟩
  simp only [GCManager.markExpired]
  have key : ∀ (l ex : List (String × vmInfo)), (GoMap.keys ex).Nodup →
      (GoMap.keys
        (l.foldl
          (fun ex p =>
            if p.2.activeTime < now + int64 (-gc.vmLiveTime) then
              GoMap.set ex p.1 (newVmInfo p.2.ccid p.2.activeTime)
            else ex)
          ex)).Nodup := by
    intro l
    induction l with
    | nil =>
      intro ex hex
      exact hex
    | cons p l ih =>
      intro ex hex
      rw [List.foldl_cons]
      apply ih
      split
      · exact GoMap.nodup_keys_set _ _ _ hex
      · exact hex
  exact key gc.runningVMs gc.expiredVMs h.2

theorem stopLoop_wf {σ : Type} (P : Dispatcher σ) :
    ∀ (l : List (String × vmInfo)) (gc : GCManager) (d : σ), gc.WF →
      (GCManager.stopLoop P l gc d).1.WF
  | [], gc, d, h => by simpa [GCManager.stopLoop] using h
  | (k, info) :: rest, gc, d, h => by
    cases hstop : (gc.stopVM P d info.ccid).1 with
    | some err =>
      simp only [GCManager.stopLoop, hstop]
      exact stopLoop_wf P rest gc _ h
    | none =>
      simp only [GCManager.stopLoop, hstop]
      exact stopLoop_wf P rest _ _
        ⟨GoMap.nodup_keys_delete _ _ h.1, GoMap.nodup_keys_delete _ _ h.2⟩

theorem Reaper.step_wf {σ : Type} (P : Dispatcher σ) (r r1 : Reaper σ) (e : Event)
    (h : r.gc.WF) (hs : r.step P e = some r1) : r1.gc.WF := by
  cases e with
  | AddVM canName ccid activeTime =>
    simp only [Reaper.step, Option.some.injEq] at hs
    subst hs
    exact ⟨GoMap.nodup_keys_set _ _ _ h.1, h.2⟩
  | UpdateVM canName activeTime =>
    simp only [Reaper.step, Option.some.injEq] at hs
    subst hs
    simp only [GCManager.UpdateVM]
    split
    · exact ⟨GoMap.nodup_keys_set _ _ _ h.1, h.2⟩
    · exact h
  | tick now =>
    simp only [Reaper.step] at hs
    split at hs
    · cases hs
      exact stopLoop_wf P _ _ _ (markExpired_wf r.gc now h)
    · cases hs
  | exit =>
    simp only [Reaper.step] at hs
    split at hs
    · cases hs
      exact h
    · cases hs
  | Close =>
    simp only [Reaper.step, Option.some.injEq] at hs
    subst hs
    simp only [GCManager.Close]
    split
    · exact h
    · exact h

theorem Reaper.run_wf {σ : Type} (P : Dispatcher σ) (es : List Event) :
    ∀ (r r1 : Reaper σ), r.gc.WF → r.run P es = some r1 → r1.gc.WF := by
  induction es with
  | nil =>
    intro r r1 h hr
    simp only [Reaper.run, Option.some.injEq] at hr
    exact hr ▸ h
  | cons e es ih =>
    intro r r1 h hr
    simp only [Reaper.run] at hr
    cases hs : r.step P e with
    | none => simp [hs] at hr
    | some r2 =>
      simp only [hs] at hr
      exact ih r2 r1 (Reaper.step_wf P r r2 e h hs) hr

theorem Reaper.init_wf {σ : Type} (vmType : String) (vmLiveTime gcInterval : Int) (d : σ) :
    (Reaper.init vmType vmLiveTime gcInterval d).gc.WF := by
  simp [Reaper.init, NewGCManager, GCManager.WF, GoMap.keys]

theorem sweep_keeps_active {σ : Type} (P : Dispatcher σ) (r : Reaper σ) (now : Int)
    (hwf : r.gc.WF) (name : String) (info : vmInfo)
    (hget : GoMap.get r.gc.runningVMs name = some info)
    (hactive : ¬ info.activeTime < now - r.gc.vmLiveTime)
    (hnot : GoMap.get r.gc.expiredVMs name = none)
    (hmin : -9223372036854775808 ≤ r.gc.vmLiveTime)
    (hmax : r.gc.vmLiveTime < 9223372036854775808) :
    GoMap.get (r.sweep P now).gc.runningVMs name = some info := by
  have e1 : (r.gc.markExpired now).runningVMs = r.gc.runningVMs := rfl
  have h := markExpired_fold (now + int64 (-r.gc.vmLiveTime)) r.gc.runningVMs r.gc.expiredVMs name
    hwf.1
  rw [hget] at h
  have hlt : ¬ info.activeTime < now + int64 (-r.gc.vmLiveTime) := by
    have := int64_neg_le r.gc.vmLiveTime hmin hmax
    omega
  simp only [hlt, if_false] at h
  have h1 : GoMap.get (r.gc.markExpired now).expiredVMs name = none := by
    simp only [GCManager.markExpired]
    rw [h, hnot]
  have h2 : name ∉ GoMap.keys (r.gc.markExpired now).expiredVMs :=
    (GoMap.get_eq_none_iff _ _).1 h1
  obtain ⟨_, i2, _⟩ := stopLoop_spec P (r.gc.markExpired now).expiredVMs (r.gc.markExpired now)
    r.disp (markExpired_wf r.gc now hwf).2
  have h3 := (i2 name h2).1
  simp only [Reaper.sweep, GCManager.stopExpiredVMs]
  rw [h3, e1]
  exact hget

end gc


namespace gc

open container

/-- The scenario of `TestAddVMGC`: `cc1` tracked at 0 and `cc2` at 10, idle threshold 10, a
sweep every second; after 15 seconds only `cc2` is tracked. -/
theorem TestAddVMGC :
    ((Reaper.init "MockVM" 10 1 ()).run Dispatcher.alwaysOk
        ([Event.AddVM "cc1:1.0" CCID.cc1 0, Event.AddVM "cc2:1.0" CCID.cc2 10] ++
          Event.ticks 15 ++ [Event.Close])).map (fun r => r.gc.runningVMs) =
      some [("cc2:1.0", { ccid := CCID.cc2, activeTime := 10 })] := by
  decide

/-- The scenario of `TestUpdateVMGC`: `cc1` and `cc2` tracked at 0, `cc2` touched at 7, idle
threshold 10; after 12 seconds only `cc2` is tracked. -/
theorem TestUpdateVMGC :
    ((Reaper.init "MockVM" 10 1 ()).run Dispatcher.alwaysOk
        ([Event.AddVM "cc1:1.0" CCID.cc1 0, Event.AddVM "cc2:1.0" CCID.cc2 0] ++
          Event.ticks 7 ++ [Event.UpdateVM "cc2:1.0" 7] ++
          [Event.tick 8, Event.tick 9, Event.tick 10, Event.tick 11, Event.tick 12,
            Event.Close])).map (fun r => r.gc.runningVMs) =
      some [("cc2:1.0", { ccid := CCID.cc2, activeTime := 7 })] := by
  decide

end gc

namespace container

/-- The function `Process` agrees with the interleaved system: whatever `Process` returns for a
call run on its own is what the caller side of that call returns under a schedule of the
system that holds this one call, and the controller is left in the same state. -/
theorem Process_alone_run (vmc vmc1 : VMController) (ctxt : Context) (vmtype : String)
    (req : VMCReqIntf) (pd : Bool) (resp : VMCResp) (err : Option error)
    (h : Process vmc ctxt vmtype req pd = ProcessResult.returned resp err vmc1) :
    ∃ sched c,
      System.run { vmc := vmc, calls := [Call.new ctxt vmtype req], crashed := none } sched =
        some { vmc := vmc1, calls := [c], crashed := none } ∧
      c.caller = Caller.returned resp err := by
  unfold Process at h
  cases hn : newVM vmc vmtype with
  | error msg => simp [hn] at h
  | ok ov =>
    cases ov with
    | none =>
      simp only [hn, ProcessResult.returned.injEq] at h
      obtain ⟨rfl, rfl, rfl⟩ := h
      exact ⟨[Act.caller 0 false], _, by
        simp [System.run, System.step, Call.callerStep, Call.new, hn]; rfl, rfl⟩
    | some v =>
      simp only [hn] at h
      cases hg : v.GetVMName req.getCCID with
      | error e =>
        simp only [hg] at h
        by_cases hpd : (pd && ctxt.Err.isSome) = true
        · simp only [hpd, if_true, ProcessResult.returned.injEq] at h
          obtain ⟨rfl, rfl, rfl⟩ := h
          simp only [Bool.and_eq_true] at hpd
          exact ⟨[Act.caller 0 false, Act.worker 0, Act.caller 0 true, Act.caller 0 false], _, by
            simp [System.run, System.step, System.workerStep, Call.callerStep, Call.new, hn, hg,
              hpd.2]; rfl, rfl⟩
        · simp only [hpd, if_false, ProcessResult.returned.injEq] at h
          obtain ⟨rfl, rfl, rfl⟩ := h
          exact ⟨[Act.caller 0 false, Act.worker 0, Act.caller 0 false], _, by
            simp [System.run, System.step, System.workerStep, Call.callerStep, Call.new, hn, hg]
            rfl, rfl⟩
      | ok id =>
        simp only [hg] at h
        cases hl : lockContainer vmc id with
        | none => simp [hl] at h
        | some vmcL =>
          simp only [hl] at h
          cases hu : unlockContainer vmcL id with
          | error msg => simp [hu] at h
          | ok vmc2 =>
            simp only [hu] at h
            unfold lockContainer at hl
            by_cases hpd : (pd && ctxt.Err.isSome) = true
            · simp only [hpd, if_true, ProcessResult.returned.injEq] at h
              obtain ⟨rfl, rfl, rfl⟩ := h
              simp only [Bool.and_eq_true] at hpd
              exact ⟨[Act.caller 0 false, Act.worker 0, Act.worker 0, Act.worker 0, Act.worker 0,
                Act.worker 0, Act.worker 0, Act.caller 0 true, Act.caller 0 false], _, by
                simp [System.run, System.step, System.workerStep, Call.callerStep, Call.new, hn,
                  hg, hl, hu, hpd.2]; rfl, rfl⟩
            · simp only [hpd, if_false, ProcessResult.returned.injEq] at h
              obtain ⟨rfl, rfl, rfl⟩ := h
              exact ⟨[Act.caller 0 false, Act.worker 0, Act.worker 0, Act.worker 0, Act.worker 0,
                Act.worker 0, Act.worker 0, Act.caller 0 false], _, by
                simp [System.run, System.step, System.workerStep, Call.callerStep, Call.new, hn,
                  hg, hl, hu]; rfl, rfl⟩

/-- Two calls on the same container: while the first is inside `req.do` the worker of the
second, which has entered `lockContainer`, cannot take a step; once the first has called
`unlockContainer` it can. -/
theorem second_call_waits :
    ((System.init ⟨none⟩ ⟨none⟩ ⟨some VM.sample⟩
        [(Context.Background, MOCKVM, StopContainerReq.sample.toReq),
          (Context.Background, MOCKVM, StopContainerReq.sample.toReq)]).run
        (Act.sampleSchedule ++ [Act.caller 1 false, Act.worker 1, Act.worker 1])).map
        (fun s => ((s.step (Act.worker 1)).isSome, GoMap.get s.vmc.containerLocks "cc1")) =
      some (false, some { refCount := 2, lock := 0 }) ∧
    ((System.init ⟨none⟩ ⟨none⟩ ⟨some VM.sample⟩
        [(Context.Background, MOCKVM, StopContainerReq.sample.toReq),
          (Context.Background, MOCKVM, StopContainerReq.sample.toReq)]).run
        (Act.sampleSchedule ++ [Act.caller 1 false, Act.worker 1, Act.worker 1, Act.worker 0,
          Act.worker 0])).map
        (fun s => ((s.step (Act.worker 1)).isSome, GoMap.get s.vmc.containerLocks "cc1")) =
      some (true, some { refCount := 1, lock := 0 }) :=
  ⟨by decide, by decide⟩

end container

namespace gc

open container

/-- C11. `UpdateVM` on a tracked name sets the last-active time of that entry to the given
time and keeps its container id; every other tracked entry, the set of tracked names and the
expired set are unchanged. On a name that is not tracked it changes nothing at all: no entry
is created and the manager is the one it was. -/
theorem UpdateVM_touches_only_timestamp (gc : GCManager) (canName : String) (activeTime : Int) :
    (∀ info, GoMap.get gc.runningVMs canName = some info →
      GoMap.get (gc.UpdateVM canName activeTime).runningVMs canName =
        some { ccid := info.ccid, activeTime := activeTime }) ∧
    (∀ other, canName ≠ other →
      GoMap.get (gc.UpdateVM canName activeTime).runningVMs other =
        GoMap.get gc.runningVMs other) ∧
    (∀ name, name ∈ GoMap.keys (gc.UpdateVM canName activeTime).runningVMs ↔
      name ∈ GoMap.keys gc.runningVMs) ∧
    (gc.UpdateVM canName activeTime).expiredVMs = gc.expiredVMs ∧
    (gc.UpdateVM canName activeTime).exitCh = gc.exitCh ∧
    (GoMap.get gc.runningVMs canName = none → gc.UpdateVM canName activeTime = gc) := by
  cases hget : GoMap.get gc.runningVMs canName with
  | none =>
    have h : gc.UpdateVM canName activeTime = gc := by simp [GCManager.UpdateVM, hget]
    rw [h]
    refine ⟨?_, ?_, ?_, rfl, rfl, ?_⟩
    · intro info hi
      cases hi
    · intro other _
      rfl
    · intro name
      rfl
    · intro _
      rfl
  | some info0 =>
    have h : gc.UpdateVM canName activeTime =
        { gc with
          runningVMs :=
            GoMap.set gc.runningVMs canName { ccid := info0.ccid, activeTime := activeTime } } := by
      simp [GCManager.UpdateVM, hget]
    rw [h]
    refine ⟨?_, ?_, ?_, rfl, rfl, ?_⟩
    · intro info hi
      cases hi
      exact GoMap.get_set_self _ _ _
    · intro other hne
      exact GoMap.get_set_ne _ _ _ _ hne
    · intro name
      rw [GoMap.mem_keys_set]
      constructor
      · intro hn
        rcases hn with rfl | hn
        · by_contra hc
          rw [(GoMap.get_eq_none_iff _ _).2 hc] at hget
          cases hget
        · exact hn
      · intro hn
        exact Or.inr hn
    · intro hc
      cases hc

theorem stopLoop_recording {σ : Type} (P : Dispatcher σ) :
    ∀ (l : List (String × vmInfo)) (gc : GCManager) (d : σ)
      (calls : List (Context × String × StopImageReq)),
      (GCManager.stopLoop (Dispatcher.recording P) l gc (d, calls)).2.1.2 =
        calls ++ l.map (fun p =>
          (Context.Background, gc.vmType,
            ({ CCID := p.2.ccid, Timeout := 0, Dontkill := false, Dontremove := true } :
              StopImageReq)))
  | [], gc, d, calls => by simp [GCManager.stopLoop]
  | (k, info) :: rest, gc, d, calls => by
    cases hstop : (gc.stopVM (Dispatcher.recording P) (d, calls) info.ccid).1 with
    | some err =>
      simp only [GCManager.stopLoop, hstop]
      have ih := stopLoop_recording P rest gc
        (gc.stopVM (Dispatcher.recording P) (d, calls) info.ccid).2.1
        (gc.stopVM (Dispatcher.recording P) (d, calls) info.ccid).2.2
      simp only [Prod.mk.eta] at ih
      rw [ih]
      simp [GCManager.stopVM, Dispatcher.recording]
    | none =>
      simp only [GCManager.stopLoop, hstop]
      have ih := stopLoop_recording P rest
        { gc with
          runningVMs := GoMap.delete gc.runningVMs k
          expiredVMs := GoMap.delete gc.expiredVMs k }
        (gc.stopVM (Dispatcher.recording P) (d, calls) info.ccid).2.1
        (gc.stopVM (Dispatcher.recording P) (d, calls) info.ccid).2.2
      simp only [Prod.mk.eta] at ih
      rw [ih]
      simp [GCManager.stopVM, Dispatcher.recording]

/-- C12. Whatever the dispatcher does, the calls the reaper makes on it in `stopExpiredVMs`
are, in order, one call per entry of the expired set, each with the background context, the
VM type the manager was configured with, and a Stop request that carries the container id of
that entry, `Timeout = 0`, `Dontkill = false` and `Dontremove = true`; each such call returns
to `stopVM` what the dispatcher returned; and the VM type of a manager is the one given to
`NewGCManager`, which no sweep changes. -/
theorem stopVM_request_fields {σ : Type} (P : Dispatcher σ) (gc : GCManager) (d : σ)
    (calls : List (Context × String × StopImageReq)) :
    (gc.stopExpiredVMs (Dispatcher.recording P) (d, calls)).2.1.2 =
      calls ++ gc.expiredVMs.map (fun p =>
        (Context.Background, gc.vmType,
          ({ CCID := p.2.ccid, Timeout := 0, Dontkill := false, Dontremove := true } :
            StopImageReq))) ∧
    (∀ ccid, gc.stopVM P d ccid =
      ((P d Context.Background gc.vmType
          { CCID := ccid, Timeout := 0, Dontkill := false, Dontremove := true }).1.2,
        (P d Context.Background gc.vmType
          { CCID := ccid, Timeout := 0, Dontkill := false, Dontremove := true }).2)) ∧
    (∀ (vmType : String) (vmLiveTime gcInterval : Int),
      (NewGCManager vmType vmLiveTime gcInterval).vmType = vmType) ∧
    (∀ now, (gc.markExpired now).vmType = gc.vmType) :=
  ⟨stopLoop_recording P gc.expiredVMs gc d calls, fun _ => rfl, fun _ _ _ => rfl, fun _ => rfl⟩

theorem stopLoop_exitCh {σ : Type} (P : Dispatcher σ) :
    ∀ (l : List (String × vmInfo)) (gc : GCManager) (d : σ),
      (GCManager.stopLoop P l gc d).1.exitCh = gc.exitCh
  | [], gc, d => by simp [GCManager.stopLoop]
  | (k, info) :: rest, gc, d => by
    cases hstop : (gc.stopVM P d info.ccid).1 with
    | some err =>
      simp only [GCManager.stopLoop, hstop]
      exact stopLoop_exitCh P rest gc _
    | none =>
      simp only [GCManager.stopLoop, hstop]
      exact stopLoop_exitCh P rest _ _

theorem Reaper.step_exitCh {σ : Type} (P : Dispatcher σ) (r r1 : Reaper σ) (e : Event)
    (h : r.gc.exitCh ≤ 1) (hs : r.step P e = some r1) : r1.gc.exitCh ≤ 1 := by
  cases e with
  | AddVM canName ccid activeTime =>
    simp only [Reaper.step, Option.some.injEq] at hs
    subst hs
    exact h
  | UpdateVM canName activeTime =>
    simp only [Reaper.step, Option.some.injEq] at hs
    subst hs
    simp only [GCManager.UpdateVM]
    split <;> exact h
  | tick now =>
    simp only [Reaper.step] at hs
    split at hs
    · cases hs
      simp only [Reaper.sweep, GCManager.stopExpiredVMs, stopLoop_exitCh]
      exact h
    · cases hs
  | exit =>
    simp only [Reaper.step] at hs
    split at hs
    · cases hs
      simp only
      omega
    · cases hs
  | Close =>
    simp only [Reaper.step, Option.some.injEq] at hs
    subst hs
    simp only [GCManager.Close]
    split
    · simp only
      omega
    · exact h

theorem Reaper.run_exitCh {σ : Type} (P : Dispatcher σ) (es : List Event) :
    ∀ (r r1 : Reaper σ), r.gc.exitCh ≤ 1 → r.run P es = some r1 → r1.gc.exitCh ≤ 1 := by
  induction es with
  | nil =>
    intro r r1 h hr
    simp only [Reaper.run, Option.some.injEq] at hr
    exact hr ▸ h
  | cons e es ih =>
    intro r r1 h hr
    simp only [Reaper.run] at hr
    cases hs : r.step P e with
    | none => simp [hs] at hr
    | some r2 =>
      simp only [hs] at hr
      exact ih r2 r1 (Reaper.step_exitCh P r r2 e h hs) hr

theorem Close_Close (gc : GCManager) : gc.Close.Close = gc.Close := by
  unfold GCManager.Close
  by_cases h : gc.exitCh < 1
  · have h2 : ¬ gc.exitCh + 1 < 1 := by omega
    simp [h, h2]
  · simp [h]

theorem Close_iterate (gc : GCManager) (n : Nat) :
    Nat.iterate GCManager.Close (n + 1) gc = gc.Close := by
  induction n with
  | zero => rfl
  | succ n ih =>
    rw [Function.iterate_succ_apply', ih, Close_Close]

/-- C13. In every state of the reaper reached from `NewGCManager` by any calls of its methods,
sweeps and loop exits: at most one exit signal is buffered in `exitCh`; `Close` can always
be taken (it does not block) and changes nothing but the manager; calling `Close` two or
more times leaves the manager as one call leaves it; after `Close` exactly one signal is
buffered; and `Close` leaves the tracked and the expired set as they are. -/
theorem Close_idempotent {σ : Type} (P : Dispatcher σ) (vmType : String)
    (vmLiveTime gcInterval : Int) (d : σ) (es : List Event) (r : Reaper σ)
    (h : (Reaper.init vmType vmLiveTime gcInterval d).run P es = some r) (n : Nat) :
    r.gc.exitCh ≤ 1 ∧
    r.step P Event.Close =
      some { gc := r.gc.Close, disp := r.disp, looping := r.looping, log := r.log } ∧
    Nat.iterate GCManager.Close (n + 2) r.gc = r.gc.Close ∧
    r.gc.Close.exitCh = 1 ∧
    r.gc.Close.runningVMs = r.gc.runningVMs ∧
    r.gc.Close.expiredVMs = r.gc.expiredVMs := by
  have hle : r.gc.exitCh ≤ 1 :=
    Reaper.run_exitCh P es _ r (by simp [Reaper.init, NewGCManager]) h
  refine ⟨hle, rfl, Close_iterate r.gc (n + 1), ?_, ?_, ?_⟩
  · unfold GCManager.Close
    by_cases h1 : r.gc.exitCh < 1
    · simp only [h1, if_true]
      omega
    · simp only [h1, if_false]
      omega
  · unfold GCManager.Close
    split <;> rfl
  · unfold GCManager.Close
    split <;> rfl

theorem Close_idempotent_witness :
    ((Reaper.init "MockVM" 10 1 ()).run Dispatcher.alwaysOk
        [Event.AddVM "cc1:1.0" CCID.cc1 0, Event.Close]).map (fun r => r.gc) =
      some { GCManager.sample with
        runningVMs := [("cc1:1.0", { ccid := CCID.cc1, activeTime := 0 })]
        expiredVMs := []
        exitCh := 1 } ∧
    Nat.iterate GCManager.Close (0 + 2)
        { GCManager.sample with
          runningVMs := [("cc1:1.0", { ccid := CCID.cc1, activeTime := 0 })]
          expiredVMs := []
          exitCh := 1 } =
      GCManager.Close
        { GCManager.sample with
          runningVMs := [("cc1:1.0", { ccid := CCID.cc1, activeTime := 0 })]
          expiredVMs := []
          exitCh := 1 } :=
  ⟨by decide,
    (Close_idempotent Dispatcher.alwaysOk "MockVM" 10 1 ()
      [Event.AddVM "cc1:1.0" CCID.cc1 0, Event.Close]
      { gc := { GCManager.sample with
                runningVMs := [("cc1:1.0", { ccid := CCID.cc1, activeTime := 0 })]
                expiredVMs := []
                exitCh := 1 }
        disp := (), looping := true, log := [] } rfl 0).2.2.1⟩

/-- C14 fails on the code. On the dispatcher of `controller.go` with a driver whose Stop
succeeds: a container is tracked at time 0 with idle threshold 10 and sweep interval 1;
`Close` is called and returns, leaving its signal in `exitCh`; the `select` of `startGC` then
takes the tick of time 11, which is ready together with the exit signal: the sweep runs,
scans, stops the container and removes it from the tracked set, and the loop is still
running. -/
theorem sweep_runs_after_Close :
    ((Reaper.init "MockVM" 10 1
          (Proc.live (NewVMController ⟨none⟩ ⟨none⟩ ⟨some VM.sample⟩))).run (VMCProcess false)
        [Event.AddVM "cc1:1.0" CCID.cc1 0, Event.Close]).map
        (fun r => (r.gc, r.log, r.looping)) =
      some ({ GCManager.sample with
          runningVMs := [("cc1:1.0", { ccid := CCID.cc1, activeTime := 0 })]
          expiredVMs := []
          exitCh := 1 }, [], true) ∧
    ((Reaper.init "MockVM" 10 1
          (Proc.live (NewVMController ⟨none⟩ ⟨none⟩ ⟨some VM.sample⟩))).run (VMCProcess false)
        [Event.AddVM "cc1:1.0" CCID.cc1 0, Event.Close, Event.tick 11]).map
        (fun r => (r.gc, r.log, r.looping)) =
      some ({ GCManager.sample with runningVMs := [], expiredVMs := [], exitCh := 1 },
        [("cc1:1.0", none)], true) := by
  refine ⟨by decide, by decide⟩

theorem Reaper.run_stopped {σ : Type} (P : Dispatcher σ) (es : List Event) :
    ∀ (r r1 : Reaper σ), r.looping = false → r.run P es = some r1 →
      r1.looping = false ∧ r1.disp = r.disp ∧ r1.gc.expiredVMs = r.gc.expiredVMs ∧
        r1.log = r.log ∧ (∀ now, Event.tick now ∉ es) ∧ Event.exit ∉ es := by
  induction es with
  | nil =>
    intro r r1 h hr
    simp only [Reaper.run, Option.some.injEq] at hr
    subst hr
    simp [h]
  | cons e es ih =>
    intro r r1 h hr
    simp only [Reaper.run] at hr
    cases hs : r.step P e with
    | none => simp [hs] at hr
    | some r2 =>
      simp only [hs] at hr
      cases e with
      | AddVM canName ccid activeTime =>
        simp only [Reaper.step, Option.some.injEq] at hs
        subst hs
        obtain ⟨i1, i2, i3, i4, i5, i6⟩ :=
          ih { r with gc := r.gc.AddVM canName ccid activeTime } r1 h hr
        exact ⟨i1, i2, i3, i4, by simpa using i5, by simpa using i6⟩
      | UpdateVM canName activeTime =>
        simp only [Reaper.step, Option.some.injEq] at hs
        subst hs
        obtain ⟨i1, i2, i3, i4, i5, i6⟩ :=
          ih { r with gc := r.gc.UpdateVM canName activeTime } r1 h hr
        have he : (r.gc.UpdateVM canName activeTime).expiredVMs = r.gc.expiredVMs := by
          simp only [GCManager.UpdateVM]
          split <;> rfl
        exact ⟨i1, i2, i3.trans he, i4, by simpa using i5, by simpa using i6⟩
      | tick now => simp [Reaper.step, h] at hs
      | exit => simp [Reaper.step, h] at hs
      | Close =>
        simp only [Reaper.step, Option.some.injEq] at hs
        subst hs
        obtain ⟨i1, i2, i3, i4, i5, i6⟩ := ih { r with gc := r.gc.Close } r1 h hr
        have he : r.gc.Close.expiredVMs = r.gc.expiredVMs := by
          simp only [GCManager.Close]
          split <;> rfl
        exact ⟨i1, i2, i3.trans he, i4, by simpa using i5, by simpa using i6⟩

/-- What `Close` does achieve. In every reachable state of the reaper in which the loop is
running,
after `Close` has returned an exit signal is buffered and the `select` of `startGC` can take
it; once the loop has taken the signal it has returned, and in everything that happens
afterwards no tick is taken, the dispatcher is not called, and the expired set is not
written: no expiry scan and no Stop. -/
theorem Close_then_exit_ends_sweeps {σ : Type} (P : Dispatcher σ) (vmType : String)
    (vmLiveTime gcInterval : Int) (d : σ) (es : List Event) (r : Reaper σ)
    (h : (Reaper.init vmType vmLiveTime gcInterval d).run P es = some r)
    (hl : r.looping = true) :
    r.gc.Close.exitCh = 1 ∧
    r.run P [Event.Close, Event.exit] =
      some { gc := { r.gc.Close with exitCh := 0 }, disp := r.disp, looping := false,
             log := r.log } ∧
    (∀ (after : List Event) (r1 : Reaper σ),
      r.run P ([Event.Close, Event.exit] ++ after) = some r1 →
      r1.looping = false ∧ r1.disp = r.disp ∧ r1.gc.expiredVMs = r.gc.expiredVMs ∧
        r1.log = r.log ∧ (∀ now, Event.tick now ∉ after) ∧ Event.exit ∉ after) := by
  have hle : r.gc.exitCh ≤ 1 :=
    Reaper.run_exitCh P es _ r (by simp [Reaper.init, NewGCManager]) h
  have h1 : r.gc.Close.exitCh = 1 := by
    unfold GCManager.Close
    by_cases h1 : r.gc.exitCh < 1
    · simp only [h1, if_true]
      omega
    · simp only [h1, if_false]
      omega
  have h2 : r.run P [Event.Close, Event.exit] =
      some { gc := { r.gc.Close with exitCh := 0 }, disp := r.disp, looping := false,
             log := r.log } := by
    simp [Reaper.run, Reaper.step, hl, h1]
  refine ⟨h1, h2, ?_⟩
  intro after r1 hr
  have h3 : r.run P ([Event.Close, Event.exit] ++ after) =
      Reaper.run P { gc := { r.gc.Close with exitCh := 0 }, disp := r.disp, looping := false,
                     log := r.log } after := by
    simp [Reaper.run, Reaper.step, hl, h1]
  rw [h3] at hr
  obtain ⟨i1, i2, i3, i4, i5, i6⟩ := Reaper.run_stopped P after _ r1 rfl hr
  have he : r.gc.Close.expiredVMs = r.gc.expiredVMs := by
    simp only [GCManager.Close]
    split <;> rfl
  exact ⟨i1, i2, i3.trans he, i4, i5, i6⟩

theorem Close_then_exit_ends_sweeps_witness :
    ((Reaper.init "MockVM" 10 1 ()).run Dispatcher.alwaysOk
        [Event.AddVM "cc1:1.0" CCID.cc1 0]).map (fun r => (r.gc, r.looping)) =
      some ({ GCManager.sample with
          runningVMs := [("cc1:1.0", { ccid := CCID.cc1, activeTime := 0 })]
          expiredVMs := [] }, true) ∧
    (GCManager.Close
        { GCManager.sample with
          runningVMs := [("cc1:1.0", { ccid := CCID.cc1, activeTime := 0 })]
          expiredVMs := [] }).exitCh = 1 :=
  ⟨by decide,
    (Close_then_exit_ends_sweeps Dispatcher.alwaysOk "MockVM" 10 1 ()
      [Event.AddVM "cc1:1.0" CCID.cc1 0]
      { gc := { GCManager.sample with
                runningVMs := [("cc1:1.0", { ccid := CCID.cc1, activeTime := 0 })]
                expiredVMs := [] }
        disp := (), looping := true, log := [] } rfl rfl).1⟩

end gc

namespace chaincode

open container gc

/-- C18. Whenever the registry holds a handler for the canonical name of the context, `Launch`
of the facade returns nil and leaves the world as it is, whatever its launcher is: the
launcher is not invoked and nothing is recorded, so no registration, no lifecycle call and no
Start happens; a second `Launch` does the same. -/
theorem Launch_ready_is_noop (cs : ChaincodeSupport) (w : World) (ctx : Context)
    (cccid : CCContext) (spec : ChaincodeSpecGetter) (h : Handler)
    (hready : GoMap.get w.handlers cccid.GetCanonicalName = some h) :
    cs.Launch w ctx cccid spec = (none, w) ∧
    cs.Launch (cs.Launch w ctx cccid spec).2 ctx cccid spec = (none, w) ∧
    (∀ launcher : World → Context → CCContext → ChaincodeSpecGetter → Option error × World,
      ChaincodeSupport.Launch { cs with Launcher := launcher } w ctx cccid spec = (none, w)) ∧
    (∀ c d e, (cs.Launch (cs.Launch w ctx cccid spec).2 ctx cccid spec).2.trace.count
        (Effect.Start c d e) = w.trace.count (Effect.Start c d e)) := by
  have h1 : ∀ cs2 : ChaincodeSupport, cs2.Launch w ctx cccid spec = (none, w) := by
    intro cs2
    simp [ChaincodeSupport.Launch, hready]
  refine ⟨h1 cs, ?_, fun launcher => h1 _, ?_⟩
  · rw [h1 cs]
    exact h1 cs
  · intro c d e
    rw [h1 cs]
    simp only
    rw [h1 cs]

theorem Launch_ready_is_noop_witness :
    GoMap.get (World.tracked Handler.completing).handlers CCContext.sample.GetCanonicalName =
      some Handler.completing ∧
    ChaincodeSupport.sample.Launch (World.tracked Handler.completing) Context.Background
        CCContext.sample (ChaincodeSpecGetter.deployment ChaincodeDeploymentSpec.sample) =
      (none, World.tracked Handler.completing) :=
  ⟨rfl, (Launch_ready_is_noop ChaincodeSupport.sample (World.tracked Handler.completing)
    Context.Background CCContext.sample
    (ChaincodeSpecGetter.deployment ChaincodeDeploymentSpec.sample) Handler.completing rfl).1⟩

theorem World.Launching_ok (w w2 : World) (cname : String)
    (h : World.Launching w cname = Except.ok w2) :
    w2 = { w with
      launching := w.launching ++ [cname]
      trace := w.trace ++ [Effect.Launching cname] } ∧
    cname ∉ w.launching ∧ GoMap.get w.handlers cname = none := by
  unfold World.Launching at h
  split at h
  · cases h
  · rename_i hn
    cases h
    simp only [not_or] at hn
    refine ⟨rfl, hn.1, ?_⟩
    cases hg : GoMap.get w.handlers cname with
    | none => rfl
    | some x => simp [hg] at hn

theorem Launcher.cleanup_eq (l : Launcher) (w : World) (ctx : Context) (cccid : CCContext)
    (cds : ChaincodeDeploymentSpec) :
    l.cleanup w ctx cccid cds =
      World.Deregister { w with trace := w.trace ++ [Effect.Stop ctx cccid cds] }
        cccid.GetCanonicalName := by
  unfold Launcher.cleanup
  split <;> rfl

theorem filter_ne_append_self (l : List String) (x : String) (h : x ∉ l) :
    (l ++ [x]).filter (fun n => !(n == x)) = l := by
  rw [List.filter_append]
  have h1 : l.filter (fun n => !(n == x)) = l := by
    rw [List.filter_eq_self]
    intro n hn
    have : n ≠ x := fun e => h (e ▸ hn)
    simp [this]
  simp [h1]

/-- C19. In the launcher as the spec describes it: when the deployment spec is found and the
name registers as launching, and Start of the runtime fails with error `e`, then, whatever
Stop returns, `Launch` returns `error starting container: e`; the calls it makes after the
deployment spec was found are exactly the registration, one Start, one Stop with the same
context, chaincode context and deployment spec, and one deregistration of the canonical
name; and the name is afterwards neither launching nor ready. -/
theorem Launch_start_failure_cleanup (l : Launcher) (ready : Option (Int × Handler))
    (w w1 w2 : World) (ctx : Context) (cccid : CCContext) (spec : ChaincodeSpecGetter)
    (cds : ChaincodeDeploymentSpec) (e : error)
    (hds : l.deploymentSpec w ctx cccid spec = (Except.ok cds, w1))
    (hreg : World.Launching w1 cccid.GetCanonicalName = Except.ok w2)
    (hstart : l.Runtime.Start ctx cccid cds = some e) :
    (l.Launch ready w ctx cccid spec).1 = some ("error starting container: " ++ e) ∧
    (l.Launch ready w ctx cccid spec).2.trace =
      w1.trace ++
        [Effect.Launching cccid.GetCanonicalName, Effect.Start ctx cccid cds,
          Effect.Stop ctx cccid cds, Effect.Deregister cccid.GetCanonicalName] ∧
    (l.Launch ready w ctx cccid spec).2.launching = w1.launching ∧
    cccid.GetCanonicalName ∉ (l.Launch ready w ctx cccid spec).2.launching ∧
    GoMap.get (l.Launch ready w ctx cccid spec).2.handlers cccid.GetCanonicalName = none ∧
    (l.Launch ready w ctx cccid spec).2.gcManager = w1.gcManager := by
  obtain ⟨hw2, hnl, hnh⟩ := World.Launching_ok w1 w2 _ hreg
  have hL : l.Launch ready w ctx cccid spec =
      (some ("error starting container: " ++ e),
        l.cleanup { w2 with trace := w2.trace ++ [Effect.Start ctx cccid cds] } ctx cccid cds) := by
    simp only [Launcher.Launch, hds, Launcher.start, hreg, hstart]
  rw [hL, Launcher.cleanup_eq, hw2]
  refine ⟨rfl, ?_, ?_, ?_, ?_, rfl⟩
  · simp [World.Deregister]
  · simp only [World.Deregister]
    exact filter_ne_append_self _ _ hnl
  · simp only [World.Deregister]
    rw [filter_ne_append_self _ _ hnl]
    exact hnl
  · simp only [World.Deregister]
    exact GoMap.get_delete_self _ _

theorem Launch_start_failure_cleanup_witness :
    (Launcher.sample (some "banana") (some "applesauce")).deploymentSpec World.empty
        Context.Background CCContext.sample
        (ChaincodeSpecGetter.deployment ChaincodeDeploymentSpec.sample) =
      (Except.ok ChaincodeDeploymentSpec.sample, World.empty) ∧
    World.Launching World.empty CCContext.sample.GetCanonicalName =
      Except.ok { World.empty with
        launching := ["cc1:1.0"], trace := [Effect.Launching "cc1:1.0"] } ∧
    (Launcher.sample (some "banana") (some "applesauce")).Runtime.Start Context.Background
        CCContext.sample ChaincodeDeploymentSpec.sample = some "banana" ∧
    ((Launcher.sample (some "banana") (some "applesauce")).Launch none World.empty
        Context.Background CCContext.sample
        (ChaincodeSpecGetter.deployment ChaincodeDeploymentSpec.sample)).1 =
      some ("error starting container: " ++ "banana") :=
  ⟨rfl, rfl, rfl,
    (Launch_start_failure_cleanup (Launcher.sample (some "banana") (some "applesauce")) none
      World.empty World.empty
      { World.empty with launching := ["cc1:1.0"], trace := [Effect.Launching "cc1:1.0"] }
      Context.Background CCContext.sample
      (ChaincodeSpecGetter.deployment ChaincodeDeploymentSpec.sample)
      ChaincodeDeploymentSpec.sample "banana" rfl rfl rfl).1⟩

/-- C20. In the launcher as the spec describes it: when the deployment spec is found, the name
registers as launching and Start of the runtime succeeds, then: if the readiness signal does
not come within `StartupTimeout` (it never comes, or comes later), `Launch` returns
`timeout expired while starting chaincode <canonical name> for transaction <txid>` and the
calls after the deployment spec was found are exactly the registration, one Start, one Stop
and one deregistration, after which the name is neither launching nor ready; if the signal
comes within `StartupTimeout`, `Launch` returns nil, the calls are the registration and one
Start with no deregistration, and the name is ready with the handler that registered. -/
theorem Launch_timeout_cleanup (l : Launcher) (ready : Option (Int × Handler))
    (w w1 w2 : World) (ctx : Context) (cccid : CCContext) (spec : ChaincodeSpecGetter)
    (cds : ChaincodeDeploymentSpec)
    (hds : l.deploymentSpec w ctx cccid spec = (Except.ok cds, w1))
    (hreg : World.Launching w1 cccid.GetCanonicalName = Except.ok w2)
    (hstart : l.Runtime.Start ctx cccid cds = none) :
    ((ready = none ∨ ∃ delay h, ready = some (delay, h) ∧ l.StartupTimeout < delay) →
      (l.Launch ready w ctx cccid spec).1 =
        some ("timeout expired while starting chaincode " ++ cccid.GetCanonicalName ++
          " for transaction " ++ cccid.TxID) ∧
      (l.Launch ready w ctx cccid spec).2.trace =
        w1.trace ++
          [Effect.Launching cccid.GetCanonicalName, Effect.Start ctx cccid cds,
            Effect.Stop ctx cccid cds, Effect.Deregister cccid.GetCanonicalName] ∧
      cccid.GetCanonicalName ∉ (l.Launch ready w ctx cccid spec).2.launching ∧
      GoMap.get (l.Launch ready w ctx cccid spec).2.handlers cccid.GetCanonicalName = none) ∧
    (∀ delay h, ready = some (delay, h) → delay ≤ l.StartupTimeout →
      (l.Launch ready w ctx cccid spec).1 = none ∧
      (l.Launch ready w ctx cccid spec).2.trace =
        w1.trace ++ [Effect.Launching cccid.GetCanonicalName, Effect.Start ctx cccid cds] ∧
      (∀ name, Effect.Deregister name ∉
        [Effect.Launching cccid.GetCanonicalName, Effect.Start ctx cccid cds]) ∧
      cccid.GetCanonicalName ∉ (l.Launch ready w ctx cccid spec).2.launching ∧
      GoMap.get (l.Launch ready w ctx cccid spec).2.handlers cccid.GetCanonicalName =
        some h) := by
  obtain ⟨hw2, hnl, hnh⟩ := World.Launching_ok w1 w2 _ hreg
  constructor
  · intro hto
    have hL : l.Launch ready w ctx cccid spec =
        (some ("timeout expired while starting chaincode " ++ cccid.GetCanonicalName ++
            " for transaction " ++ cccid.TxID),
          l.cleanup { w2 with trace := w2.trace ++ [Effect.Start ctx cccid cds] } ctx cccid
            cds) := by
      rcases hto with rfl | ⟨delay, h, rfl, hlt⟩
      · simp only [Launcher.Launch, hds, Launcher.start, hreg, hstart]
      · have hn : ¬ delay ≤ l.StartupTimeout := by omega
        simp only [Launcher.Launch, hds, Launcher.start, hreg, hstart, hn, if_false]
    rw [hL, Launcher.cleanup_eq, hw2]
    refine ⟨rfl, ?_, ?_, ?_⟩
    · simp [World.Deregister]
    · simp only [World.Deregister]
      rw [filter_ne_append_self _ _ hnl]
      exact hnl
    · simp only [World.Deregister]
      exact GoMap.get_delete_self _ _
  · intro delay h hr hle
    subst hr
    have hL : l.Launch (some (delay, h)) w ctx cccid spec =
        (none,
          World.Ready { w2 with trace := w2.trace ++ [Effect.Start ctx cccid cds] }
            cccid.GetCanonicalName h) := by
      simp only [Launcher.Launch, hds, Launcher.start, hreg, hstart, hle, if_true]
    rw [hL, hw2]
    refine ⟨rfl, ?_, ?_, ?_, ?_⟩
    · simp [World.Ready]
    · intro name
      simp
    · simp only [World.Ready]
      rw [filter_ne_append_self _ _ hnl]
      exact hnl
    · simp only [World.Ready]
      exact GoMap.get_set_self _ _ _

theorem Launch_timeout_cleanup_witness :
    (Launcher.sample none none).deploymentSpec World.empty Context.Background CCContext.sample
        (ChaincodeSpecGetter.deployment ChaincodeDeploymentSpec.sample) =
      (Except.ok ChaincodeDeploymentSpec.sample, World.empty) ∧
    World.Launching World.empty CCContext.sample.GetCanonicalName =
      Except.ok { World.empty with
        launching := ["cc1:1.0"], trace := [Effect.Launching "cc1:1.0"] } ∧
    (Launcher.sample none none).Runtime.Start Context.Background CCContext.sample
        ChaincodeDeploymentSpec.sample = none ∧
    ((none : Option (Int × Handler)) = none ∨
      ∃ delay h, (none : Option (Int × Handler)) = some (delay, h) ∧
        (Launcher.sample none none).StartupTimeout < delay) ∧
    ((Launcher.sample none none).Launch none World.empty Context.Background CCContext.sample
        (ChaincodeSpecGetter.deployment ChaincodeDeploymentSpec.sample)).1 =
      some ("timeout expired while starting chaincode " ++ CCContext.sample.GetCanonicalName ++
        " for transaction " ++ CCContext.sample.TxID) :=
  ⟨rfl, rfl, rfl, Or.inl rfl,
    ((Launch_timeout_cleanup (Launcher.sample none none) none World.empty World.empty
      { World.empty with launching := ["cc1:1.0"], trace := [Effect.Launching "cc1:1.0"] }
      Context.Background CCContext.sample
      (ChaincodeSpecGetter.deployment ChaincodeDeploymentSpec.sample)
      ChaincodeDeploymentSpec.sample rfl rfl rfl).1 (Or.inl rfl)).1⟩

theorem execute_no_handler (cs : ChaincodeSupport) (w : World) (ctxt : Context)
    (cccid : CCContext) (msg : ChaincodeMessage) (canName : String) (now : Int)
    (h : GoMap.get w.handlers cccid.GetCanonicalName = none) :
    cs.execute w ctxt cccid msg canName now =
      ((none, some ("unable to invoke chaincode " ++ cccid.GetCanonicalName)), w) := by
  simp [ChaincodeSupport.execute, h]

/-- C16. `execute` on a world whose registry has no handler for the canonical name returns a
nil message and the error `unable to invoke chaincode <name>`, and leaves the world as it
is: neither `handler.Execute` nor `UpdateVM` is called. When the launch of an
`ExecuteChaincode` call returns nil and the registry has no handler for the name
afterwards, `ExecuteChaincode` returns a nil response, a nil event and an error, and the
world is the one the launch left: `AddVM` is not called. -/
theorem execute_without_handler (cs : ChaincodeSupport) (pb : Proto) (w : World)
    (ctxt : Context) (cccid : CCContext) (args : List String) (canName : String) (ccid : CCID)
    (tUpdate tAdd : Int)
    (hlaunch : (cs.Launch w ctxt cccid (invocationSpec cccid args)).1 = none)
    (hnone : GoMap.get (cs.Launch w ctxt cccid (invocationSpec cccid args)).2.handlers
      cccid.GetCanonicalName = none) :
    (∀ msg, cs.execute (cs.Launch w ctxt cccid (invocationSpec cccid args)).2 ctxt cccid msg
        canName tUpdate =
      ((none, some ("unable to invoke chaincode " ++ cccid.GetCanonicalName)),
        (cs.Launch w ctxt cccid (invocationSpec cccid args)).2)) ∧
    (∃ err, cs.ExecuteChaincode pb w ctxt cccid args canName ccid tUpdate tAdd =
      Except.ok ((none, none, some err),
        (cs.Launch w ctxt cccid (invocationSpec cccid args)).2)) ∧
    (∀ payload,
      pb.Marshal { Args := args, Decorations := cccid.ProposalDecorations } =
        Except.ok payload →
      cs.ExecuteChaincode pb w ctxt cccid args canName ccid tUpdate tAdd =
        Except.ok ((none, none,
            some ("error invoking chaincode: " ++
              ("failed to execute transaction " ++ cccid.TxID ++ ": " ++
                ("unable to invoke chaincode " ++ cccid.GetCanonicalName)))),
          (cs.Launch w ctxt cccid (invocationSpec cccid args)).2)) := by
  have hex := fun msg => execute_no_handler cs
    (cs.Launch w ctxt cccid (invocationSpec cccid args)).2 ctxt cccid msg canName tUpdate hnone
  have hspec : (invocationSpec cccid args).GetChaincodeSpec =
      some { Type_ := ChaincodeSpec_GOLANG
             ChaincodeId := some { Name := cccid.Name, Version := "" }
             Input := some { Args := args, Decorations := [] } } := rfl
  refine ⟨hex, ?_, ?_⟩
  · cases hm : pb.Marshal { Args := args, Decorations := cccid.ProposalDecorations } with
    | error e =>
      refine ⟨"error invoking chaincode: " ++ ("failed to create chaincode message: " ++ e), ?_⟩
      simp only [ChaincodeSupport.ExecuteChaincode, ChaincodeSupport.ExecuteSpec, hlaunch,
        hspec, createCCMessage, hm]
      rfl
    | ok payload =>
      refine ⟨"error invoking chaincode: " ++
        ("failed to execute transaction " ++ cccid.TxID ++ ": " ++
          ("unable to invoke chaincode " ++ cccid.GetCanonicalName)), ?_⟩
      simp only [ChaincodeSupport.ExecuteChaincode, ChaincodeSupport.ExecuteSpec, hlaunch,
        hspec, createCCMessage, hm, hex]
      rfl
  · intro payload hm
    simp only [ChaincodeSupport.ExecuteChaincode, ChaincodeSupport.ExecuteSpec, hlaunch,
      hspec, createCCMessage, hm, hex]
    rfl

theorem execute_without_handler_witness :
    (ChaincodeSupport.racing.Launch World.empty Context.Background CCContext.sample
        (invocationSpec CCContext.sample ["query"])).1 = none ∧
    GoMap.get (ChaincodeSupport.racing.Launch World.empty Context.Background CCContext.sample
        (invocationSpec CCContext.sample ["query"])).2.handlers
      CCContext.sample.GetCanonicalName = none ∧
    (∃ err, ChaincodeSupport.racing.ExecuteChaincode Proto.sample World.empty
        Context.Background CCContext.sample ["query"] "cc1:1.0" CCID.cc1 5 6 =
      Except.ok ((none, none, some err),
        (ChaincodeSupport.racing.Launch World.empty Context.Background CCContext.sample
          (invocationSpec CCContext.sample ["query"])).2)) :=
  ⟨rfl, rfl,
    (execute_without_handler ChaincodeSupport.racing Proto.sample World.empty
      Context.Background CCContext.sample ["query"] "cc1:1.0" CCID.cc1 5 6 rfl rfl).2.1⟩

theorem normalise_some (pb : Proto) (cccid : CCContext) (m : Option ChaincodeMessage)
    (h : (normalise pb cccid m).1.isSome = true) : (normalise pb cccid m).2.2 = none := by
  cases m with
  | none => simp [normalise] at h
  | some resp =>
    unfold normalise at h ⊢
    by_cases h1 : resp.Type_ = ChaincodeMessage_COMPLETED
    · simp only [h1, if_true] at h ⊢
      cases hu : pb.Unmarshal resp.Payload with
      | error e => simp [hu] at h
      | ok res => simp [hu]
    · simp only [h1, if_false] at h ⊢
      by_cases h2 : resp.Type_ = ChaincodeMessage_ERROR
      · simp [h2] at h
      · simp [h2] at h

theorem ExecuteSpec_some_response (cs : ChaincodeSupport) (pb : Proto) (w : World)
    (ctxt : Context) (cccid : CCContext) (spec : ChaincodeSpecGetter) (canName : String)
    (now : Int) (r : Option Response × Option ChaincodeEvent × Option error) (w1 : World)
    (h : cs.ExecuteSpec pb w ctxt cccid spec canName now = Except.ok (r, w1))
    (hr : r.1.isSome = true) : r.2.2 = none := by
  unfold ChaincodeSupport.ExecuteSpec at h
  split at h
  · cases h
    simp at hr
  · split at h
    · cases h
      simp at hr
    · split at h
      · cases h
      · split at h
        · cases h
        · split at h
          · cases h
            simp at hr
          · split at h
            · cases h
              simp at hr
            · cases h
              exact normalise_some pb cccid _ hr

theorem ExecuteSpec_total (cs : ChaincodeSupport) (pb : Proto) (w : World)
    (ctxt : Context) (cccid : CCContext) (spec : ChaincodeSpecGetter) (canName : String)
    (now : Int) (cspec : ChaincodeSpec) (cMsg : ChaincodeInput)
    (hs : spec.GetChaincodeSpec = some cspec) (hi : cspec.Input = some cMsg) :
    ∃ r, cs.ExecuteSpec pb w ctxt cccid spec canName now = Except.ok r := by
  unfold ChaincodeSupport.ExecuteSpec
  split
  · exact ⟨_, rfl⟩
  · split
    · exact ⟨_, rfl⟩
    · simp only [hs, hi]
      split
      · exact ⟨_, rfl⟩
      · split <;> exact ⟨_, rfl⟩

/-- C17. For a spec that carries a chaincode spec with an input, `ExecuteSpec` never panics,
whatever the launch, the codec and the handler do, and it returns a response only together
with a nil error. When the handler returns a message and no error, the result of
`ExecuteSpec` is the normal form of that message: a nil message gives an error; a
`COMPLETED` message gives the response unmarshalled from its payload, its event and no
error, or an error when the payload does not unmarshal; an `ERROR` message gives no
response and the error `transaction returned with failure: ` followed by the payload; a
message of any other type gives no response, no event and an error. -/
theorem ExecuteSpec_normalises (cs : ChaincodeSupport) (pb : Proto) (w : World)
    (ctxt : Context) (cccid : CCContext) (spec : ChaincodeSpecGetter) (canName : String)
    (now : Int) (cspec : ChaincodeSpec) (cMsg : ChaincodeInput)
    (hs : spec.GetChaincodeSpec = some cspec) (hi : cspec.Input = some cMsg) :
    (∃ r, cs.ExecuteSpec pb w ctxt cccid spec canName now = Except.ok r) ∧
    (∀ r w1, cs.ExecuteSpec pb w ctxt cccid spec canName now = Except.ok (r, w1) →
      r.1.isSome = true → r.2.2 = none) ∧
    (∀ cctyp ccMsg h,
      ((∃ cds, spec = ChaincodeSpecGetter.deployment cds ∧ cctyp = ChaincodeMessage_INIT) ∨
        (∃ cis, spec = ChaincodeSpecGetter.invocation cis ∧
          cctyp = ChaincodeMessage_TRANSACTION)) →
      (cs.Launch w ctxt cccid spec).1 = none →
      createCCMessage pb cctyp cccid.ChainID cccid.TxID
          { Args := cMsg.Args, Decorations := cccid.ProposalDecorations } = Except.ok ccMsg →
      GoMap.get (cs.Launch w ctxt cccid spec).2.handlers cccid.GetCanonicalName = some h →
      (h.Execute ctxt cccid ccMsg cs.ExecuteTimeout).2 = none →
      cs.ExecuteSpec pb w ctxt cccid spec canName now =
        Except.ok (normalise pb cccid (h.Execute ctxt cccid ccMsg cs.ExecuteTimeout).1,
          (cs.execute (cs.Launch w ctxt cccid spec).2 ctxt cccid ccMsg canName now).2)) ∧
    normalise pb cccid none =
      (none, none, some ("nil response from transaction " ++ cccid.TxID)) ∧
    (∀ resp res, resp.Type_ = ChaincodeMessage_COMPLETED →
      pb.Unmarshal resp.Payload = Except.ok res →
      normalise pb cccid (some resp) =
        (some res,
          resp.ChaincodeEvent.map
            (fun ev => { ev with ChaincodeId := cccid.Name, TxId := cccid.TxID }),
          none)) ∧
    (∀ resp e, resp.Type_ = ChaincodeMessage_COMPLETED →
      pb.Unmarshal resp.Payload = Except.error e →
      normalise pb cccid (some resp) =
        (none, none,
          some ("failed to unmarshal response for transaction " ++ cccid.TxID ++ ": " ++ e))) ∧
    (∀ resp, resp.Type_ = ChaincodeMessage_ERROR →
      normalise pb cccid (some resp) =
        (none,
          resp.ChaincodeEvent.map
            (fun ev => { ev with ChaincodeId := cccid.Name, TxId := cccid.TxID }),
          some ("transaction returned with failure: " ++ resp.Payload))) ∧
    (∀ resp, resp.Type_ ≠ ChaincodeMessage_COMPLETED → resp.Type_ ≠ ChaincodeMessage_ERROR →
      ∃ err, normalise pb cccid (some resp) = (none, none, some err)) := by
  refine ⟨ExecuteSpec_total cs pb w ctxt cccid spec canName now cspec cMsg hs hi,
    fun r w1 h hr => ExecuteSpec_some_response cs pb w ctxt cccid spec canName now r w1 h hr,
    ?_, rfl, ?_, ?_, ?_, ?_⟩
  · intro cctyp ccMsg h hkind hl hm hh he
    have hex : cs.execute (cs.Launch w ctxt cccid spec).2 ctxt cccid ccMsg canName now =
        (((h.Execute ctxt cccid ccMsg cs.ExecuteTimeout).1, none),
          (cs.execute (cs.Launch w ctxt cccid spec).2 ctxt cccid ccMsg canName now).2) := by
      simp only [ChaincodeSupport.execute, hh, he]
    rcases hkind with ⟨cds, rfl, rfl⟩ | ⟨cis, rfl, rfl⟩
    · simp only [ChaincodeSupport.ExecuteSpec, hl, hs, hi, hm]
      rw [hex]
    · simp only [ChaincodeSupport.ExecuteSpec, hl, hs, hi, hm]
      rw [hex]
  · intro resp res ht hu
    simp [normalise, ht, hu]
  · intro resp e ht hu
    simp [normalise, ht, hu]
  · intro resp ht
    have hne : ChaincodeMessage_ERROR ≠ ChaincodeMessage_COMPLETED := by decide
    simp [normalise, ht, hne]
  · intro resp h1 h2
    exact ⟨"unexpected response type " ++ toString resp.Type_ ++ " for transaction " ++
      cccid.TxID, by simp [normalise, h1, h2]⟩

theorem ExecuteSpec_normalises_witness :
    (invocationSpec CCContext.sample ["query"]).GetChaincodeSpec =
      some { Type_ := ChaincodeSpec_GOLANG
             ChaincodeId := some { Name := "cc1", Version := "" }
             Input := some { Args := ["query"], Decorations := [] } } ∧
    (some ({ Args := ["query"], Decorations := [] } : ChaincodeInput)) =
      some { Args := ["query"], Decorations := [] } ∧
    (∃ r, ChaincodeSupport.sample.ExecuteSpec Proto.sample (World.tracked Handler.completing)
      Context.Background CCContext.sample (invocationSpec CCContext.sample ["query"])
      "cc1:1.0" 5 = Except.ok r) :=
  ⟨rfl, rfl,
    (ExecuteSpec_normalises ChaincodeSupport.sample Proto.sample
      (World.tracked Handler.completing) Context.Background CCContext.sample
      (invocationSpec CCContext.sample ["query"]) "cc1:1.0" 5 _ _ rfl rfl).1⟩

/-- C15 fails on the code. The container `cc1:1.0` is tracked by the reaper with last-active
time 0 and its handler is ready; an `ExecuteChaincode` at time 5 in production mode, for this
user chaincode, fails because the handler returns an error; the call returns that error,
and the last-active time of the container in the reaper is now 5. -/
theorem failed_execution_touches_reaper :
    (World.tracked Handler.failing).gcManager.runningVMs =
      [("cc1:1.0", { ccid := CCID.cc1, activeTime := 0 })] ∧
    (ChaincodeSupport.sample.ExecuteChaincode Proto.sample (World.tracked Handler.failing)
        Context.Background CCContext.sample ["invoke"] "cc1:1.0" CCID.cc1 5 6).toOption.map
        (fun r => (r.1, r.2.gcManager.runningVMs, r.2.trace)) =
      some ((none, none,
          some "error invoking chaincode: failed to execute transaction tx-id: error sending: stream closed"),
        [("cc1:1.0", { ccid := CCID.cc1, activeTime := 5 })],
        [Effect.UpdateVM "cc1:1.0" 5,
          Effect.Execute "cc1:1.0"
            { Type_ := ChaincodeMessage_TRANSACTION, Payload := "invoke", Txid := "tx-id"
              ChannelId := "chain-id", ChaincodeEvent := none }]) := by
  refine ⟨by decide, by decide⟩

theorem execute_gcManager (cs : ChaincodeSupport) (w : World) (ctxt : Context)
    (cccid : CCContext) (msg : ChaincodeMessage) (canName : String) (now : Int) :
    ((cs.execute w ctxt cccid msg canName now).2.gcManager = w.gcManager ∨
      ((!(cccid.Syscc || cs.UserRunsCC)) = true ∧
        (cs.execute w ctxt cccid msg canName now).2.gcManager =
          w.gcManager.UpdateVM canName now)) ∧
    ((cs.execute w ctxt cccid msg canName now).1.2 = none →
      (cs.execute w ctxt cccid msg canName now).2.gcManager =
        if !(cccid.Syscc || cs.UserRunsCC) then w.gcManager.UpdateVM canName now
        else w.gcManager) := by
  unfold ChaincodeSupport.execute
  cases hh : GoMap.get w.handlers cccid.GetCanonicalName with
  | none => simp
  | some handler =>
    simp only
    cases he : (handler.Execute ctxt cccid msg cs.ExecuteTimeout).2 with
    | some err =>
      simp only
      by_cases hb : (!(cccid.Syscc || cs.UserRunsCC)) = true
      · simp [hb]
      · simp [hb]
    | none =>
      simp only
      by_cases hb : (!(cccid.Syscc || cs.UserRunsCC)) = true
      · simp [hb]
      · simp [hb]

theorem Launch_gcManager (cs : ChaincodeSupport) (w : World) (ctx : Context)
    (cccid : CCContext) (spec : ChaincodeSpecGetter)
    (hL : ∀ w0 ctx0 c0 s0, (cs.Launcher w0 ctx0 c0 s0).2.gcManager = w0.gcManager) :
    (cs.Launch w ctx cccid spec).2.gcManager = w.gcManager := by
  unfold ChaincodeSupport.Launch
  split
  · rfl
  · rw [hL]

theorem ExecuteSpec_gcManager (cs : ChaincodeSupport) (pb : Proto) (w : World)
    (ctxt : Context) (cccid : CCContext) (spec : ChaincodeSpecGetter) (canName : String)
    (now : Int) (r : Option Response × Option ChaincodeEvent × Option error) (w1 : World)
    (hL : ∀ w0 ctx0 c0 s0, (cs.Launcher w0 ctx0 c0 s0).2.gcManager = w0.gcManager)
    (h : cs.ExecuteSpec pb w ctxt cccid spec canName now = Except.ok (r, w1)) :
    (w1.gcManager = w.gcManager ∨
      ((!(cccid.Syscc || cs.UserRunsCC)) = true ∧
        w1.gcManager = w.gcManager.UpdateVM canName now)) ∧
    (r.2.2 = none →
      w1.gcManager =
        if !(cccid.Syscc || cs.UserRunsCC) then w.gcManager.UpdateVM canName now
        else w.gcManager) := by
  have hl := Launch_gcManager cs w ctxt cccid spec hL
  unfold ChaincodeSupport.ExecuteSpec at h
  split at h
  · cases h
    exact ⟨Or.inl rfl, fun hn => by cases hn⟩
  · split at h
    · cases h
      exact ⟨Or.inl hl, fun hn => by cases hn⟩
    · split at h
      · cases h
      · split at h
        · cases h
        · split at h
          · cases h
            exact ⟨Or.inl hl, fun hn => by cases hn⟩
          · rename_i ccMsg _
            obtain ⟨e1, e2⟩ := execute_gcManager cs (cs.Launch w ctxt cccid spec).2 ctxt cccid
              ccMsg canName now
            rw [hl] at e1 e2
            split at h
            · cases h
              exact ⟨e1, fun hn => by cases hn⟩
            · rename_i hok
              cases h
              exact ⟨e1, fun _ => e2 hok⟩

theorem ExecuteChaincode_frame (cs : ChaincodeSupport) (pb : Proto) (w : World)
    (ctxt : Context) (cccid : CCContext) (args : List String) (canName : String) (ccid : CCID)
    (tUpdate tAdd : Int) (r : Option Response × Option ChaincodeEvent × Option error)
    (w1 : World)
    (hL : ∀ w0 ctx0 c0 s0, (cs.Launcher w0 ctx0 c0 s0).2.gcManager = w0.gcManager)
    (h : cs.ExecuteChaincode pb w ctxt cccid args canName ccid tUpdate tAdd =
      Except.ok (r, w1)) :
    (∃ rS wS,
      cs.ExecuteSpec pb w ctxt cccid (invocationSpec cccid args) canName tUpdate =
        Except.ok (rS, wS) ∧
      (rS.2.2 = none ↔ r.2.2 = none) ∧
      ((rS.2.2 = none ∧ (!(cccid.Syscc || cs.UserRunsCC)) = true) →
        w1 = { wS with
          gcManager := wS.gcManager.AddVM canName ccid tAdd
          trace := wS.trace ++ [Effect.AddVM canName ccid tAdd] }) ∧
      (¬ (rS.2.2 = none ∧ (!(cccid.Syscc || cs.UserRunsCC)) = true) → w1 = wS)) ∧
    ((cccid.Syscc || cs.UserRunsCC) = true → w1.gcManager = w.gcManager) ∧
    (r.2.2 ≠ none →
      w1.gcManager = w.gcManager ∨
        ((cccid.Syscc || cs.UserRunsCC) = false ∧
          w1.gcManager = w.gcManager.UpdateVM canName tUpdate)) ∧
    (r.2.2 = none → (cccid.Syscc || cs.UserRunsCC) = false →
      w1.gcManager = (w.gcManager.UpdateVM canName tUpdate).AddVM canName ccid tAdd) := by
  unfold ChaincodeSupport.ExecuteChaincode at h
  cases hS : cs.ExecuteSpec pb w ctxt cccid (invocationSpec cccid args) canName tUpdate with
  | error p => simp [hS] at h
  | ok res =>
    obtain ⟨⟨a, b, c⟩, wS⟩ := res
    obtain ⟨g1, g2⟩ := ExecuteSpec_gcManager cs pb w ctxt cccid (invocationSpec cccid args)
      canName tUpdate (a, b, c) wS hL hS
    cases c with
    | some err =>
      simp only [hS, Except.ok.injEq, Prod.mk.injEq] at h
      obtain ⟨hr, hw⟩ := h
      subst hr hw
      refine ⟨⟨(a, b, some err), wS, rfl, by simp, by simp, fun _ => rfl⟩, ?_, ?_, ?_⟩
      · intro hsd
        rcases g1 with g1 | ⟨hb, _⟩
        · exact g1
        · simp [hsd] at hb
      · intro _
        rcases g1 with g1 | ⟨hb, g1⟩
        · exact Or.inl g1
        · exact Or.inr ⟨by simpa using hb, g1⟩
      · intro hn
        simp at hn
    | none =>
      simp only [hS] at h
      have g3 := g2 rfl
      by_cases hb : (cccid.Syscc || cs.UserRunsCC) = true
      · simp only [hb, Bool.not_true, Bool.false_eq_true, if_false, Except.ok.injEq,
          Prod.mk.injEq] at h g3
        obtain ⟨hr, hw⟩ := h
        subst hr hw
        refine ⟨⟨(a, b, none), wS, rfl, by simp, by simp [hb], fun _ => rfl⟩, ?_, ?_, ?_⟩
        · intro _
          exact g3
        · intro hn
          simp at hn
        · intro _ hf
          rw [hb] at hf
          cases hf
      · have hb2 : (cccid.Syscc || cs.UserRunsCC) = false := by simpa using hb
        simp only [hb2, Bool.not_false, if_true, Except.ok.injEq, Prod.mk.injEq] at h g3
        obtain ⟨hr, hw⟩ := h
        subst hr hw
        refine ⟨⟨(a, b, none), wS, rfl, by simp, fun _ => rfl, ?_⟩, ?_, ?_, ?_⟩
        · intro hn
          simp [hb2] at hn
        · intro hf
          rw [hb2] at hf
          cases hf
        · intro hn
          simp at hn
        · intro _ _
          simp only [g3]

/-- The scenarios of `launcher_test.go` on the launcher as the spec describes it: a failing
Start (also with a failing Stop), a startup timeout, a launch that becomes ready, a system
chaincode that is not running, a failing fetch of the deployment spec, and a failing package
provider. -/
theorem launcher_test_scenarios :
    ((Launcher.sample (some "whirled-peas") (some "applesauce")).Launch none World.empty
        Context.Background CCContext.test
        (ChaincodeSpecGetter.deployment ChaincodeDeploymentSpec.test)).1 =
      some "error starting container: whirled-peas" ∧
    ((Launcher.sample (some "whirled-peas") (some "applesauce")).Launch none World.empty
        Context.Background CCContext.test
        (ChaincodeSpecGetter.deployment ChaincodeDeploymentSpec.test)).2.trace =
      [Effect.Launching "context-name:context-version",
        Effect.Start Context.Background CCContext.test ChaincodeDeploymentSpec.test,
        Effect.Stop Context.Background CCContext.test ChaincodeDeploymentSpec.test,
        Effect.Deregister "context-name:context-version"] ∧
    ((Launcher.sample none none).Launch none World.empty Context.Background CCContext.test
        (ChaincodeSpecGetter.deployment ChaincodeDeploymentSpec.test)).1 =
      some "timeout expired while starting chaincode context-name:context-version for transaction tx-id" ∧
    ((Launcher.sample none none).Launch (some (1, Handler.completing)) World.empty
        Context.Background CCContext.test
        (ChaincodeSpecGetter.deployment ChaincodeDeploymentSpec.test)).1 = none ∧
    ((Launcher.sample none none).Launch (some (1, Handler.completing)) World.empty
        Context.Background CCContext.test
        (ChaincodeSpecGetter.deployment ChaincodeDeploymentSpec.test)).2.trace =
      [Effect.Launching "context-name:context-version",
        Effect.Start Context.Background CCContext.test ChaincodeDeploymentSpec.test] ∧
    ((Launcher.sample none none).Launch none World.empty Context.Background
        { CCContext.test with Name := "lscc", Version := "latest", Syscc := true }
        (ChaincodeSpecGetter.invocation
          { ChaincodeSpec := ChaincodeDeploymentSpec.test.ChaincodeSpec })).1 =
      some "a syscc should be running (it cannot be launched) lscc:latest" ∧
    (Launcher.Launch
        { Launcher.sample none none with
          GetChaincodeDeploymentSpec := fun _ _ _ => Except.error "king-kong" }
        none World.empty Context.Background CCContext.test
        (ChaincodeSpecGetter.invocation
          { ChaincodeSpec := ChaincodeDeploymentSpec.test.ChaincodeSpec })).1 =
      some "failed to get deployment spec for context-name:context-version: king-kong" ∧
    (Launcher.Launch
        { Launcher.sample none none with GetChaincode := fun _ _ => Except.error "tangerine" }
        none World.empty Context.Background CCContext.test
        (ChaincodeSpecGetter.deployment
          { ChaincodeDeploymentSpec.test with CodePackage := none })).1 =
      some "failed to get chaincode package: tangerine" := by
  refine ⟨by decide, by decide, by decide, by decide, by decide, by decide, by decide,
    by decide⟩

end chaincode

namespace container

theorem Call.unresolved_ok {ps : List (String × VMProvider)} {c : Call} (hc : c.Ok ps)
    (p : VMProvider) (v : VM) (err : error)
    (hp : GoMap.get ps c.vmtype = some p) (hn : p.NewVM = some v)
    (hg : v.GetVMName c.req.getCCID = Except.error err) :
    (c.worker = Worker.notStarted ∧ c.caller = Caller.entry) ∨
    (c.v = some v ∧
      (c.worker = Worker.resolve ∨
        c.worker = Worker.closed { Err := some err, Resp := none } false) ∧
      (c.caller = Caller.selecting ∨ c.caller = Caller.draining ∨
        (c.worker = Worker.closed { Err := some err, Resp := none } false ∧
          (c.caller = Caller.returned { Err := some err, Resp := none } none ∨
            (c.ctxt.Err.isSome = true ∧
              c.caller = Caller.returned VMCResp.empty c.ctxt.Err))))) := by
  rcases hc with ⟨h0, _, h1 | ⟨_, h1⟩ | ⟨_, q, hq, hqn⟩⟩ | ⟨q, w, hq, hqn, hv, hwo, hco⟩
  · exact Or.inl ⟨h0, h1⟩
  · rw [hp] at h1
    cases h1
  · rw [hp] at hq
    cases hq
    rw [hn] at hqn
    cases hqn
  · rw [hp] at hq
    cases hq
    rw [hn] at hqn
    cases hqn
    right
    have hw : c.worker = Worker.resolve ∨
        c.worker = Worker.closed { Err := some err, Resp := none } false := by
      unfold Call.workerOk at hwo
      cases hwk : c.worker with
      | notStarted => simp [hwk] at hwo
      | resolve => exact Or.inl rfl
      | locking id => simp [hwk, hg] at hwo
      | waiting id a => simp [hwk, hg] at hwo
      | holding id => simp [hwk, hg] at hwo
      | running id => simp [hwk, hg] at hwo
      | unlocking id resp => simp [hwk, hg] at hwo
      | closed resp ranDo =>
        simp only [hwk, hg] at hwo
        obtain ⟨h1, h2⟩ := hwo
        subst h1 h2
        exact Or.inr rfl
    refine ⟨hv, hw, ?_⟩
    unfold Call.callerOk at hco
    cases hcl : c.caller with
    | entry => simp [hcl] at hco
    | selecting => exact Or.inl rfl
    | draining => exact Or.inr (Or.inl rfl)
    | panicked msg => simp [hcl] at hco
    | returned resp e =>
      simp only [hcl] at hco
      obtain ⟨r, b, hwc, hres⟩ := hco
      rcases hw with hw | hw
      · rw [hw] at hwc
        cases hwc
      · rw [hw] at hwc
        cases hwc
        refine Or.inr (Or.inr ⟨hw, ?_⟩)
        rcases hres with ⟨h1, h2⟩ | ⟨h1, h2, h3⟩
        · subst h1 h2
          exact Or.inl rfl
        · subst h1 h3
          exact Or.inr ⟨h2, rfl⟩

theorem System.unresolved_workerStep (s s1 : System) (i : Nat) (c : Call) (v : VM)
    (err : error) (hv : c.v = some v)
    (hw : c.worker = Worker.resolve ∨
      c.worker = Worker.closed { Err := some err, Resp := none } false)
    (hg : v.GetVMName c.req.getCCID = Except.error err)
    (hs : s.workerStep i c = some s1) :
    s1.vmc = s.vmc ∧ s1.crashed = s.crashed ∧
      s1.calls = s.calls.set i
        { c with worker := Worker.closed { Err := some err, Resp := none } false } := by
  rcases hw with hw | hw
  · simp only [System.workerStep, hw, hv, hg, Option.some.injEq] at hs
    subst hs
    refine ⟨rfl, rfl, ?_⟩
    simp only [hv]
  · simp [System.workerStep, hw, hv] at hs


/-- C25. In every state reached by any interleaving of `Process` calls, for a call whose
driver fails to resolve the name of its request with error `err`: its worker has not started,
is about to resolve the name, or has closed `c` with the response `{Err: err}` and without
running `req.do`; it holds no lock and waits for none; a step of its worker leaves the lock
table, the mutexes and the crash flag as they are; when the call has returned, the worker had
closed and the result is `({Err: err}, nil)` or, on a cancelled context, `({}, ctxt.Err())`;
with a context that is not cancelled it is `({Err: err}, nil)`. And `Process` run on its own on
any controller with that provider returns that result and the controller unchanged. -/
theorem Process_resolution_failure (docker inproc mock : VMProvider)
    (reqs : List (Context × String × VMCReqIntf)) (sched : List Act) (s : System)
    (hs : (System.init docker inproc mock reqs).run sched = some s)
    (i : Nat) (c : Call) (p : VMProvider) (v : VM) (err : error)
    (hc : s.calls[i]? = some c)
    (hp : GoMap.get [(DOCKER, docker), (SYSTEM, inproc), (MOCKVM, mock)] c.vmtype = some p)
    (hn : p.NewVM = some v)
    (hg : v.GetVMName c.req.getCCID = Except.error err) :
    (c.worker = Worker.notStarted ∨ c.worker = Worker.resolve ∨
      c.worker = Worker.closed { Err := some err, Resp := none } false) ∧
    c.worker.client = Client.idle ∧
    (∀ s1, s.step (Act.worker i) = some s1 →
      s1.vmc = s.vmc ∧ s1.crashed = s.crashed ∧
        s1.calls = s.calls.set i
          { c with worker := Worker.closed { Err := some err, Resp := none } false }) ∧
    (∀ resp e, c.caller = Caller.returned resp e →
      c.worker = Worker.closed { Err := some err, Resp := none } false ∧
        ((resp = { Err := some err, Resp := none } ∧ e = none) ∨
          (c.ctxt.Err.isSome = true ∧ resp = VMCResp.empty ∧ e = c.ctxt.Err))) ∧
    (∀ resp e, c.caller = Caller.returned resp e → c.ctxt.Err = none →
      resp = { Err := some err, Resp := none } ∧ e = none) ∧
    (∀ (vmc : VMController) (ctxt : Context) (pd : Bool),
      GoMap.get vmc.vmProviders c.vmtype = some p →
      Process vmc ctxt c.vmtype c.req pd =
        if pd && ctxt.Err.isSome then ProcessResult.returned VMCResp.empty ctxt.Err vmc
        else ProcessResult.returned { Err := some err, Resp := none } none vmc) := by
  have hI := System.inv_of_run docker inproc mock reqs sched s hs
  have hcase := Call.unresolved_ok (hI.calls i c hc) p v err hp hn hg
  have hcrash : s.crashed = none := hI.locks.alive
  refine ⟨?_, ?_, ?_, ?_, ?_, ?_⟩
  · rcases hcase with ⟨h1, _⟩ | ⟨_, h1 | h1, _⟩
    · exact Or.inl h1
    · exact Or.inr (Or.inl h1)
    · exact Or.inr (Or.inr h1)
  · rcases hcase with ⟨h1, _⟩ | ⟨_, h1 | h1, _⟩ <;> rw [h1] <;> rfl
  · intro s1 hstep
    simp only [System.step, hcrash, Option.isSome_none, Bool.false_eq_true, if_false, hc]
      at hstep
    rcases hcase with ⟨h1, _⟩ | ⟨hv, hw, _⟩
    · simp [System.workerStep, h1] at hstep
    · exact System.unresolved_workerStep s s1 i c v err hv hw hg hstep
  · intro resp e hr
    rcases hcase with ⟨_, h1⟩ | ⟨_, _, h1 | h1 | ⟨hw, h1 | ⟨h2, h1⟩⟩⟩
    · rw [hr] at h1
      cases h1
    · rw [hr] at h1
      cases h1
    · rw [hr] at h1
      cases h1
    · rw [hr] at h1
      cases h1
      exact ⟨hw, Or.inl ⟨rfl, rfl⟩⟩
    · rw [hr] at h1
      cases h1
      exact ⟨hw, Or.inr ⟨h2, rfl, rfl⟩⟩
  · intro resp e hr hctx
    rcases hcase with ⟨_, h1⟩ | ⟨_, _, h1 | h1 | ⟨hw, h1 | ⟨h2, h1⟩⟩⟩
    · rw [hr] at h1
      cases h1
    · rw [hr] at h1
      cases h1
    · rw [hr] at h1
      cases h1
    · rw [hr] at h1
      cases h1
      exact ⟨rfl, rfl⟩
    · rw [hctx] at h2
      cases h2
  · intro vmc ctxt pd hpv
    simp only [Process, newVM, hpv, hn, hg]

theorem Process_resolution_failure_witness :
    (System.init ⟨none⟩ ⟨none⟩ ⟨some VM.unresolvable⟩
      [(Context.Background, MOCKVM, StopContainerReq.sample.toReq)]).run
        [Act.caller 0 false, Act.worker 0, Act.caller 0 false] =
      some System.sampleUnresolved ∧
    (({ Err := some "bad name", Resp := none } : VMCResp) =
        { Err := some "bad name", Resp := none } ∧
      (none : Option error) = none) :=
  ⟨rfl, (Process_resolution_failure ⟨none⟩ ⟨none⟩ ⟨some VM.unresolvable⟩
    [(Context.Background, MOCKVM, StopContainerReq.sample.toReq)]
    [Act.caller 0 false, Act.worker 0, Act.caller 0 false]
    System.sampleUnresolved rfl 0 _ ⟨some VM.unresolvable⟩ VM.unresolvable "bad name"
    rfl rfl rfl rfl).2.2.2.2.1 _ _ rfl rfl⟩

end container

namespace gc

open container

theorem markExpired_expiredTracked (gc : GCManager) (now : Int) (h : gc.ExpiredTracked) :
    (gc.markExpired now).ExpiredTracked := by
  have key : ∀ (l ex : List (String × vmInfo)) (name : String),
      name ∈ GoMap.keys
        (l.foldl
          (fun ex p =>
            if p.2.activeTime < now + int64 (-gc.vmLiveTime) then
              GoMap.set ex p.1 (newVmInfo p.2.ccid p.2.activeTime)
            else ex)
          ex) →
      name ∈ GoMap.keys ex ∨ name ∈ GoMap.keys l := by
    intro l
    induction l with
    | nil =>
      intro ex name hn
      exact Or.inl hn
    | cons p l ih =>
      intro ex name hn
      rw [List.foldl_cons] at hn
      rcases ih _ name hn with h1 | h1
      · split at h1
        · rcases (GoMap.mem_keys_set _ _ _ _).1 h1 with e | e
          · right
            simp [GoMap.keys, e]
          · exact Or.inl e
        · exact Or.inl h1
      · right
        simp only [GoMap.keys, List.map_cons, List.mem_cons] at h1 ⊢
        exact Or.inr h1
  intro name hn
  rcases key gc.runningVMs gc.expiredVMs name hn with h1 | h1
  · exact h name h1
  · exact h1

theorem stopLoop_expiredTracked {σ : Type} (P : Dispatcher σ) :
    ∀ (l : List (String × vmInfo)) (gc : GCManager) (d : σ), gc.ExpiredTracked →
      (GCManager.stopLoop P l gc d).1.ExpiredTracked
  | [], gc, d, h => by simpa [GCManager.stopLoop] using h
  | (k, info) :: rest, gc, d, h => by
    cases hstop : (gc.stopVM P d info.ccid).1 with
    | some err =>
      simp only [GCManager.stopLoop, hstop]
      exact stopLoop_expiredTracked P rest gc _ h
    | none =>
      simp only [GCManager.stopLoop, hstop]
      apply stopLoop_expiredTracked P rest _ _
      intro name hn
      obtain ⟨h1, h2⟩ := (GoMap.mem_keys_delete _ _ _).1 hn
      exact (GoMap.mem_keys_delete _ _ _).2 ⟨h1, h name h2⟩

theorem Reaper.step_expiredTracked {σ : Type} (P : Dispatcher σ) (r r1 : Reaper σ) (e : Event)
    (h : r.gc.ExpiredTracked) (hs : r.step P e = some r1) : r1.gc.ExpiredTracked := by
  cases e with
  | AddVM canName ccid activeTime =>
    simp only [Reaper.step, Option.some.injEq] at hs
    subst hs
    intro name hn
    exact (GoMap.mem_keys_set _ _ _ _).2 (Or.inr (h name hn))
  | UpdateVM canName activeTime =>
    simp only [Reaper.step, Option.some.injEq] at hs
    subst hs
    simp only [GCManager.UpdateVM]
    split
    · intro name hn
      exact (GoMap.mem_keys_set _ _ _ _).2 (Or.inr (h name hn))
    · exact h
  | tick now =>
    simp only [Reaper.step] at hs
    split at hs
    · cases hs
      exact stopLoop_expiredTracked P _ _ _ (markExpired_expiredTracked r.gc now h)
    · cases hs
  | exit =>
    simp only [Reaper.step] at hs
    split at hs
    · cases hs
      exact h
    · cases hs
  | Close =>
    simp only [Reaper.step, Option.some.injEq] at hs
    subst hs
    simp only [GCManager.Close]
    split
    · exact h
    · exact h

theorem Reaper.run_expiredTracked {σ : Type} (P : Dispatcher σ) (es : List Event) :
    ∀ (r r1 : Reaper σ), r.gc.ExpiredTracked → r.run P es = some r1 → r1.gc.ExpiredTracked := by
  induction es with
  | nil =>
    intro r r1 h hr
    simp only [Reaper.run, Option.some.injEq] at hr
    exact hr ▸ h
  | cons e es ih =>
    intro r r1 h hr
    simp only [Reaper.run] at hr
    cases hs : r.step P e with
    | none => simp [hs] at hr
    | some r2 =>
      simp only [hs] at hr
      exact ih r2 r1 (Reaper.step_expiredTracked P r r2 e h hs) hr

/-- C26. In every state of the reaper reached from `NewGCManager` by any calls of `AddVM`,
`UpdateVM` and `Close`, any sweeps and the loop exit, whatever the dispatcher answers to the
Stops: every name of the expired set is a name of the tracked set, so an expired entry always
has a tracked entry; and a step that takes a name out of the tracked set leaves it in the
expired set neither. -/
theorem expired_subset_of_tracked {σ : Type} (P : Dispatcher σ) (vmType : String)
    (vmLiveTime gcInterval : Int) (d : σ) (es : List Event) (r : Reaper σ)
    (h : (Reaper.init vmType vmLiveTime gcInterval d).run P es = some r) :
    (∀ name, name ∈ GoMap.keys r.gc.expiredVMs → name ∈ GoMap.keys r.gc.runningVMs) ∧
    (∀ name info, GoMap.get r.gc.expiredVMs name = some info →
      ∃ tracked, GoMap.get r.gc.runningVMs name = some tracked) ∧
    (∀ (e : Event) (r1 : Reaper σ) (name : String), r.step P e = some r1 →
      name ∈ GoMap.keys r.gc.runningVMs → name ∉ GoMap.keys r1.gc.runningVMs →
      name ∉ GoMap.keys r1.gc.expiredVMs) := by
  have h0 : (Reaper.init vmType vmLiveTime gcInterval d).gc.ExpiredTracked := by
    intro name hn
    simp [Reaper.init, NewGCManager, GoMap.keys] at hn
  have hI := Reaper.run_expiredTracked P es _ r h0 h
  refine ⟨hI, ?_, ?_⟩
  · intro name info hg
    have hk : name ∈ GoMap.keys r.gc.expiredVMs := by
      by_contra hc
      rw [(GoMap.get_eq_none_iff _ _).2 hc] at hg
      cases hg
    have hr := hI name hk
    cases hget : GoMap.get r.gc.runningVMs name with
    | none => exact absurd hr ((GoMap.get_eq_none_iff _ _).1 hget)
    | some tracked => exact ⟨tracked, rfl⟩
  · intro e r1 name hs _ hnot hex
    exact hnot (Reaper.step_expiredTracked P r r1 e hI hs name hex)

theorem expired_subset_of_tracked_witness :
    ((Reaper.init "MockVM" 10 1 (0 : Nat)).run Dispatcher.failFirst
        [Event.AddVM "cc1:1.0" CCID.cc1 0, Event.tick 11]).map
        (fun r => (r.gc.runningVMs, r.gc.expiredVMs)) =
      some ([("cc1:1.0", { ccid := CCID.cc1, activeTime := 0 })],
        [("cc1:1.0", { ccid := CCID.cc1, activeTime := 0 })]) ∧
    (∀ name, name ∈ GoMap.keys [("cc1:1.0", ({ ccid := CCID.cc1, activeTime := 0 } : vmInfo))] →
      name ∈ GoMap.keys [("cc1:1.0", ({ ccid := CCID.cc1, activeTime := 0 } : vmInfo))]) :=
  ⟨by decide,
    (expired_subset_of_tracked Dispatcher.failFirst "MockVM" 10 1 (0 : Nat)
      [Event.AddVM "cc1:1.0" CCID.cc1 0, Event.tick 11]
      { gc := { runningVMs := [("cc1:1.0", { ccid := CCID.cc1, activeTime := 0 })]
                expiredVMs := [("cc1:1.0", { ccid := CCID.cc1, activeTime := 0 })]
                vmLiveTime := 10, gcInterval := 1, vmType := "MockVM", exitCh := 0 }
        disp := 1, looping := true, log := [("cc1:1.0", some "stop failed")] } rfl).1⟩

end gc

namespace chaincode

open container gc

theorem ExecuteSpec_panics (cs : ChaincodeSupport) (pb : Proto) (w : World)
    (ctxt : Context) (cccid : CCContext) (spec : ChaincodeSpecGetter) (canName : String)
    (now : Int)
    (hkind : ∀ s0, spec ≠ ChaincodeSpecGetter.other s0)
    (hl : (cs.Launch w ctxt cccid spec).1 = none)
    (hnil : spec.GetChaincodeSpec = none ∨
      ∃ cspec, spec.GetChaincodeSpec = some cspec ∧ cspec.Input = none) :
    cs.ExecuteSpec pb w ctxt cccid spec canName now =
      Except.error "invalid memory address or nil pointer dereference" := by
  cases spec with
  | other s0 => exact absurd rfl (hkind s0)
  | deployment cds =>
    rcases hnil with h | ⟨cspec, h, hi⟩
    · simp only [ChaincodeSupport.ExecuteSpec, hl, h]
    · simp only [ChaincodeSupport.ExecuteSpec, hl, h, hi]
  | invocation cis =>
    rcases hnil with h | ⟨cspec, h, hi⟩
    · simp only [ChaincodeSupport.ExecuteSpec, hl, h]
    · simp only [ChaincodeSupport.ExecuteSpec, hl, h, hi]

/-- C21 fails on the code. The chaincode `cc1:1.0` is ready, so `Launch` returns nil; an
`ExecuteSpec` with an invocation spec that has no chaincode spec panics on
`spec.GetChaincodeSpec().Input`, and one with a deployment spec whose chaincode spec has no
input panics on `cMsg.Decorations = ...`: no response and no error is returned. -/
theorem ExecuteSpec_nil_input_panics :
    (ChaincodeSupport.sample.Launch (World.tracked Handler.completing) Context.Background
        CCContext.sample (ChaincodeSpecGetter.invocation { ChaincodeSpec := none })).1 = none ∧
    ChaincodeSupport.sample.ExecuteSpec Proto.sample (World.tracked Handler.completing)
        Context.Background CCContext.sample
        (ChaincodeSpecGetter.invocation { ChaincodeSpec := none }) "cc1:1.0" 5 =
      Except.error "invalid memory address or nil pointer dereference" ∧
    ChaincodeSupport.sample.ExecuteSpec Proto.sample (World.tracked Handler.completing)
        Context.Background CCContext.sample
        (ChaincodeSpecGetter.deployment ChaincodeDeploymentSpec.noInput) "cc1:1.0" 5 =
      Except.error "invalid memory address or nil pointer dereference" :=
  ⟨rfl, rfl, rfl⟩

theorem execute_trace (cs : ChaincodeSupport) (w : World) (ctxt : Context)
    (cccid : CCContext) (msg : ChaincodeMessage) (canName : String) (now : Int) (h : Handler)
    (hh : GoMap.get w.handlers cccid.GetCanonicalName = some h) :
    (cs.execute w ctxt cccid msg canName now).2.trace =
      (if !(cccid.Syscc || cs.UserRunsCC) then w.trace ++ [Effect.UpdateVM canName now]
        else w.trace) ++ [Effect.Execute cccid.GetCanonicalName msg] := by
  simp only [ChaincodeSupport.execute, hh]
  split <;> rfl

theorem ExecuteSpec_sends (cs : ChaincodeSupport) (pb : Proto) (w : World)
    (ctxt : Context) (cccid : CCContext) (spec : ChaincodeSpecGetter) (canName : String)
    (now : Int) (cctyp : Nat) (cspec : ChaincodeSpec) (cMsg : ChaincodeInput)
    (payload : String) (h : Handler)
    (hkind : (∃ cds, spec = ChaincodeSpecGetter.deployment cds ∧
        cctyp = ChaincodeMessage_INIT) ∨
      (∃ cis, spec = ChaincodeSpecGetter.invocation cis ∧
        cctyp = ChaincodeMessage_TRANSACTION))
    (hs : spec.GetChaincodeSpec = some cspec) (hi : cspec.Input = some cMsg)
    (hl : (cs.Launch w ctxt cccid spec).1 = none)
    (hm : pb.Marshal { Args := cMsg.Args, Decorations := cccid.ProposalDecorations } =
      Except.ok payload)
    (hh : GoMap.get (cs.Launch w ctxt cccid spec).2.handlers cccid.GetCanonicalName = some h) :
    ∃ r w1, cs.ExecuteSpec pb w ctxt cccid spec canName now = Except.ok (r, w1) ∧
      w1.trace =
        (if !(cccid.Syscc || cs.UserRunsCC) then
            (cs.Launch w ctxt cccid spec).2.trace ++ [Effect.UpdateVM canName now]
          else (cs.Launch w ctxt cccid spec).2.trace) ++
          [Effect.Execute cccid.GetCanonicalName
            { Type_ := cctyp, Payload := payload, Txid := cccid.TxID
              ChannelId := cccid.ChainID, ChaincodeEvent := none }] := by
  have hc : createCCMessage pb cctyp cccid.ChainID cccid.TxID
      { Args := cMsg.Args, Decorations := cccid.ProposalDecorations } =
      Except.ok { Type_ := cctyp, Payload := payload, Txid := cccid.TxID
                  ChannelId := cccid.ChainID, ChaincodeEvent := none } := by
    simp only [createCCMessage, hm]
  have ht := execute_trace cs (cs.Launch w ctxt cccid spec).2 ctxt cccid
    { Type_ := cctyp, Payload := payload, Txid := cccid.TxID
      ChannelId := cccid.ChainID, ChaincodeEvent := none } canName now h hh
  rcases hkind with ⟨cds, rfl, rfl⟩ | ⟨cis, rfl, rfl⟩
  · simp only [ChaincodeSupport.ExecuteSpec, hl, hs, hi, hc]
    split
    · exact ⟨_, _, rfl, ht⟩
    · exact ⟨_, _, rfl, ht⟩
  · simp only [ChaincodeSupport.ExecuteSpec, hl, hs, hi, hc]
    split
    · exact ⟨_, _, rfl, ht⟩
    · exact ⟨_, _, rfl, ht⟩

/-- C24. For a spec that is neither a deployment nor an invocation spec, `ExecuteSpec` returns
`(nil, nil, "a deployment or invocation spec is required")` and the world as it was, whatever
the launcher and the registry are: nothing was launched, no handler was called and the reaper
was not written. For a deployment spec that gets as far as a handler (the launch succeeds, the
input marshals, a handler is registered) the calls after the launch are the reaper update, if
any, and one `Execute` with a message of type `INIT` that carries the marshalled input, the
transaction id and the channel id; for an invocation spec the same with type `TRANSACTION`;
and the two types differ. -/
theorem ExecuteSpec_classifies (cs : ChaincodeSupport) (pb : Proto) (w : World)
    (ctxt : Context) (cccid : CCContext) (canName : String) (now : Int) :
    (∀ s0, cs.ExecuteSpec pb w ctxt cccid (ChaincodeSpecGetter.other s0) canName now =
      Except.ok ((none, none, some "a deployment or invocation spec is required"), w)) ∧
    (∀ (cds : ChaincodeDeploymentSpec) (cspec : ChaincodeSpec) (cMsg : ChaincodeInput)
      (payload : String) (h : Handler),
      cds.ChaincodeSpec = some cspec → cspec.Input = some cMsg →
      (cs.Launch w ctxt cccid (ChaincodeSpecGetter.deployment cds)).1 = none →
      pb.Marshal { Args := cMsg.Args, Decorations := cccid.ProposalDecorations } =
        Except.ok payload →
      GoMap.get (cs.Launch w ctxt cccid (ChaincodeSpecGetter.deployment cds)).2.handlers
        cccid.GetCanonicalName = some h →
      ∃ r w1, cs.ExecuteSpec pb w ctxt cccid (ChaincodeSpecGetter.deployment cds) canName now =
          Except.ok (r, w1) ∧
        w1.trace =
          (if !(cccid.Syscc || cs.UserRunsCC) then
              (cs.Launch w ctxt cccid (ChaincodeSpecGetter.deployment cds)).2.trace ++
                [Effect.UpdateVM canName now]
            else (cs.Launch w ctxt cccid (ChaincodeSpecGetter.deployment cds)).2.trace) ++
            [Effect.Execute cccid.GetCanonicalName
              { Type_ := ChaincodeMessage_INIT, Payload := payload, Txid := cccid.TxID
                ChannelId := cccid.ChainID, ChaincodeEvent := none }]) ∧
    (∀ (cis : ChaincodeInvocationSpec) (cspec : ChaincodeSpec) (cMsg : ChaincodeInput)
      (payload : String) (h : Handler),
      cis.ChaincodeSpec = some cspec → cspec.Input = some cMsg →
      (cs.Launch w ctxt cccid (ChaincodeSpecGetter.invocation cis)).1 = none →
      pb.Marshal { Args := cMsg.Args, Decorations := cccid.ProposalDecorations } =
        Except.ok payload →
      GoMap.get (cs.Launch w ctxt cccid (ChaincodeSpecGetter.invocation cis)).2.handlers
        cccid.GetCanonicalName = some h →
      ∃ r w1, cs.ExecuteSpec pb w ctxt cccid (ChaincodeSpecGetter.invocation cis) canName now =
          Except.ok (r, w1) ∧
        w1.trace =
          (if !(cccid.Syscc || cs.UserRunsCC) then
              (cs.Launch w ctxt cccid (ChaincodeSpecGetter.invocation cis)).2.trace ++
                [Effect.UpdateVM canName now]
            else (cs.Launch w ctxt cccid (ChaincodeSpecGetter.invocation cis)).2.trace) ++
            [Effect.Execute cccid.GetCanonicalName
              { Type_ := ChaincodeMessage_TRANSACTION, Payload := payload, Txid := cccid.TxID
                ChannelId := cccid.ChainID, ChaincodeEvent := none }]) ∧
    ChaincodeMessage_INIT ≠ ChaincodeMessage_TRANSACTION := by
  refine ⟨fun _ => rfl, ?_, ?_, by decide⟩
  · intro cds cspec cMsg payload h hs hi hl hm hh
    exact ExecuteSpec_sends cs pb w ctxt cccid _ canName now _ cspec cMsg payload h
      (Or.inl ⟨cds, rfl, rfl⟩) hs hi hl hm hh
  · intro cis cspec cMsg payload h hs hi hl hm hh
    exact ExecuteSpec_sends cs pb w ctxt cccid _ canName now _ cspec cMsg payload h
      (Or.inr ⟨cis, rfl, rfl⟩) hs hi hl hm hh

theorem ExecuteSpec_classifies_witness :
    (∃ r w1, ChaincodeSupport.sample.ExecuteSpec Proto.sample (World.tracked Handler.completing)
        Context.Background CCContext.sample
        (ChaincodeSpecGetter.deployment ChaincodeDeploymentSpec.sample) "cc1:1.0" 5 =
          Except.ok (r, w1) ∧
      w1.trace =
        [Effect.UpdateVM "cc1:1.0" 5,
          Effect.Execute "cc1:1.0"
            { Type_ := ChaincodeMessage_INIT, Payload := "init", Txid := "tx-id"
              ChannelId := "chain-id", ChaincodeEvent := none }]) :=
  (ExecuteSpec_classifies ChaincodeSupport.sample Proto.sample
    (World.tracked Handler.completing) Context.Background CCContext.sample "cc1:1.0" 5).2.1
    ChaincodeDeploymentSpec.sample _ _ "init" Handler.completing rfl rfl rfl rfl rfl

end chaincode

namespace chaincode

open container gc

/-- C23. The reaper `NewChaincodeSupport` creates has as idle threshold the configured
`chaincode.livetime` when that is strictly positive and 10 minutes otherwise, and as sweep
interval the configured `chaincode.gcInterval` when that is strictly positive and 20 seconds
otherwise; each depends on its own setting only, and the reaper is the one `NewGCManager`
makes for the driver kind `"Docker"`. -/
theorem NewChaincodeSupport_reaper_defaults (Keepalive ExecuteTimeout : Int) (userRunsCC : Bool)
    (launcher : World → Context → CCContext → ChaincodeSpecGetter → Option error × World)
    (liveTime interval : Int) :
    (NewChaincodeSupport Keepalive ExecuteTimeout userRunsCC launcher liveTime
        interval).2.gcManager.vmLiveTime =
      (if 0 < liveTime then liveTime else 600000000000) ∧
    (NewChaincodeSupport Keepalive ExecuteTimeout userRunsCC launcher liveTime
        interval).2.gcManager.gcInterval =
      (if 0 < interval then interval else 20000000000) ∧
    (NewChaincodeSupport Keepalive ExecuteTimeout userRunsCC launcher liveTime
        interval).2.gcManager =
      NewGCManager "Docker" (if 0 < liveTime then liveTime else 10 * Minute)
        (if 0 < interval then interval else 20 * Second) ∧
    10 * Minute = 10 * 60 * 1000000000 ∧ 20 * Second = 20 * 1000000000 := by
  refine ⟨?_, ?_, ?_, by decide, by decide⟩
  · simp only [NewChaincodeSupport, NewGCManager, Minute, Second]
    by_cases h : 0 < liveTime
    · simp [h]
    · simp [h]
  · simp only [NewChaincodeSupport, NewGCManager, Minute, Second]
    by_cases h : 0 < interval
    · simp [h]
    · simp [h]
  · simp only [NewChaincodeSupport, NewGCManager, Minute, Second]
    simp

end chaincode

namespace scc

theorem IsSysCC_iff (sccs : List SystemChaincode) (name : String) :
    IsSysCC sccs name = true ↔ ∃ sysCC ∈ sccs, sysCC.Name = name := by
  induction sccs with
  | nil => simp [IsSysCC]
  | cons s sccs ih =>
    by_cases h : s.Name = name
    · simp [IsSysCC, h]
    · simp [IsSysCC, h, ih]

theorem IsSysCCAndNotInvokableExternal_find (sccs : List SystemChaincode) (name : String) :
    IsSysCCAndNotInvokableExternal sccs name = true ↔
      ∃ sysCC, sccs.find? (fun s => decide (s.Name = name)) = some sysCC ∧
        sysCC.InvokableExternal = false := by
  induction sccs with
  | nil => simp [IsSysCCAndNotInvokableExternal]
  | cons s sccs ih =>
    by_cases h : s.Name = name
    · simp [IsSysCCAndNotInvokableExternal, h, List.find?]
    · simp [IsSysCCAndNotInvokableExternal, h, List.find?, ih]

theorem IsSysCCAndNotInvokableExternal_unique (sccs : List SystemChaincode) (name : String)
    (hnd : (sccs.map (fun s => s.Name)).Nodup) :
    IsSysCCAndNotInvokableExternal sccs name = true ↔
      ∃ sysCC ∈ sccs, sysCC.Name = name ∧ sysCC.InvokableExternal = false := by
  induction sccs with
  | nil => simp [IsSysCCAndNotInvokableExternal]
  | cons s sccs ih =>
    simp only [List.map_cons, List.nodup_cons] at hnd
    by_cases h : s.Name = name
    · simp only [IsSysCCAndNotInvokableExternal, h, if_true, Bool.not_eq_true', List.mem_cons]
      constructor
      · intro hx
        exact ⟨s, Or.inl rfl, h, hx⟩
      · rintro ⟨t, ht | ht, hn, hx⟩
        · subst ht
          exact hx
        · exfalso
          apply hnd.1
          rw [h, ← hn]
          exact List.mem_map_of_mem _ ht
    · simp only [IsSysCCAndNotInvokableExternal, h, if_false, ih hnd.2, List.mem_cons]
      constructor
      · rintro ⟨t, ht, hn, hx⟩
        exact ⟨t, Or.inr ht, hn, hx⟩
      · rintro ⟨t, ht | ht, hn, hx⟩
        · subst ht
          exact absurd hn h
        · exact ⟨t, ht, hn, hx⟩

theorem IsSysCCAndNotInvokableExternal_builtin (name : String) :
    IsSysCCAndNotInvokableExternal systemChaincodes name = true ↔ name = "vscc" := by
  simp only [systemChaincodes, IsSysCCAndNotInvokableExternal]
  by_cases h1 : "cscc" = name
  · subst h1
    simp
  · by_cases h2 : "lscc" = name
    · subst h2
      simp
    · by_cases h3 : "vscc" = name
      · subst h3
        simp
      · by_cases h4 : "qscc" = name
        · subst h4
          simp
        · simp [h1, h2, h3, h4]
          exact fun e => h3 e.symm

/-- C22. For every value of the registry list and every name: `IsSysCC` is true exactly when
some entry has that name; `IsSysCCAndNotInvokableExternal` is true exactly when the entry the
registry resolves the name to (the first with that name) exists and has `InvokableExternal`
false, which for a registry whose names are unique (as the struct requires) is: some entry has
that name and is not invokable externally; a true result implies `IsSysCC`, and the result is
false for every name that is not a system chaincode. The built-in registry has unique names,
and on it the result is true for `"vscc"` and for no other name. -/
theorem IsSysCCAndNotInvokableExternal_spec (sccs : List SystemChaincode) (name : String) :
    (IsSysCC sccs name = true ↔ ∃ sysCC ∈ sccs, sysCC.Name = name) ∧
    (IsSysCCAndNotInvokableExternal sccs name = true ↔
      ∃ sysCC, sccs.find? (fun s => decide (s.Name = name)) = some sysCC ∧
        sysCC.InvokableExternal = false) ∧
    ((sccs.map (fun s => s.Name)).Nodup →
      (IsSysCCAndNotInvokableExternal sccs name = true ↔
        ∃ sysCC ∈ sccs, sysCC.Name = name ∧ sysCC.InvokableExternal = false)) ∧
    (IsSysCCAndNotInvokableExternal sccs name = true → IsSysCC sccs name = true) ∧
    (IsSysCC sccs name = false → IsSysCCAndNotInvokableExternal sccs name = false) ∧
    (systemChaincodes.map (fun s => s.Name)).Nodup ∧
    (IsSysCCAndNotInvokableExternal systemChaincodes name = true ↔ name = "vscc") := by
  have h4 : IsSysCCAndNotInvokableExternal sccs name = true → IsSysCC sccs name = true := by
    intro h
    obtain ⟨s, hs, _⟩ := (IsSysCCAndNotInvokableExternal_find sccs name).1 h
    rw [IsSysCC_iff]
    refine ⟨s, List.mem_of_find?_eq_some hs, ?_⟩
    simpa using List.find?_some hs
  refine ⟨IsSysCC_iff sccs name, IsSysCCAndNotInvokableExternal_find sccs name,
    IsSysCCAndNotInvokableExternal_unique sccs name, h4, ?_, by decide,
    IsSysCCAndNotInvokableExternal_builtin name⟩
  intro h
  cases hx : IsSysCCAndNotInvokableExternal sccs name with
  | false => rfl
  | true =>
    rw [h4 hx] at h
    cases h

theorem IsSysCCAndNotInvokableExternal_spec_witness :
    (systemChaincodes.map (fun s => s.Name)).Nodup ∧
    (IsSysCCAndNotInvokableExternal systemChaincodes "vscc" = true ↔
      ∃ sysCC ∈ systemChaincodes, sysCC.Name = "vscc" ∧ sysCC.InvokableExternal = false) :=
  ⟨by decide, (IsSysCCAndNotInvokableExternal_spec systemChaincodes "vscc").2.2.1 (by decide)⟩

theorem repeated_name_first_entry :
    IsSysCCAndNotInvokableExternal SystemChaincode.repeated "a" = false ∧
    IsSysCC SystemChaincode.repeated "a" = true ∧
    IsSysCCAndNotInvokableExternal systemChaincodes "vscc" = true ∧
    IsSysCCAndNotInvokableExternal systemChaincodes "lscc" = false ∧
    IsSysCCAndNotInvokableExternal systemChaincodes "mycc" = false := by
  decide

end scc

namespace mockcontroller

open container

/-- C27 fails on the code. The `MockVM` that `NewVM` returns has a nil map, and `Start` on it,
for every container id and whatever the other arguments, panics on the write to that map
instead of returning nil; `Stop`, `Destroy` and `GetVMName` return without error and leave the
driver as it was. -/
theorem fresh_MockVM_Start_panics (GetName : CCID → String) (ctxt : Context) (ccid : CCID)
    (args env : List String) (filesToUpload : List (String × List Nat))
    (builder prelaunchFunc : Nat) (now : Int) (timeout : Nat)
    (dontkill dontremove force noprune : Bool) :
    (NewProvider.NewVM).runningVMs = none ∧
    (NewProvider.NewVM).Start GetName ctxt ccid args env filesToUpload builder prelaunchFunc now =
      Except.error "assignment to entry in nil map" ∧
    (NewProvider.NewVM).Stop GetName ctxt ccid timeout dontkill dontremove =
      (none, NewProvider.NewVM) ∧
    (NewProvider.NewVM).Destroy GetName ctxt ccid force noprune = (none, NewProvider.NewVM) ∧
    (NewProvider.NewVM).GetVMName GetName ccid = (GetName ccid, none) :=
  ⟨rfl, rfl, rfl, rfl, rfl⟩

end mockcontroller

namespace gc

open container

theorem VMCProcess_dead (pickDone : Bool) (p : Proc) (vmType : String) (req : StopImageReq)
    (h : p.Dead vmType) :
    (VMCProcess pickDone p Context.Background vmType req).1.2 ≠ none ∧
      (VMCProcess pickDone p Context.Background vmType req).2 = p := by
  cases p with
  | live vmc =>
    obtain ⟨q, hq, hn⟩ := h
    simp [VMCProcess, Process, newVM, hq, hn]
  | panicked msg => simp [VMCProcess]
  | blocked vmc => simp [VMCProcess]

theorem Process_providers (vmc vmc1 : VMController) (ctxt : Context) (vmtype : String)
    (req : VMCReqIntf) (pd : Bool) (resp : VMCResp) (err : Option error)
    (h : Process vmc ctxt vmtype req pd = ProcessResult.returned resp err vmc1) :
    vmc1.vmProviders = vmc.vmProviders := by
  unfold Process at h
  split at h
  · cases h
  · cases h
    rfl
  · split at h
    · split at h <;> cases h <;> rfl
    · rename_i id _
      split at h
      · cases h
      · rename_i vmcL hL
        have hp1 : vmcL.vmProviders = vmc.vmProviders := by
          unfold lockContainer lockContainerAcquire at hL
          split at hL
          · cases hL
          · cases hL
            exact lockContainerEnter_providers vmc id
        split at h
        · cases h
        · rename_i vmc2 hu
          have hp2 := unlockContainer_providers vmcL vmc2 id hu
          split at h <;> cases h <;> rw [hp2, hp1]

theorem VMCProcess_error_dead (pickDone : Bool) (p : Proc) (vmType : String)
    (req : StopImageReq)
    (h : (VMCProcess pickDone p Context.Background vmType req).1.2 ≠ none) :
    ((VMCProcess pickDone p Context.Background vmType req).2).Dead vmType := by
  cases p with
  | panicked msg => simp [VMCProcess, Proc.Dead]
  | blocked vmc => simp [VMCProcess, Proc.Dead]
  | live vmc =>
    simp only [VMCProcess] at h ⊢
    cases hP : Process vmc Context.Background vmType req.toReq pickDone with
    | panicked msg => simp [Proc.Dead]
    | blocked => simp [Proc.Dead]
    | returned resp err vmc1 =>
      simp only [hP] at h
      simp only [Proc.Dead]
      unfold Process at hP
      simp only [newVM] at hP
      cases hq : GoMap.get vmc.vmProviders vmType with
      | none => simp [hq] at hP
      | some q =>
        simp only [hq] at hP
        cases hn : q.NewVM with
        | none =>
          simp only [hn] at hP
          cases hP
          exact ⟨q, hq, hn⟩
        | some v =>
          exfalso
          simp only [hn, Context.Background, Option.isSome_none, Bool.and_false,
            Bool.false_eq_true, if_false] at hP
          split at hP
          · cases hP
            exact h rfl
          · split at hP
            · cases hP
            · split at hP
              · cases hP
              · cases hP
                exact h rfl

theorem stopLoop_vmType {σ : Type} (P : Dispatcher σ) :
    ∀ (l : List (String × vmInfo)) (gc : GCManager) (d : σ),
      (GCManager.stopLoop P l gc d).1.vmType = gc.vmType ∧
      (GCManager.stopLoop P l gc d).1.vmLiveTime = gc.vmLiveTime
  | [], gc, d => by simp [GCManager.stopLoop]
  | (k, info) :: rest, gc, d => by
    cases hstop : (gc.stopVM P d info.ccid).1 with
    | some err =>
      simp only [GCManager.stopLoop, hstop]
      exact stopLoop_vmType P rest gc _
    | none =>
      simp only [GCManager.stopLoop, hstop]
      exact stopLoop_vmType P rest _ _

theorem stopLoop_dead (pickDone : Bool) :
    ∀ (l : List (String × vmInfo)) (gc : GCManager) (p : Proc), p.Dead gc.vmType →
      (GCManager.stopLoop (VMCProcess pickDone) l gc p).1 = gc ∧
      (GCManager.stopLoop (VMCProcess pickDone) l gc p).2.1 = p
  | [], gc, p, _ => by simp [GCManager.stopLoop]
  | (k, info) :: rest, gc, p, h => by
    obtain ⟨h1, h2⟩ := VMCProcess_dead pickDone p gc.vmType
      { CCID := info.ccid, Timeout := 0, Dontkill := false, Dontremove := true } h
    cases hstop : (gc.stopVM (VMCProcess pickDone) p info.ccid).1 with
    | none =>
      simp only [GCManager.stopVM] at hstop
      exact absurd hstop h1
    | some err =>
      have hst : (gc.stopVM (VMCProcess pickDone) p info.ccid).2 = p := by
        simp only [GCManager.stopVM]
        exact h2
      simp only [GCManager.stopLoop, hstop, hst]
      exact stopLoop_dead pickDone rest gc p h

theorem stopLoop_clears (pickDone : Bool) :
    ∀ (l : List (String × vmInfo)) (gc : GCManager) (p : Proc),
      ((GCManager.stopLoop (VMCProcess pickDone) l gc p).2.1).Dead gc.vmType ∨
      ∀ name, name ∈ GoMap.keys (GCManager.stopLoop (VMCProcess pickDone) l gc p).1.expiredVMs →
        name ∈ GoMap.keys gc.expiredVMs ∧ name ∉ GoMap.keys l
  | [], gc, p => by
    right
    intro name hn
    simp only [GCManager.stopLoop] at hn
    exact ⟨hn, by simp [GoMap.keys]⟩
  | (k, info) :: rest, gc, p => by
    cases hstop : (gc.stopVM (VMCProcess pickDone) p info.ccid).1 with
    | some err =>
      left
      have hd : ((gc.stopVM (VMCProcess pickDone) p info.ccid).2).Dead gc.vmType := by
        simp only [GCManager.stopVM] at hstop ⊢
        apply VMCProcess_error_dead
        rw [hstop]
        simp
      simp only [GCManager.stopLoop, hstop]
      rw [(stopLoop_dead pickDone rest gc _ hd).2]
      exact hd
    | none =>
      simp only [GCManager.stopLoop, hstop]
      rcases stopLoop_clears pickDone rest
        { gc with
          runningVMs := GoMap.delete gc.runningVMs k
          expiredVMs := GoMap.delete gc.expiredVMs k }
        (gc.stopVM (VMCProcess pickDone) p info.ccid).2 with hd | hc
      · exact Or.inl hd
      · right
        intro name hn
        obtain ⟨c1, c2⟩ := hc name hn
        obtain ⟨d1, d2⟩ := (GoMap.mem_keys_delete _ _ _).1 c1
        refine ⟨d2, ?_⟩
        simp only [GoMap.keys, List.map_cons, List.mem_cons, not_or]
        exact ⟨d1, c2⟩

theorem keys_eq_nil {α : Type} (m : List (String × α)) (h : ∀ name, name ∉ GoMap.keys m) :
    m = [] := by
  cases m with
  | nil => rfl
  | cons p m =>
    exfalso
    exact h p.1 (by simp [GoMap.keys])

theorem Reaper.step_settled (pickDone : Bool) (r r1 : Reaper Proc) (e : Event)
    (h : r.gc.expiredVMs = [] ∨ r.disp.Dead r.gc.vmType)
    (hs : r.step (VMCProcess pickDone) e = some r1) :
    (r1.gc.expiredVMs = [] ∨ r1.disp.Dead r1.gc.vmType) ∧
      r1.gc.vmLiveTime = r.gc.vmLiveTime := by
  cases e with
  | AddVM canName ccid activeTime =>
    simp only [Reaper.step, Option.some.injEq] at hs
    subst hs
    exact ⟨h, rfl⟩
  | UpdateVM canName activeTime =>
    simp only [Reaper.step, Option.some.injEq] at hs
    subst hs
    simp only [GCManager.UpdateVM]
    split
    · exact ⟨h, rfl⟩
    · exact ⟨h, rfl⟩
  | tick now =>
    simp only [Reaper.step] at hs
    split at hs
    · cases hs
      simp only [Reaper.sweep, GCManager.stopExpiredVMs]
      have hv := stopLoop_vmType (VMCProcess pickDone) (r.gc.markExpired now).expiredVMs
        (r.gc.markExpired now) r.disp
      have hv1 : (r.gc.markExpired now).vmType = r.gc.vmType := rfl
      have hv2 : (r.gc.markExpired now).vmLiveTime = r.gc.vmLiveTime := rfl
      refine ⟨?_, by rw [hv.2, hv2]⟩
      rw [hv.1, hv1]
      rcases stopLoop_clears pickDone (r.gc.markExpired now).expiredVMs (r.gc.markExpired now)
        r.disp with hd | hc
      · exact Or.inr hd
      · left
        apply keys_eq_nil
        intro name hn
        exact (hc name hn).2 (hc name hn).1
    · cases hs
  | exit =>
    simp only [Reaper.step] at hs
    split at hs
    · cases hs
      exact ⟨h, rfl⟩
    · cases hs
  | Close =>
    simp only [Reaper.step, Option.some.injEq] at hs
    subst hs
    simp only [GCManager.Close]
    split
    · exact ⟨h, rfl⟩
    · exact ⟨h, rfl⟩

theorem Reaper.run_settled (pickDone : Bool) (es : List Event) :
    ∀ (r r1 : Reaper Proc), (r.gc.expiredVMs = [] ∨ r.disp.Dead r.gc.vmType) →
      r.run (VMCProcess pickDone) es = some r1 →
      (r1.gc.expiredVMs = [] ∨ r1.disp.Dead r1.gc.vmType) ∧
        r1.gc.vmLiveTime = r.gc.vmLiveTime := by
  induction es with
  | nil =>
    intro r r1 h hr
    simp only [Reaper.run, Option.some.injEq] at hr
    subst hr
    exact ⟨h, rfl⟩
  | cons e es ih =>
    intro r r1 h hr
    simp only [Reaper.run] at hr
    cases hs : r.step (VMCProcess pickDone) e with
    | none => simp [hs] at hr
    | some r2 =>
      simp only [hs] at hr
      obtain ⟨a1, a2⟩ := Reaper.step_settled pickDone r r2 e h hs
      obtain ⟨b1, b2⟩ := ih r2 r1 a1 hr
      exact ⟨b1, b2.trans a2⟩

/-- C10. On the dispatcher of `controller.go`, for every controller (every provider table,
every driver, every state of the lock table), every idle threshold that is a `time.Duration`
and every state of the reaper reached from `NewGCManager` by any calls of its methods and any
sweeps: a tracked container whose last-active time is not strictly before `now - vmLiveTime`
is still tracked, with the same entry, after the sweep of the tick at time `now`, whatever the
drivers answered to the Stops of this and of earlier sweeps; and the tick of a running loop is
that sweep. -/
theorem active_container_survives_sweep (pickDone : Bool) (vmType : String)
    (vmLiveTime gcInterval : Int) (vmc : VMController) (es : List Event) (r : Reaper Proc)
    (hmin : -9223372036854775808 ≤ vmLiveTime) (hmax : vmLiveTime < 9223372036854775808)
    (h : (Reaper.init vmType vmLiveTime gcInterval (Proc.live vmc)).run (VMCProcess pickDone)
      es = some r)
    (now : Int) (name : String) (info : vmInfo)
    (hget : GoMap.get r.gc.runningVMs name = some info)
    (hactive : ¬ info.activeTime < now - r.gc.vmLiveTime) :
    GoMap.get (r.sweep (VMCProcess pickDone) now).gc.runningVMs name = some info ∧
    (∀ r1, r.step (VMCProcess pickDone) (Event.tick now) = some r1 →
      GoMap.get r1.gc.runningVMs name = some info) ∧
    (r.looping = true →
      r.step (VMCProcess pickDone) (Event.tick now) = some (r.sweep (VMCProcess pickDone) now)) := by
  have hwf : r.gc.WF :=
    Reaper.run_wf (VMCProcess pickDone) es _ r (Reaper.init_wf vmType vmLiveTime gcInterval _) h
  obtain ⟨hI, hlive⟩ := Reaper.run_settled pickDone es _ r
    (Or.inl (by simp [Reaper.init, NewGCManager])) h
  have hlt : r.gc.vmLiveTime = vmLiveTime := by
    rw [hlive]
    rfl
  have key : GoMap.get (r.sweep (VMCProcess pickDone) now).gc.runningVMs name = some info := by
    rcases hI with he | hd
    · exact sweep_keeps_active (VMCProcess pickDone) r now hwf name info hget hactive
        (by rw [he]; rfl) (by rw [hlt]; exact hmin) (by rw [hlt]; exact hmax)
    · have hd1 : r.disp.Dead (r.gc.markExpired now).vmType := hd
      have := (stopLoop_dead pickDone (r.gc.markExpired now).expiredVMs (r.gc.markExpired now)
        r.disp hd1).1
      simp only [Reaper.sweep, GCManager.stopExpiredVMs]
      rw [this]
      exact hget
  refine ⟨key, ?_, ?_⟩
  · intro r1 hs
    simp only [Reaper.step] at hs
    split at hs
    · cases hs
      exact key
    · cases hs
  · intro hl
    simp [Reaper.step, hl]

theorem active_container_survives_sweep_witness :
    (Reaper.init "MockVM" 10 1
        (Proc.live (NewVMController ⟨none⟩ ⟨none⟩ ⟨some failingStop⟩))).run (VMCProcess false)
        [Event.AddVM "cc1:1.0" CCID.cc1 0, Event.AddVM "cc2:1.0" CCID.cc2 0,
          Event.UpdateVM "cc2:1.0" 7] =
      some { gc := { GCManager.sample with
                runningVMs := [("cc1:1.0", { ccid := CCID.cc1, activeTime := 0 }),
                  ("cc2:1.0", { ccid := CCID.cc2, activeTime := 7 })]
                expiredVMs := [] }
             disp := Proc.live (NewVMController ⟨none⟩ ⟨none⟩ ⟨some failingStop⟩)
             looping := true, log := [] } ∧
    ¬ ((7 : Int) < 12 - 10) ∧
    GoMap.get
        (Reaper.sweep (VMCProcess false)
          { gc := { GCManager.sample with
                runningVMs := [("cc1:1.0", { ccid := CCID.cc1, activeTime := 0 }),
                  ("cc2:1.0", { ccid := CCID.cc2, activeTime := 7 })]
                expiredVMs := [] }
            disp := Proc.live (NewVMController ⟨none⟩ ⟨none⟩ ⟨some failingStop⟩)
            looping := true, log := [] } 12).gc.runningVMs "cc2:1.0" =
      some { ccid := CCID.cc2, activeTime := 7 } :=
  ⟨rfl, by decide,
    (active_container_survives_sweep false "MockVM" 10 1
      (NewVMController ⟨none⟩ ⟨none⟩ ⟨some failingStop⟩)
      [Event.AddVM "cc1:1.0" CCID.cc1 0, Event.AddVM "cc2:1.0" CCID.cc2 0,
        Event.UpdateVM "cc2:1.0" 7]
      { gc := { GCManager.sample with
                runningVMs := [("cc1:1.0", { ccid := CCID.cc1, activeTime := 0 }),
                  ("cc2:1.0", { ccid := CCID.cc2, activeTime := 7 })]
                expiredVMs := [] }
        disp := Proc.live (NewVMController ⟨none⟩ ⟨none⟩ ⟨some failingStop⟩)
        looping := true, log := [] }
      (by decide) (by decide) rfl 12 "cc2:1.0" { ccid := CCID.cc2, activeTime := 7 } rfl
      (by decide)).1⟩

theorem TestUpdateVMGC_controller :
    ((Reaper.init "MockVM" 10 1
          (Proc.live (NewVMController ⟨none⟩ ⟨none⟩ ⟨some failingStop⟩))).run (VMCProcess false)
        [Event.AddVM "cc1:1.0" CCID.cc1 0, Event.AddVM "cc2:1.0" CCID.cc2 0,
          Event.UpdateVM "cc2:1.0" 7, Event.tick 12]).map
        (fun r => (r.gc.runningVMs, r.gc.expiredVMs, r.log)) =
      some ([("cc2:1.0", { ccid := CCID.cc2, activeTime := 7 })], [], [("cc1:1.0", none)]) := by
  decide

end gc

namespace gc

open container

/-- C8 fails on the code. With the least `time.Duration` as idle threshold, a container last
active at time 0 is strictly before `now - vmLiveTime` at the tick of time 11, and the scan
copies nothing: the negation `-gc.vmLiveTime` wraps to the threshold itself, so the cutoff the
code computes is 2^63 nanoseconds before `now`. With the threshold 10 the same container is
copied. -/
theorem least_duration_expires_nothing :
    ((NewGCManager "MockVM" (-9223372036854775808) 1).AddVM "cc1:1.0" CCID.cc1 0).runningVMs =
      [("cc1:1.0", { ccid := CCID.cc1, activeTime := 0 })] ∧
    (0 : Int) < 11 - (NewGCManager "MockVM" (-9223372036854775808) 1).vmLiveTime ∧
    int64 (-(-9223372036854775808)) = -9223372036854775808 ∧
    (((NewGCManager "MockVM" (-9223372036854775808) 1).AddVM "cc1:1.0" CCID.cc1 0).markExpired
        11).expiredVMs = [] ∧
    (((NewGCManager "MockVM" 10 1).AddVM "cc1:1.0" CCID.cc1 0).markExpired 11).expiredVMs =
      [("cc1:1.0", { ccid := CCID.cc1, activeTime := 0 })] := by
  refine ⟨by decide, by decide, by decide, by decide, by decide⟩

/-- C9 fails on the code. With a driver whose Stop fails, the dispatcher of `controller.go`
returns the failure in the response and nil as its second result; `stopVM` drops the response,
so `stopExpiredVMs` takes the Stop of the expired container `cc1` for a success: it removes
the name from the tracked and from the expired set and logs no error, here from the sample
manager and in the sweep of a reaper that tracks `cc1` since time 0. -/
theorem failed_Stop_is_untracked :
    failingStop.Stop Context.Background CCID.cc1 0 false true = some "boom" ∧
    (VMCProcess false (Proc.live (NewVMController ⟨none⟩ ⟨none⟩ ⟨some failingStop⟩))
        Context.Background "MockVM"
        { CCID := CCID.cc1, Timeout := 0, Dontkill := false, Dontremove := true }).1 =
      ({ Err := some "boom", Resp := none }, none) ∧
    GCManager.sample.expiredVMs = [("cc1:1.0", { ccid := CCID.cc1, activeTime := 0 })] ∧
    ((GCManager.sample.stopExpiredVMs (VMCProcess false)
          (Proc.live (NewVMController ⟨none⟩ ⟨none⟩ ⟨some failingStop⟩))).1.runningVMs,
        (GCManager.sample.stopExpiredVMs (VMCProcess false)
          (Proc.live (NewVMController ⟨none⟩ ⟨none⟩ ⟨some failingStop⟩))).1.expiredVMs,
        (GCManager.sample.stopExpiredVMs (VMCProcess false)
          (Proc.live (NewVMController ⟨none⟩ ⟨none⟩ ⟨some failingStop⟩))).2.2) =
      ([("cc2:1.0", { ccid := CCID.cc2, activeTime := 10 })], [], [("cc1:1.0", none)]) ∧
    ((Reaper.init "MockVM" 10 1
          (Proc.live (NewVMController ⟨none⟩ ⟨none⟩ ⟨some failingStop⟩))).run (VMCProcess false)
        [Event.AddVM "cc1:1.0" CCID.cc1 0, Event.tick 11]).map
        (fun r => (r.gc.runningVMs, r.gc.expiredVMs, r.log)) =
      some ([], [], [("cc1:1.0", none)]) := by
  refine ⟨by decide, by decide, by decide, by decide, by decide⟩

end gc

namespace chaincode

open container gc

theorem Launcher.Launch_keeps_reaper (l : Launcher) (ready : Option (Int × Handler)) (w : World)
    (ctx : Context) (cccid : CCContext) (spec : ChaincodeSpecGetter) :
    (l.Launch ready w ctx cccid spec).2.gcManager = w.gcManager := by
  have hd : ∀ w0, (l.deploymentSpec w0 ctx cccid spec).2.gcManager = w0.gcManager := by
    intro w0
    unfold Launcher.deploymentSpec
    split
    · rename_i err w1 heq
      have h2 := congrArg (fun x => x.2.gcManager) heq
      simp only at h2
      rw [← h2]
      split
      · rfl
      · split <;> rfl
    · rename_i cds w1 heq
      have h2 := congrArg (fun x => x.2.gcManager) heq
      simp only at h2
      have h3 : w1.gcManager = w0.gcManager := by
        rw [← h2]
        split
        · rfl
        · split <;> rfl
      split
      · exact h3
      · exact h3
  have hs : ∀ w0 cds, (l.start ready w0 ctx cccid cds).2.gcManager = w0.gcManager := by
    intro w0 cds
    unfold Launcher.start
    cases hl : World.Launching w0 cccid.GetCanonicalName with
    | error e => rfl
    | ok w1 =>
      have hw1 : w1.gcManager = w0.gcManager := by
        unfold World.Launching at hl
        split at hl
        · cases hl
        · cases hl
          rfl
      simp only
      have hc : ∀ w2 : World, (l.cleanup w2 ctx cccid cds).gcManager = w2.gcManager := by
        intro w2
        unfold Launcher.cleanup
        split <;> rfl
      repeat' split
      all_goals first | (rw [hc]; exact hw1) | exact hw1
  unfold Launcher.Launch
  split
  · rename_i err w1 he
    have := hd w
    rw [he] at this
    exact this
  · rename_i cds w1 he
    have := hd w
    rw [he] at this
    rw [hs]
    exact this


theorem ExecuteChaincode_total (cs : ChaincodeSupport) (pb : Proto) (w : World)
    (ctxt : Context) (cccid : CCContext) (args : List String) (canName : String) (ccid : CCID)
    (tUpdate tAdd : Int) :
    ∃ r w1, cs.ExecuteChaincode pb w ctxt cccid args canName ccid tUpdate tAdd =
      Except.ok (r, w1) := by
  obtain ⟨⟨⟨a, b, c⟩, wS⟩, hS⟩ := ExecuteSpec_total cs pb w ctxt cccid
    (invocationSpec cccid args) canName tUpdate _ _ rfl rfl
  unfold ChaincodeSupport.ExecuteChaincode
  rw [hS]
  cases c with
  | some err => exact ⟨_, _, rfl⟩
  | none =>
    simp only
    split <;> exact ⟨_, _, rfl⟩

theorem ExecuteChaincode_dispatched (cs : ChaincodeSupport) (pb : Proto) (w : World)
    (ctxt : Context) (cccid : CCContext) (args : List String) (canName : String) (ccid : CCID)
    (tUpdate tAdd : Int) (r : Option Response × Option ChaincodeEvent × Option error)
    (w1 : World) (payload : String) (h : Handler)
    (hR : cs.ExecuteChaincode pb w ctxt cccid args canName ccid tUpdate tAdd =
      Except.ok (r, w1))
    (hl : (cs.Launch w ctxt cccid (invocationSpec cccid args)).1 = none)
    (hm : pb.Marshal { Args := args, Decorations := cccid.ProposalDecorations } =
      Except.ok payload)
    (hh : GoMap.get (cs.Launch w ctxt cccid (invocationSpec cccid args)).2.handlers
      cccid.GetCanonicalName = some h)
    (hu : (cccid.Syscc || cs.UserRunsCC) = false) :
    (r.2.2 ≠ none →
      w1.gcManager =
          (cs.Launch w ctxt cccid (invocationSpec cccid args)).2.gcManager.UpdateVM canName
            tUpdate ∧
        w1.trace =
          (cs.Launch w ctxt cccid (invocationSpec cccid args)).2.trace ++
            [Effect.UpdateVM canName tUpdate,
              Effect.Execute cccid.GetCanonicalName
                { Type_ := ChaincodeMessage_TRANSACTION, Payload := payload, Txid := cccid.TxID
                  ChannelId := cccid.ChainID, ChaincodeEvent := none }]) ∧
    (r.2.2 = none →
      w1.gcManager =
          ((cs.Launch w ctxt cccid (invocationSpec cccid args)).2.gcManager.UpdateVM canName
            tUpdate).AddVM canName ccid tAdd ∧
        w1.trace =
          (cs.Launch w ctxt cccid (invocationSpec cccid args)).2.trace ++
            [Effect.UpdateVM canName tUpdate,
              Effect.Execute cccid.GetCanonicalName
                { Type_ := ChaincodeMessage_TRANSACTION, Payload := payload, Txid := cccid.TxID
                  ChannelId := cccid.ChainID, ChaincodeEvent := none },
              Effect.AddVM canName ccid tAdd]) ∧
    (r.2.2 = none ↔
      (h.Execute ctxt cccid
          { Type_ := ChaincodeMessage_TRANSACTION, Payload := payload, Txid := cccid.TxID
            ChannelId := cccid.ChainID, ChaincodeEvent := none } cs.ExecuteTimeout).2 = none ∧
        (normalise pb cccid
          (h.Execute ctxt cccid
            { Type_ := ChaincodeMessage_TRANSACTION, Payload := payload, Txid := cccid.TxID
              ChannelId := cccid.ChainID, ChaincodeEvent := none } cs.ExecuteTimeout).1).2.2 =
          none) := by
  have hc : createCCMessage pb ChaincodeMessage_TRANSACTION cccid.ChainID cccid.TxID
      { Args := args, Decorations := cccid.ProposalDecorations } =
      Except.ok { Type_ := ChaincodeMessage_TRANSACTION, Payload := payload, Txid := cccid.TxID
                  ChannelId := cccid.ChainID, ChaincodeEvent := none } := by
    simp only [createCCMessage, hm]
  have hb : (!(cccid.Syscc || cs.UserRunsCC)) = true := by simp [hu]
  unfold ChaincodeSupport.ExecuteChaincode at hR
  have hgs : (invocationSpec cccid args).GetChaincodeSpec =
      some { Type_ := ChaincodeSpec_GOLANG
             ChaincodeId := some { Name := cccid.Name, Version := "" }
             Input := some { Args := args, Decorations := [] } } := rfl
  cases he : (h.Execute ctxt cccid
      { Type_ := ChaincodeMessage_TRANSACTION, Payload := payload, Txid := cccid.TxID
        ChannelId := cccid.ChainID, ChaincodeEvent := none } cs.ExecuteTimeout).2 with
  | some err =>
    have hS : cs.ExecuteSpec pb w ctxt cccid (invocationSpec cccid args) canName tUpdate =
        Except.ok ((none, none,
            some ("failed to execute transaction " ++ cccid.TxID ++ ": " ++
              ("error sending: " ++ err))),
          { (cs.Launch w ctxt cccid (invocationSpec cccid args)).2 with
            gcManager :=
              (cs.Launch w ctxt cccid (invocationSpec cccid args)).2.gcManager.UpdateVM canName
                tUpdate
            trace :=
              ((cs.Launch w ctxt cccid (invocationSpec cccid args)).2.trace ++
                [Effect.UpdateVM canName tUpdate]) ++
                [Effect.Execute cccid.GetCanonicalName
                  { Type_ := ChaincodeMessage_TRANSACTION, Payload := payload
                    Txid := cccid.TxID, ChannelId := cccid.ChainID
                    ChaincodeEvent := none }] }) := by
      have hl2 := hl
      have hh2 := hh
      simp only [invocationSpec] at hl2 hh2 ⊢
      simp only [ChaincodeSupport.ExecuteSpec, hl2, hc, ChaincodeSpecGetter.GetChaincodeSpec,
        ChaincodeSupport.execute, hh2, he, hb, if_true]
    rw [hS] at hR
    simp only [Except.ok.injEq, Prod.mk.injEq] at hR
    obtain ⟨hr, hw⟩ := hR
    subst hr hw
    refine ⟨fun _ => ⟨rfl, by simp⟩, fun hn => by simp at hn, ?_⟩
    simp
  | none =>
    have hS : cs.ExecuteSpec pb w ctxt cccid (invocationSpec cccid args) canName tUpdate =
        Except.ok (normalise pb cccid
            (h.Execute ctxt cccid
              { Type_ := ChaincodeMessage_TRANSACTION, Payload := payload, Txid := cccid.TxID
                ChannelId := cccid.ChainID, ChaincodeEvent := none } cs.ExecuteTimeout).1,
          { (cs.Launch w ctxt cccid (invocationSpec cccid args)).2 with
            gcManager :=
              (cs.Launch w ctxt cccid (invocationSpec cccid args)).2.gcManager.UpdateVM canName
                tUpdate
            trace :=
              ((cs.Launch w ctxt cccid (invocationSpec cccid args)).2.trace ++
                [Effect.UpdateVM canName tUpdate]) ++
                [Effect.Execute cccid.GetCanonicalName
                  { Type_ := ChaincodeMessage_TRANSACTION, Payload := payload
                    Txid := cccid.TxID, ChannelId := cccid.ChainID
                    ChaincodeEvent := none }] }) := by
      have hl2 := hl
      have hh2 := hh
      simp only [invocationSpec] at hl2 hh2 ⊢
      simp only [ChaincodeSupport.ExecuteSpec, hl2, hc, ChaincodeSpecGetter.GetChaincodeSpec,
        ChaincodeSupport.execute, hh2, he, hb, if_true]
    rw [hS] at hR
    generalize normalise pb cccid
      (h.Execute ctxt cccid
        { Type_ := ChaincodeMessage_TRANSACTION, Payload := payload, Txid := cccid.TxID
          ChannelId := cccid.ChainID, ChaincodeEvent := none } cs.ExecuteTimeout).1 = n at hR ⊢
    obtain ⟨a, b, c⟩ := n
    cases c with
    | some err =>
      simp only [Except.ok.injEq, Prod.mk.injEq] at hR
      obtain ⟨hr, hw⟩ := hR
      subst hr hw
      refine ⟨fun _ => ⟨rfl, by simp⟩, fun hn => by simp at hn, ?_⟩
      simp
    | none =>
      simp only [hb, if_true, Except.ok.injEq, Prod.mk.injEq] at hR
      obtain ⟨hr, hw⟩ := hR
      subst hr hw
      refine ⟨fun hn => by simp at hn, fun _ => ⟨rfl, by simp⟩, ?_⟩
      simp

theorem ExecuteChaincode_not_dispatched (cs : ChaincodeSupport) (pb : Proto) (w : World)
    (ctxt : Context) (cccid : CCContext) (args : List String) (canName : String) (ccid : CCID)
    (tUpdate tAdd : Int) (r : Option Response × Option ChaincodeEvent × Option error)
    (w1 : World)
    (hR : cs.ExecuteChaincode pb w ctxt cccid args canName ccid tUpdate tAdd =
      Except.ok (r, w1))
    (hno : (cs.Launch w ctxt cccid (invocationSpec cccid args)).1 ≠ none ∨
      (∃ e, pb.Marshal { Args := args, Decorations := cccid.ProposalDecorations } =
        Except.error e) ∨
      GoMap.get (cs.Launch w ctxt cccid (invocationSpec cccid args)).2.handlers
        cccid.GetCanonicalName = none) :
    r.2.2 ≠ none ∧ w1 = (cs.Launch w ctxt cccid (invocationSpec cccid args)).2 := by
  unfold ChaincodeSupport.ExecuteChaincode at hR
  have key : ∃ err, cs.ExecuteSpec pb w ctxt cccid (invocationSpec cccid args) canName
      tUpdate =
      Except.ok ((none, none, some err),
        (cs.Launch w ctxt cccid (invocationSpec cccid args)).2) := by
    cases hl : (cs.Launch w ctxt cccid (invocationSpec cccid args)).1 with
    | some err =>
      refine ⟨err, ?_⟩
      have hl2 := hl
      simp only [invocationSpec] at hl2 ⊢
      simp only [ChaincodeSupport.ExecuteSpec, hl2]
    | none =>
      cases hm : pb.Marshal { Args := args, Decorations := cccid.ProposalDecorations } with
      | error e =>
        refine ⟨"failed to create chaincode message: " ++ e, ?_⟩
        have hl2 := hl
        simp only [invocationSpec] at hl2 ⊢
        simp only [ChaincodeSupport.ExecuteSpec, hl2, ChaincodeSpecGetter.GetChaincodeSpec,
          createCCMessage, hm]
      | ok payload =>
        rcases hno with h1 | ⟨e, h1⟩ | h1
        · exact absurd hl h1
        · rw [hm] at h1
          cases h1
        · refine ⟨"failed to execute transaction " ++ cccid.TxID ++ ": " ++
            ("unable to invoke chaincode " ++ cccid.GetCanonicalName), ?_⟩
          have hl2 := hl
          have hh2 := h1
          simp only [invocationSpec] at hl2 hh2 ⊢
          simp only [ChaincodeSupport.ExecuteSpec, hl2, ChaincodeSpecGetter.GetChaincodeSpec,
            createCCMessage, hm, ChaincodeSupport.execute, hh2]
  obtain ⟨err, hS⟩ := key
  rw [hS] at hR
  simp only [Except.ok.injEq, Prod.mk.injEq] at hR
  obtain ⟨hr, hw⟩ := hR
  subst hr hw
  exact ⟨by simp, rfl⟩

/-- C15 as amended. For a facade whose launcher does not write the reaper, `ExecuteChaincode`
always returns, and for what it returns: in developer mode or for a system chaincode the
reaper is left as it was. For a user chaincode in production mode, when the launch succeeds,
the input marshals and a handler is found, the calls after the launch are `UpdateVM` at the
current time, then `Execute` on the handler, and then `AddVM` at the current time exactly
when the execution succeeded (the handler returned no error and its message normalises to no
error): after a failure the reaper is as `UpdateVM` left it, after a success as `UpdateVM`
followed by `AddVM` left it. When the launch fails, the input does not marshal or no handler
is found, the call fails and the world is the one the launch left: the reaper is as it was. -/
theorem ExecuteChaincode_reaper_calls (cs : ChaincodeSupport) (pb : Proto) (w : World)
    (ctxt : Context) (cccid : CCContext) (args : List String) (canName : String) (ccid : CCID)
    (tUpdate tAdd : Int)
    (hL : ∀ w0 ctx0 c0 s0, (cs.Launcher w0 ctx0 c0 s0).2.gcManager = w0.gcManager) :
    (∃ r w1, cs.ExecuteChaincode pb w ctxt cccid args canName ccid tUpdate tAdd =
      Except.ok (r, w1)) ∧
    (∀ r w1, cs.ExecuteChaincode pb w ctxt cccid args canName ccid tUpdate tAdd =
        Except.ok (r, w1) →
      ((cccid.Syscc || cs.UserRunsCC) = true → w1.gcManager = w.gcManager) ∧
      (∀ (payload : String) (h : Handler),
        (cs.Launch w ctxt cccid (invocationSpec cccid args)).1 = none →
        pb.Marshal { Args := args, Decorations := cccid.ProposalDecorations } =
          Except.ok payload →
        GoMap.get (cs.Launch w ctxt cccid (invocationSpec cccid args)).2.handlers
          cccid.GetCanonicalName = some h →
        (cccid.Syscc || cs.UserRunsCC) = false →
        (r.2.2 ≠ none →
          w1.gcManager = w.gcManager.UpdateVM canName tUpdate ∧
            w1.trace =
              (cs.Launch w ctxt cccid (invocationSpec cccid args)).2.trace ++
                [Effect.UpdateVM canName tUpdate,
                  Effect.Execute cccid.GetCanonicalName
                    { Type_ := ChaincodeMessage_TRANSACTION, Payload := payload
                      Txid := cccid.TxID, ChannelId := cccid.ChainID
                      ChaincodeEvent := none }]) ∧
        (r.2.2 = none →
          w1.gcManager = (w.gcManager.UpdateVM canName tUpdate).AddVM canName ccid tAdd ∧
            w1.trace =
              (cs.Launch w ctxt cccid (invocationSpec cccid args)).2.trace ++
                [Effect.UpdateVM canName tUpdate,
                  Effect.Execute cccid.GetCanonicalName
                    { Type_ := ChaincodeMessage_TRANSACTION, Payload := payload
                      Txid := cccid.TxID, ChannelId := cccid.ChainID
                      ChaincodeEvent := none },
                  Effect.AddVM canName ccid tAdd]) ∧
        (r.2.2 = none ↔
          (h.Execute ctxt cccid
              { Type_ := ChaincodeMessage_TRANSACTION, Payload := payload, Txid := cccid.TxID
                ChannelId := cccid.ChainID, ChaincodeEvent := none } cs.ExecuteTimeout).2 =
              none ∧
            (normalise pb cccid
              (h.Execute ctxt cccid
                { Type_ := ChaincodeMessage_TRANSACTION, Payload := payload
                  Txid := cccid.TxID, ChannelId := cccid.ChainID
                  ChaincodeEvent := none } cs.ExecuteTimeout).1).2.2 = none)) ∧
      (((cs.Launch w ctxt cccid (invocationSpec cccid args)).1 ≠ none ∨
          (∃ e, pb.Marshal { Args := args, Decorations := cccid.ProposalDecorations } =
            Except.error e) ∨
          GoMap.get (cs.Launch w ctxt cccid (invocationSpec cccid args)).2.handlers
            cccid.GetCanonicalName = none) →
        r.2.2 ≠ none ∧ w1 = (cs.Launch w ctxt cccid (invocationSpec cccid args)).2 ∧
          w1.gcManager = w.gcManager) ∧
      (r.2.2 = none → (cccid.Syscc || cs.UserRunsCC) = false →
        w1.gcManager = (w.gcManager.UpdateVM canName tUpdate).AddVM canName ccid tAdd) ∧
      (r.2.2 ≠ none →
        w1.gcManager = w.gcManager ∨ w1.gcManager = w.gcManager.UpdateVM canName tUpdate)) := by
  have hlg := Launch_gcManager cs w ctxt cccid (invocationSpec cccid args) hL
  refine ⟨ExecuteChaincode_total cs pb w ctxt cccid args canName ccid tUpdate tAdd, ?_⟩
  intro r w1 hR
  obtain ⟨_, f2, f3, f4⟩ := ExecuteChaincode_frame cs pb w ctxt cccid args canName ccid
    tUpdate tAdd r w1 hL hR
  refine ⟨f2, ?_, ?_, f4, ?_⟩
  · intro payload h hl hm hh hu
    have d := ExecuteChaincode_dispatched cs pb w ctxt cccid args canName ccid tUpdate tAdd r w1
      payload h hR hl hm hh hu
    rw [hlg] at d
    exact d
  · intro hno
    obtain ⟨n1, n2⟩ := ExecuteChaincode_not_dispatched cs pb w ctxt cccid args canName ccid
      tUpdate tAdd r w1 hR hno
    exact ⟨n1, n2, by rw [n2, hlg]⟩
  · intro hn
    rcases f3 hn with g | ⟨_, g⟩
    · exact Or.inl g
    · exact Or.inr g

theorem ExecuteChaincode_reaper_calls_witness :
    (World.tracked Handler.failing).gcManager.runningVMs =
      [("cc1:1.0", { ccid := CCID.cc1, activeTime := 0 })] ∧
    ChaincodeSupport.sample.ExecuteChaincode Proto.sample (World.tracked Handler.failing)
        Context.Background CCContext.sample ["invoke"] "cc1:1.0" CCID.cc1 5 6 =
      Except.ok ((none, none,
          some "error invoking chaincode: failed to execute transaction tx-id: error sending: stream closed"),
        { World.tracked Handler.failing with
          gcManager := (World.tracked Handler.failing).gcManager.UpdateVM "cc1:1.0" 5
          trace :=
            [Effect.UpdateVM "cc1:1.0" 5,
              Effect.Execute "cc1:1.0"
                { Type_ := ChaincodeMessage_TRANSACTION, Payload := "invoke", Txid := "tx-id"
                  ChannelId := "chain-id", ChaincodeEvent := none }] }) ∧
    ((World.tracked Handler.failing).gcManager.UpdateVM "cc1:1.0" 5).runningVMs =
      [("cc1:1.0", { ccid := CCID.cc1, activeTime := 5 })] ∧
    (World.tracked Handler.failing).gcManager.UpdateVM "cc1:1.0" 5 =
      (World.tracked Handler.failing).gcManager.UpdateVM "cc1:1.0" 5 ∧
    [Effect.UpdateVM "cc1:1.0" 5,
        Effect.Execute "cc1:1.0"
          { Type_ := ChaincodeMessage_TRANSACTION, Payload := "invoke", Txid := "tx-id"
            ChannelId := "chain-id", ChaincodeEvent := none }] =
      (ChaincodeSupport.sample.Launch (World.tracked Handler.failing) Context.Background
          CCContext.sample (invocationSpec CCContext.sample ["invoke"])).2.trace ++
        [Effect.UpdateVM "cc1:1.0" 5,
          Effect.Execute CCContext.sample.GetCanonicalName
            { Type_ := ChaincodeMessage_TRANSACTION, Payload := "invoke"
              Txid := CCContext.sample.TxID, ChannelId := CCContext.sample.ChainID
              ChaincodeEvent := none }] :=
  ⟨by decide, rfl, by decide,
    ((((ExecuteChaincode_reaper_calls ChaincodeSupport.sample Proto.sample
      (World.tracked Handler.failing) Context.Background CCContext.sample ["invoke"]
      "cc1:1.0" CCID.cc1 5 6
      (fun w0 ctx0 c0 s0 => Launcher.Launch_keeps_reaper _ _ w0 ctx0 c0 s0)).2
      (none, none,
        some "error invoking chaincode: failed to execute transaction tx-id: error sending: stream closed")
      { World.tracked Handler.failing with
        gcManager := (World.tracked Handler.failing).gcManager.UpdateVM "cc1:1.0" 5
        trace :=
          [Effect.UpdateVM "cc1:1.0" 5,
            Effect.Execute "cc1:1.0"
              { Type_ := ChaincodeMessage_TRANSACTION, Payload := "invoke", Txid := "tx-id"
                ChannelId := "chain-id", ChaincodeEvent := none }] } rfl).2.1
      "invoke" Handler.failing rfl rfl rfl rfl).1 (by simp))⟩

end chaincode
